import Mathlib

set_option maxRecDepth 10000

/-!
Shallow embedding of the chainconfig registry integrity / verification /
reconciliation CLI (the revision of `integrity_check` whose contract table
includes `create5` and `multicall3`; that is the copy the specification's
line references point at).

The network and the ethers library are external collaborators; they are
modelled as an explicit `Env` record of pure functions:
  * `getNetwork url` models `provider.getNetwork()` for the provider built
    on `url` (`some chainId` on success, `none` when the call fails);
  * `getCode url addr` models `provider.getCode(addr)` (the returned hex
    string, or an error message when the RPC call throws);
  * `callOk url addr iface` models whether the read-only interface-probe
    call of `iface` at `addr` succeeds;
  * `getAddress a` models `ethers.utils.getAddress` checksum
    normalization (`none` when the literal is not a valid address).
-/

/-- The zero-address sentinel from the source (`ZERO_ADDRESS`). -/
def ZERO_ADDRESS : String := "0x0000000000000000000000000000000000000000"

/-- Association-list lookup, mirroring JavaScript object property read
(`m[k]`, `undefined` becomes `none`). JavaScript objects never hold a key
twice, so lists built by `oinsert` have pairwise distinct keys. -/
def olookup {α : Type} (m : List (String × α)) (k : String) : Option α :=
  (m.find? (fun p => p.1 == k)).map (fun p => p.2)

/-- Association-list update, mirroring JavaScript object property write
(`m[k] = v`): overwrite in place when the key exists, append otherwise. -/
def oinsert {α : Type} (m : List (String × α)) (k : String) (v : α) : List (String × α) :=
  if m.any (fun p => p.1 == k) then
    m.map (fun p => if p.1 == k then (k, v) else p)
  else m ++ [(k, v)]

theorem olookup_nil {α : Type} (k : String) : olookup ([] : List (String × α)) k = none := rfl

theorem olookup_cons {α : Type} (p : String × α) (m : List (String × α)) (k : String) :
    olookup (p :: m) k = if p.1 == k then some p.2 else olookup m k := by
  by_cases h : p.1 == k <;> simp [olookup, List.find?, h]

theorem oinsert_cons_ne {α : Type} (p : String × α) (t : List (String × α)) (k : String)
    (v : α) (hp : (p.1 == k) = false) : oinsert (p :: t) k v = p :: oinsert t k v := by
  by_cases ht : t.any (fun q => q.1 == k)
  · rw [oinsert, if_pos (by simp [List.any_cons, ht]), oinsert, if_pos ht]
    simp only [List.map_cons, hp, Bool.false_eq_true, if_false]
  · rw [oinsert, if_neg (by simp [List.any_cons, hp]; simpa using ht), oinsert, if_neg ht]
    simp

theorem oinsert_cons_eq {α : Type} (p : String × α) (t : List (String × α)) (k : String)
    (v : α) (hp : (p.1 == k) = true) :
    oinsert (p :: t) k v = (k, v) :: t.map (fun q => if q.1 == k then (k, v) else q) := by
  rw [oinsert, if_pos (by simp [List.any_cons, hp])]
  simp only [List.map_cons, hp, if_true]

theorem olookup_mapfix_ne {α : Type} (t : List (String × α)) (k k' : String) (v : α)
    (h : k' ≠ k) :
    olookup (t.map (fun q => if q.1 == k then (k, v) else q)) k' = olookup t k' := by
  induction t with
  | nil => rfl
  | cons q tt ih =>
      by_cases hq : (q.1 == k) = true
      · have hq1 : q.1 = k := by simpa [beq_iff_eq] using hq
        simp only [List.map_cons, if_pos hq]
        rw [olookup_cons, olookup_cons]
        have h1 : (k == k') = false := by
          simp only [beq_eq_false_iff_ne, ne_eq]
          intro hh; exact h hh.symm
        have h2 : (q.1 == k') = false := by
          simp only [beq_eq_false_iff_ne, ne_eq, hq1]
          intro hh; exact h hh.symm
        rw [h1, h2]
        simpa using ih
      · simp only [List.map_cons, if_neg hq]
        rw [olookup_cons, olookup_cons]
        by_cases hq' : (q.1 == k') = true
        · simp [hq']
        · simp only [eq_false_of_ne_true hq', Bool.false_eq_true, if_false]
          exact ih

theorem olookup_oinsert {α : Type} (m : List (String × α)) (k k' : String) (v : α) :
    olookup (oinsert m k v) k' = if k' = k then some v else olookup m k' := by
  induction m with
  | nil =>
      rw [oinsert]
      simp only [List.any_nil, Bool.false_eq_true, if_false, List.nil_append]
      rw [olookup_cons]
      by_cases h : k' = k
      · subst h; simp
      · have : (k == k') = false := by
          simp only [beq_eq_false_iff_ne, ne_eq]
          intro hh; exact h hh.symm
        rw [this]
        simp [h, olookup_nil]
  | cons p t ih =>
      by_cases hp : (p.1 == k) = true
      · rw [oinsert_cons_eq p t k v hp, olookup_cons]
        have hp1 : p.1 = k := by simpa [beq_iff_eq] using hp
        by_cases h : k' = k
        · subst h; simp
        · have hk : (k == k') = false := by
            simp only [beq_eq_false_iff_ne, ne_eq]
            intro hh; exact h hh.symm
          rw [hk]
          simp only [Bool.false_eq_true, if_false, if_neg h]
          rw [olookup_mapfix_ne t k k' v h, olookup_cons]
          have hp2 : (p.1 == k') = false := by
            simp only [beq_eq_false_iff_ne, ne_eq, hp1]
            intro hh; exact h hh.symm
          rw [hp2]
          simp
      · rw [oinsert_cons_ne p t k v (eq_false_of_ne_true hp), olookup_cons, olookup_cons]
        by_cases hq : (p.1 == k') = true
        · have hq1 : p.1 = k' := by simpa [beq_iff_eq] using hq
          have h : k' ≠ k := by
            intro hh
            rw [hh] at hq1
            exact hp (by simpa [beq_iff_eq] using hq1)
          simp [hq, if_neg h]
        · simp only [eq_false_of_ne_true hq, Bool.false_eq_true, if_false]
          exact ih

theorem olookup_oinsert_self {α : Type} (m : List (String × α)) (k : String) (v : α) :
    olookup (oinsert m k v) k = some v := by
  rw [olookup_oinsert]; simp

theorem olookup_oinsert_ne {α : Type} (m : List (String × α)) (k k' : String) (v : α)
    (h : k' ≠ k) : olookup (oinsert m k v) k' = olookup m k' := by
  rw [olookup_oinsert]; simp [h]

/-! ## Registry data model -/

/-- One chain descriptor: the fields read by the verification core
(`display` and the explorer fields only feed log strings and are omitted). -/
structure Chain where
  chainId : Int
  lzSrcId : Option Int := none
  rpcUrls : List String := []
  defaultRpcUrlIndex : Int := 0
  addresses : List (String × String) := []
deriving Inhabited, DecidableEq

/-- The injected network / library collaborator (see the module comment). -/
structure Env where
  getNetwork : String → Option Int
  getCode : String → String → Except String String
  callOk : String → String → String → Bool
  getAddress : String → Option String

/-! ## Static Integrity Checker (`checkBasicIntegrity`) -/

/-- One issue string pushed by `checkBasicIntegrity`; the three string
templates of the source are distinguishable, so they are embedded as a
tagged variant carrying the interpolated data. -/
inductive Issue where
  | dupKey (key : String)
  | dupChainId (chainId : Int) (key : String)
  | dupLzId (lzId : Int) (key : String)
deriving DecidableEq

/-- Accumulator of `checkBasicIntegrity`: the issue list and the three
`Set`s of seen identifiers (a JS `Set` is modelled as a list queried by
membership). -/
structure IntegrityState where
  issues : List Issue := []
  keys : List String := []
  chainIds : List Int := []
  lzIds : List Int := []

/-- Duplicate-`key` check of the `checkBasicIntegrity` loop body. -/
def keyStep (st : IntegrityState) (key : String) : IntegrityState :=
  if st.keys.contains key then
    { st with issues := st.issues ++ [Issue.dupKey key], keys := st.keys ++ [key] }
  else { st with keys := st.keys ++ [key] }

/-- Duplicate-`chainId` check of the `checkBasicIntegrity` loop body. -/
def chainIdStep (st : IntegrityState) (key : String) (cid : Int) : IntegrityState :=
  if st.chainIds.contains cid then
    { st with issues := st.issues ++ [Issue.dupChainId cid key],
              chainIds := st.chainIds ++ [cid] }
  else { st with chainIds := st.chainIds ++ [cid] }

/-- Duplicate non-zero LayerZero-id check of the `checkBasicIntegrity` loop
body; `chain.lzSrcId && chain.lzSrcId !== 0` treats `undefined` and `0` as
falsy. -/
def lzStep (st : IntegrityState) (key : String) (lz : Option Int) : IntegrityState :=
  match lz with
  | some v =>
      if v ≠ 0 then
        if st.lzIds.contains v then
          { st with issues := st.issues ++ [Issue.dupLzId v key],
                    lzIds := st.lzIds ++ [v] }
        else { st with lzIds := st.lzIds ++ [v] }
      else st
  | none => st

/-- Loop body of `checkBasicIntegrity` for one `[key, chain]` entry. -/
def integrityStep (st : IntegrityState) (p : String × Chain) : IntegrityState :=
  lzStep (chainIdStep (keyStep st p.1) p.1 p.2.chainId) p.1 p.2.lzSrcId

/-- `checkBasicIntegrity(chainConfig)`: returns the issue list. -/
def checkBasicIntegrity (chainConfig : List (String × Chain)) : List Issue :=
  (chainConfig.foldl integrityStep {}).issues

theorem keyStep_issues (st : IntegrityState) (key : String) :
    (keyStep st key).issues =
      st.issues ++ (if st.keys.contains key then [Issue.dupKey key] else []) := by
  unfold keyStep; split <;> simp_all

theorem keyStep_keys (st : IntegrityState) (key : String) :
    (keyStep st key).keys = st.keys ++ [key] := by
  unfold keyStep; split <;> simp_all

theorem chainIdStep_issues (st : IntegrityState) (key : String) (cid : Int) :
    (chainIdStep st key cid).issues =
      st.issues ++ (if st.chainIds.contains cid then [Issue.dupChainId cid key] else []) := by
  unfold chainIdStep; split <;> simp_all

theorem chainIdStep_keys (st : IntegrityState) (key : String) (cid : Int) :
    (chainIdStep st key cid).keys = st.keys := by
  unfold chainIdStep; split <;> simp_all

theorem lzStep_dupKey (st : IntegrityState) (key : String) (lz : Option Int) (k : String) :
    (Issue.dupKey k ∈ (lzStep st key lz).issues) ↔ Issue.dupKey k ∈ st.issues := by
  unfold lzStep
  match lz with
  | none => rfl
  | some v =>
      by_cases hv : v ≠ 0
      · simp only [if_pos hv]
        split <;> simp_all
      · simp only [if_neg hv]

theorem lzStep_keys (st : IntegrityState) (key : String) (lz : Option Int) :
    (lzStep st key lz).keys = st.keys := by
  unfold lzStep
  match lz with
  | none => rfl
  | some v =>
      by_cases hv : v ≠ 0
      · simp only [if_pos hv]
        split <;> simp_all
      · simp only [if_neg hv]

theorem integrityStep_dupKey (st : IntegrityState) (p : String × Chain) (k : String) :
    Issue.dupKey k ∈ (integrityStep st p).issues ↔
      (Issue.dupKey k ∈ st.issues ∨ (k = p.1 ∧ st.keys.contains p.1 = true)) := by
  unfold integrityStep
  rw [lzStep_dupKey, chainIdStep_issues, keyStep_issues]
  by_cases h : st.keys.contains p.1 = true <;>
    by_cases h2 : (keyStep st p.1).chainIds.contains p.2.chainId = true <;>
    simp_all

theorem integrityStep_keys (st : IntegrityState) (p : String × Chain) :
    (integrityStep st p).keys = st.keys ++ [p.1] := by
  unfold integrityStep
  rw [lzStep_keys, chainIdStep_keys, keyStep_keys]

/-- Invariant carried along the `checkBasicIntegrity` fold: as long as the
keys still to be processed are fresh (not among the seen keys, and pairwise
distinct), no `Duplicate key` issue is ever pushed. -/
theorem integrity_fold_no_dupKey (l : List (String × Chain)) :
    ∀ (st : IntegrityState),
      (∀ k, Issue.dupKey k ∉ st.issues) →
      (∀ k, k ∈ l.map Prod.fst → st.keys.contains k = false) →
      (l.map Prod.fst).Nodup →
      ∀ k, Issue.dupKey k ∉ (l.foldl integrityStep st).issues := by
  induction l with
  | nil => intro st h1 _ _ k; exact h1 k
  | cons p t ih =>
      intro st h1 h2 hnd k
      simp only [List.foldl_cons]
      refine ih (integrityStep st p) ?_ ?_ ?_ k
      · intro k'
        rw [integrityStep_dupKey]
        push_neg
        refine ⟨h1 k', fun _ => ?_⟩
        have := h2 p.1 (by simp)
        simpa using this
      · intro k' hk'
        rw [integrityStep_keys]
        have hne : k' ≠ p.1 := by
          simp only [List.map_cons, List.nodup_cons] at hnd
          intro hh
          exact hnd.1 (hh ▸ hk')
        have hmem : k' ∉ st.keys := by simpa using h2 k' (by simp [hk'])
        simp [List.mem_append, hne, hmem]
      · simp only [List.map_cons, List.nodup_cons] at hnd
        exact hnd.2

/-- C10: duplicate-key issues are unreachable. `Object.entries` never
yields the same key twice, so a registry is a pairwise-distinct-key list,
and `checkBasicIntegrity` then never reports a `Duplicate key` issue. -/
theorem checkBasicIntegrity_no_dupKey (chainConfig : List (String × Chain))
    (hnd : (chainConfig.map Prod.fst).Nodup) :
    ∀ k, Issue.dupKey k ∉ checkBasicIntegrity chainConfig := by
  unfold checkBasicIntegrity
  exact integrity_fold_no_dupKey chainConfig {} (by intro k h; simp at h)
    (by intro k _; rfl) hnd

/-- Witness for C10 at a concrete registry (two chains that even share a
chainId and a LayerZero id, so the issue list is not empty, yet holds no
duplicate-key issue). -/
theorem checkBasicIntegrity_no_dupKey_witness :
    ((([("a", { chainId := 1, lzSrcId := some 5 }),
        ("b", { chainId := 1, lzSrcId := some 5 })] :
          List (String × Chain)).map Prod.fst).Nodup ∧
      ∀ k, Issue.dupKey k ∉ checkBasicIntegrity
        [("a", { chainId := 1, lzSrcId := some 5 }),
         ("b", { chainId := 1, lzSrcId := some 5 })]) :=
  ⟨by decide, checkBasicIntegrity_no_dupKey _ (by decide)⟩

/-! ## Endpoint Prober and RPC Liveness Evaluator (`testRpc`, `verifyRpcs`) -/

/-- `testRpc(rpcUrl)`: `{success: true, chainId}` on success, a failure
record otherwise; the try/catch folds every error into failure, so the
outcome is the collaborator's network answer. -/
def testRpc (env : Env) (rpcUrl : String) : Option Int :=
  env.getNetwork rpcUrl

/-- One element of the `rpcResults` array: `{index, url, ...result}`. -/
structure RpcProbeResult where
  index : Nat
  url : String
  result : Option Int
deriving DecidableEq, Inhabited

/-- The indexed probing loop `for (let i = 0; i < chain.rpcUrls.length; i++)`. -/
def probeRpcsFrom (env : Env) : Nat → List String → List RpcProbeResult
  | _, [] => []
  | i, u :: rest => ⟨i, u, testRpc env u⟩ :: probeRpcsFrom env (i + 1) rest

def probeRpcs (env : Env) (urls : List String) : List RpcProbeResult :=
  probeRpcsFrom env 0 urls

/-- Per-chain outcome of `verifyRpcs`, stored in `results[key]`. -/
structure RpcVerdict where
  rpcResults : List RpcProbeResult
  workingRpc : Option RpcProbeResult
  anyWorkingRpc : Option RpcProbeResult
deriving DecidableEq, Inhabited

/-- The per-chain body of `verifyRpcs`: probe all endpoints in order, then
`workingRpc` is the first success with the configured chainId, and
`anyWorkingRpc` the first success of any chainId. -/
def verifyRpcsChain (env : Env) (chain : Chain) : RpcVerdict :=
  let rs := probeRpcs env chain.rpcUrls
  { rpcResults := rs
    workingRpc := rs.find? (fun r => r.result == some chain.chainId)
    anyWorkingRpc := rs.find? (fun r => r.result.isSome) }

/-- One per-chain correction record (`corrections[key]`); fields are
`none` when the JS object does not carry them. -/
structure ChainCorrection where
  defaultRpcUrlIndex : Option Int := none
  chainId : Option Int := none
  addresses : List (String × String) := []
deriving DecidableEq, Inhabited

/-- Corrections proposed by `verifyRpcs` for one chain: a
`defaultRpcUrlIndex` suggestion when the chosen endpoint differs from the
configured preferred index, or a `chainId` suggestion when no endpoint
matches but one is reachable. -/
def rpcCorrectionChain (env : Env) (chain : Chain) : ChainCorrection :=
  let v := verifyRpcsChain env chain
  let c1 : ChainCorrection :=
    match v.workingRpc with
    | some w =>
        if (w.index : Int) ≠ chain.defaultRpcUrlIndex then
          { defaultRpcUrlIndex := some (w.index : Int) }
        else {}
    | none => {}
  match v.workingRpc, v.anyWorkingRpc with
  | none, some a => { c1 with chainId := a.result }
  | _, _ => c1

/-- `verifyRpcs(chainConfig)`: the per-chain results map together with the
corrections map (a chain gets a corrections entry only when some
suggestion was made). -/
def verifyRpcsStep (env : Env)
    (acc : List (String × RpcVerdict) × List (String × ChainCorrection))
    (p : String × Chain) :
    List (String × RpcVerdict) × List (String × ChainCorrection) :=
  (oinsert acc.1 p.1 (verifyRpcsChain env p.2),
   if rpcCorrectionChain env p.2 = {} then acc.2
   else oinsert acc.2 p.1 (rpcCorrectionChain env p.2))

def verifyRpcs (env : Env) (chainConfig : List (String × Chain)) :
    List (String × RpcVerdict) × List (String × ChainCorrection) :=
  chainConfig.foldl (verifyRpcsStep env) ([], [])

theorem find?_of_first {α : Type} (p : α → Bool) :
    ∀ (l : List α) (i : Nat) (a : α),
      l.get? i = some a → p a = true →
      (∀ j, j < i → ∀ b, l.get? j = some b → p b = false) →
      l.find? p = some a := by
  intro l
  induction l with
  | nil => intro i a ha; simp at ha
  | cons x t ih =>
      intro i a ha hp hmin
      cases i with
      | zero =>
          simp only [List.get?_cons_zero, Option.some_inj] at ha
          subst ha
          simp [List.find?_cons, hp]
      | succ i' =>
          have hx : p x = false := hmin 0 (Nat.succ_pos i') x rfl
          simp only [List.get?_cons_succ] at ha
          rw [List.find?_cons, hx]
          exact ih i' a ha hp (fun j hj b hb => hmin (j + 1) (Nat.succ_lt_succ hj) b hb)

theorem probeRpcsFrom_get (env : Env) :
    ∀ (urls : List String) (s j : Nat),
      (probeRpcsFrom env s urls).get? j =
        (urls.get? j).map (fun u => ⟨s + j, u, testRpc env u⟩) := by
  intro urls
  induction urls with
  | nil => intro s j; simp [probeRpcsFrom]
  | cons u rest ih =>
      intro s j
      cases j with
      | zero => simp [probeRpcsFrom]
      | succ j' =>
          simp only [probeRpcsFrom, List.get?_cons_succ, ih (s + 1) j']
          have : s + 1 + j' = s + (j' + 1) := by omega
          rw [this]

theorem probeRpcs_get (env : Env) (urls : List String) (j : Nat) :
    (probeRpcs env urls).get? j =
      (urls.get? j).map (fun u => ⟨j, u, testRpc env u⟩) := by
  rw [probeRpcs, probeRpcsFrom_get]
  cases urls.get? j <;> simp

theorem probeRpcsFrom_mem (env : Env) :
    ∀ (urls : List String) (s : Nat) (r : RpcProbeResult),
      r ∈ probeRpcsFrom env s urls →
      ∃ j u, urls.get? j = some u ∧ r = ⟨s + j, u, testRpc env u⟩ := by
  intro urls
  induction urls with
  | nil => intro s r h; simp [probeRpcsFrom] at h
  | cons u rest ih =>
      intro s r h
      simp only [probeRpcsFrom, List.mem_cons] at h
      rcases h with h | h
      · exact ⟨0, u, rfl, by simpa using h⟩
      · obtain ⟨j, u', hg, hr⟩ := ih (s + 1) r h
        exact ⟨j + 1, u', by simpa using hg, by rw [hr]; congr 1; omega⟩

/-- C2: tie-break rule 1 / determinism. The evaluator's chosen endpoint is
the first one (in list order) whose reported chainId equals the configured
chainId, and a `defaultRpcUrlIndex` correction to that index is proposed
exactly when the index differs from the configured one. -/
theorem verifyRpcs_first_match (env : Env) (chain : Chain) (i : Nat) (u : String)
    (hu : chain.rpcUrls.get? i = some u)
    (hmatch : testRpc env u = some chain.chainId)
    (hfirst : ∀ j, j < i → ∀ u', chain.rpcUrls.get? j = some u' →
      testRpc env u' ≠ some chain.chainId) :
    (verifyRpcsChain env chain).workingRpc = some ⟨i, u, some chain.chainId⟩ ∧
    (rpcCorrectionChain env chain).defaultRpcUrlIndex =
      (if (i : Int) ≠ chain.defaultRpcUrlIndex then some (i : Int) else none) := by
  have hw : (verifyRpcsChain env chain).workingRpc = some ⟨i, u, some chain.chainId⟩ := by
    show (probeRpcs env chain.rpcUrls).find? (fun r => r.result == some chain.chainId)
        = some ⟨i, u, some chain.chainId⟩
    have hcast : (⟨i, u, testRpc env u⟩ : RpcProbeResult) = ⟨i, u, some chain.chainId⟩ := by
      rw [hmatch]
    refine find?_of_first _ _ i _ ?_ (by simp) ?_
    · rw [probeRpcs_get, hu]
      simp only [Option.map_some']
      rw [hcast]
    · intro j hj b hb
      rw [probeRpcs_get env chain.rpcUrls j] at hb
      cases hg : chain.rpcUrls.get? j with
      | none => rw [hg] at hb; simp at hb
      | some u' =>
          rw [hg] at hb
          simp only [Option.map_some', Option.some_inj] at hb
          subst hb
          have := hfirst j hj u' hg
          simpa using this
  refine ⟨hw, ?_⟩
  cases hany : (verifyRpcsChain env chain).anyWorkingRpc with
  | none =>
      by_cases hidx : (i : Int) ≠ chain.defaultRpcUrlIndex <;>
        simp [rpcCorrectionChain, hw, hany, hidx]
  | some a =>
      by_cases hidx : (i : Int) ≠ chain.defaultRpcUrlIndex <;>
        simp [rpcCorrectionChain, hw, hany, hidx]

/-- Witness for C2: the spec's scenario `[Failed, Mismatch(7), Live(1)]`
with `chainId = 1` and preferred index 0: index 2 is selected and a
`defaultRpcUrlIndex = 2` correction is proposed. -/
theorem verifyRpcs_first_match_witness :
    (verifyRpcsChain
        { getNetwork := fun u => if u == "u1" then some 7 else if u == "u2" then some 1 else none
          getCode := fun _ _ => Except.error "down"
          callOk := fun _ _ _ => false
          getAddress := fun a => some a }
        { chainId := 1, rpcUrls := ["u0", "u1", "u2"], defaultRpcUrlIndex := 0 }).workingRpc
      = some ⟨2, "u2", some 1⟩ ∧
    (rpcCorrectionChain
        { getNetwork := fun u => if u == "u1" then some 7 else if u == "u2" then some 1 else none
          getCode := fun _ _ => Except.error "down"
          callOk := fun _ _ _ => false
          getAddress := fun a => some a }
        { chainId := 1, rpcUrls := ["u0", "u1", "u2"], defaultRpcUrlIndex := 0 }).defaultRpcUrlIndex
      = (if ((2 : Nat) : Int) ≠ (0 : Int) then some ((2 : Nat) : Int) else none) := by
  refine verifyRpcs_first_match _ _ 2 "u2" rfl (by decide) ?_
  intro j hj u' hget
  interval_cases j <;>
    simp only [List.get?_cons_zero, List.get?_cons_succ, Option.some_inj] at hget <;>
    rw [← hget] <;> decide

/-- C3: tie-break rule 2. When no endpoint reports the configured chainId
but at least one is reachable, the evaluator proposes a `chainId`
correction equal to the reported chainId of the first reachable endpoint,
and proposes no `defaultRpcUrlIndex` correction. -/
theorem verifyRpcs_chainId_correction (env : Env) (chain : Chain) (i : Nat) (u : String)
    (cid : Int)
    (hnomatch : ∀ j u', chain.rpcUrls.get? j = some u' →
      testRpc env u' ≠ some chain.chainId)
    (hu : chain.rpcUrls.get? i = some u)
    (hlive : testRpc env u = some cid)
    (hfirst : ∀ j, j < i → ∀ u', chain.rpcUrls.get? j = some u' → testRpc env u' = none) :
    (rpcCorrectionChain env chain).chainId = some cid ∧
    (rpcCorrectionChain env chain).defaultRpcUrlIndex = none := by
  have hw : (verifyRpcsChain env chain).workingRpc = none := by
    show (probeRpcs env chain.rpcUrls).find? (fun r => r.result == some chain.chainId) = none
    rw [List.find?_eq_none]
    intro r hr
    obtain ⟨j, u', hg, rfl⟩ := probeRpcsFrom_mem env chain.rpcUrls 0 r hr
    have := hnomatch j u' (by simpa using hg)
    simpa using this
  have ha : (verifyRpcsChain env chain).anyWorkingRpc = some ⟨i, u, some cid⟩ := by
    show (probeRpcs env chain.rpcUrls).find? (fun r => r.result.isSome) = some ⟨i, u, some cid⟩
    have hcast : (⟨i, u, testRpc env u⟩ : RpcProbeResult) = ⟨i, u, some cid⟩ := by
      rw [hlive]
    refine find?_of_first _ _ i _ ?_ (by simp) ?_
    · rw [probeRpcs_get, hu]
      simp only [Option.map_some']
      rw [hcast]
    · intro j hj b hb
      rw [probeRpcs_get env chain.rpcUrls j] at hb
      cases hg : chain.rpcUrls.get? j with
      | none => rw [hg] at hb; simp at hb
      | some u' =>
          rw [hg] at hb
          simp only [Option.map_some', Option.some_inj] at hb
          subst hb
          have := hfirst j hj u' hg
          simp [this]
  constructor <;> simp [rpcCorrectionChain, hw, ha]

/-- Witness for C3: all endpoints fail or mismatch (`[Failed, Live(7)]`
against `chainId = 5`): the correction proposes `chainId = 7` and no
preferred-index change. -/
theorem verifyRpcs_chainId_correction_witness :
    (rpcCorrectionChain
        { getNetwork := fun u => if u == "w1" then some 7 else none
          getCode := fun _ _ => Except.error "down"
          callOk := fun _ _ _ => false
          getAddress := fun a => some a }
        { chainId := 5, rpcUrls := ["w0", "w1"], defaultRpcUrlIndex := 0 }).chainId
      = some 7 ∧
    (rpcCorrectionChain
        { getNetwork := fun u => if u == "w1" then some 7 else none
          getCode := fun _ _ => Except.error "down"
          callOk := fun _ _ _ => false
          getAddress := fun a => some a }
        { chainId := 5, rpcUrls := ["w0", "w1"], defaultRpcUrlIndex := 0 }).defaultRpcUrlIndex
      = none := by
  refine verifyRpcs_chainId_correction _ _ 1 "w1" 7 ?_ rfl (by decide) ?_
  · intro j u' hget
    match j, hget with
    | 0, hget =>
        simp only [List.get?_cons_zero, Option.some_inj] at hget
        rw [← hget]; decide
    | 1, hget =>
        simp only [List.get?_cons_succ, List.get?_cons_zero, Option.some_inj] at hget
        rw [← hget]; decide
  · intro j hj u' hget
    interval_cases j
    simp only [List.get?_cons_zero, Option.some_inj] at hget
    rw [← hget]; decide

/-! ## Contract Verifier (`verifyContract`, `verifyContracts`) -/

/-- `DEFAULT_ADDRESSES` from the source, as a key/value list. -/
def DEFAULT_ADDRESSES : List (String × String) :=
  [("tokenMessenger", "0x28b5a0e9C621a5BadaA536219b3a228C8168cf5d"),
   ("messageTransmitter", "0x81D40F21F12A8F0E3252Bccb954D722d4c464B64"),
   ("permit2", "0x000000000022D473030F116dDEE9F6B43aC78BA3"),
   ("entryPoint", "0x4337084D9E255Ff0702461CF8895CE9E3b5Ff108"),
   ("trustedForwarder", "0xB2b5841DBeF766d4b521221732F9B618fCf34A87"),
   ("relayRouter", "0xF5042e6ffaC5a625D4E7848e0b01373D8eB9e222"),
   ("create5", "0x7000000db505d50f077492Efa36a8968ff7493dD"),
   ("multicall3", "0xcA11bde05977b3631167028862bE2a173976CA11")]

/-- Result record of `verifyContract`. -/
structure ContractCheckResult where
  exists_ : Bool
  verified : Bool
  reason : String
  checksummedAddress : Option String := none
  needsChecksumFix : Bool := false
deriving DecidableEq

/-- Interface names whose probe performs a read-only call (all branches of
the if/else chain except `RELAY_ROUTER`, which is accepted without a
call). -/
def interfaceProbeNames : List String :=
  ["WETH", "PERMIT2", "ENTRY_POINT", "TRUSTED_FORWARDER", "MESSAGE_TRANSMITTER",
   "TOKEN_MESSENGER", "CREATE5", "MULTICALL3"]

/-- `verifyContract(provider, address, abi, interfaceName)`: checksum the
address, fetch the code, and attempt the interface-specific read-only
call. The catch around the call sets `verified = true` with reason
`Has bytecode (interface not verified)`, so any contract with bytecode
passes. -/
def verifyContract (env : Env) (url : String) (address : Option String)
    (interfaceName : String) : ContractCheckResult :=
  match address with
  | none => { exists_ := false, verified := false, reason := "Zero address" }
  | some a =>
      if a = "" ∨ a = ZERO_ADDRESS then
        { exists_ := false, verified := false, reason := "Zero address" }
      else
        match env.getAddress a with
        | none => { exists_ := false, verified := false, reason := "Invalid address format" }
        | some ca =>
            let fix := a != ca
            match env.getCode url ca with
            | Except.error m =>
                { exists_ := false, verified := false, reason := m,
                  checksummedAddress := some ca, needsChecksumFix := fix }
            | Except.ok code =>
                if code = "0x" then
                  { exists_ := false, verified := false, reason := "No code at address",
                    checksummedAddress := some ca, needsChecksumFix := fix }
                else if interfaceName = "RELAY_ROUTER" then
                  { exists_ := true, verified := true, reason := "OK",
                    checksummedAddress := some ca, needsChecksumFix := fix }
                else if interfaceProbeNames.contains interfaceName then
                  if env.callOk url ca interfaceName then
                    { exists_ := true, verified := true, reason := "OK",
                      checksummedAddress := some ca, needsChecksumFix := fix }
                  else
                    { exists_ := true, verified := true,
                      reason := "Has bytecode (interface not verified)",
                      checksummedAddress := some ca, needsChecksumFix := fix }
                else
                  { exists_ := true, verified := false, reason := "Unknown",
                    checksummedAddress := some ca, needsChecksumFix := fix }

/-- One entry of the fixed `contractChecks` table (the ABI itself is only
consumed by the collaborator, so the model keeps the role key, the
interface name, and the default address). -/
structure ContractCheck where
  key : String
  name : String
  dflt : Option String
deriving DecidableEq

/-- The fixed `contractChecks` table of the Contract Verifier. -/
def contractChecks : List ContractCheck :=
  [⟨"wrappedGasToken", "WETH", none⟩,
   ⟨"permit2", "PERMIT2", olookup DEFAULT_ADDRESSES "permit2"⟩,
   ⟨"entryPoint", "ENTRY_POINT", olookup DEFAULT_ADDRESSES "entryPoint"⟩,
   ⟨"trustedForwarder", "TRUSTED_FORWARDER", olookup DEFAULT_ADDRESSES "trustedForwarder"⟩,
   ⟨"relayRouter", "RELAY_ROUTER", olookup DEFAULT_ADDRESSES "relayRouter"⟩,
   ⟨"messageTransmitter", "MESSAGE_TRANSMITTER", olookup DEFAULT_ADDRESSES "messageTransmitter"⟩,
   ⟨"tokenMessenger", "TOKEN_MESSENGER", olookup DEFAULT_ADDRESSES "tokenMessenger"⟩,
   ⟨"create5", "CREATE5", olookup DEFAULT_ADDRESSES "create5"⟩,
   ⟨"multicall3", "MULTICALL3", olookup DEFAULT_ADDRESSES "multicall3"⟩]

/-- `code === '0x' ? 0 : (code.length - 2) / 2`. -/
def codeLenOf (code : String) : Nat :=
  if code = "0x" then 0 else (code.length - 2) / 2

/-- Local state of one iteration of the per-role loop of
`verifyContracts` (`finalAddress`, `correctionNeeded`, ... variables);
`checksumIssue` records the push onto `checksumIssues` performed in the
bytecode-found branch. -/
structure RoleOutcome where
  finalAddress : Option String
  correctionNeeded : Bool
  correctionReason : String
  configCodeLength : Nat := 0
  defaultCodeLength : Nat := 0
  checksummedAddr : Option String
  needsChecksumFix : Bool := false
  checksumIssue : Option String := none
deriving DecidableEq

/-- Case 1 of the per-role loop after the checksum step bound
`checksummedAddr = ca` and `needsChecksumFix = fix`. -/
def checkRoleNonzeroCore (env : Env) (url : String) (check : ContractCheck)
    (a ca : String) (fix : Bool) : RoleOutcome :=
  match env.getCode url ca with
  | Except.error m =>
      { finalAddress := some a, correctionNeeded := false,
        correctionReason := "RPC error: " ++ m,
        checksummedAddr := some ca, needsChecksumFix := fix }
  | Except.ok configCode =>
      if 0 < codeLenOf configCode then
        if (verifyContract env url (some ca) check.name).verified
            || decide (0 < codeLenOf configCode) then
          { finalAddress := some ca, correctionNeeded := fix,
            correctionReason := if fix then "Checksum fix" else "",
            configCodeLength := codeLenOf configCode,
            checksummedAddr := some ca, needsChecksumFix := fix,
            checksumIssue := if fix then some ca else none }
        else
          { finalAddress := some a, correctionNeeded := false, correctionReason := "",
            configCodeLength := codeLenOf configCode,
            checksummedAddr := some ca, needsChecksumFix := fix }
      else
        match check.dflt with
        | some d =>
            match env.getCode url d with
            | Except.error m =>
                { finalAddress := some a, correctionNeeded := false,
                  correctionReason := "RPC error: " ++ m,
                  checksummedAddr := some ca, needsChecksumFix := fix }
            | Except.ok defaultCode =>
                if 0 < codeLenOf defaultCode then
                  { finalAddress := some d, correctionNeeded := true,
                    correctionReason := "No bytecode at configured, using default",
                    defaultCodeLength := codeLenOf defaultCode,
                    checksummedAddr := some ca, needsChecksumFix := fix }
                else
                  { finalAddress := some ZERO_ADDRESS, correctionNeeded := true,
                    correctionReason := "No bytecode at configured or default",
                    checksummedAddr := some ca, needsChecksumFix := fix }
        | none =>
            { finalAddress := some ZERO_ADDRESS, correctionNeeded := true,
              correctionReason := "No bytecode at configured",
              checksummedAddr := some ca, needsChecksumFix := fix }

/-- Case 1 of the per-role loop: the configured address is truthy and not
the zero address. The try/catch around `ethers.utils.getAddress` leaves
`checksummedAddr = configAddress` and `needsChecksumFix = false` when the
literal is invalid. -/
def checkRoleNonzero (env : Env) (url : String) (check : ContractCheck) (a : String) :
    RoleOutcome :=
  match env.getAddress a with
  | some c => checkRoleNonzeroCore env url check a c (a != c)
  | none => checkRoleNonzeroCore env url check a a false

/-- Case 2 of the per-role loop: the configured address is absent, empty,
or the zero address. -/
def checkRoleZero (env : Env) (url : String) (check : ContractCheck)
    (configAddress : Option String) : RoleOutcome :=
  match check.dflt with
  | some d =>
      match env.getCode url d with
      | Except.error m =>
          { finalAddress := configAddress, correctionNeeded := false,
            correctionReason := "RPC error checking default: " ++ m,
            checksummedAddr := configAddress }
      | Except.ok defaultCode =>
          if 0 < codeLenOf defaultCode then
            { finalAddress := some d, correctionNeeded := true,
              correctionReason := "Found bytecode at default",
              defaultCodeLength := codeLenOf defaultCode,
              checksummedAddr := configAddress }
          else
            { finalAddress := some ZERO_ADDRESS, correctionNeeded := false,
              correctionReason := "Zero address correct (default not deployed)",
              defaultCodeLength := codeLenOf defaultCode,
              checksummedAddr := configAddress }
  | none =>
      { finalAddress := configAddress, correctionNeeded := false,
        correctionReason := "Zero address (no default)",
        checksummedAddr := configAddress }

/-- One iteration of the per-role loop of `verifyContracts`
(`configAddress && configAddress !== ZERO_ADDRESS` selects case 1). -/
def checkRole (env : Env) (url : String) (chain : Chain) (check : ContractCheck) :
    RoleOutcome :=
  match olookup chain.addresses check.key with
  | some a =>
      if a ≠ "" ∧ a ≠ ZERO_ADDRESS then checkRoleNonzero env url check a
      else checkRoleZero env url check (some a)
  | none => checkRoleZero env url check none

/-- One iteration of the per-role loop, acting on the accumulated
`corrections[key].addresses` map and the `checksumIssues` array. -/
def roleStep (env : Env) (url : String) (chain : Chain)
    (acc : List (String × String) × List (String × String)) (check : ContractCheck) :
    List (String × String) × List (String × String) :=
  let o := checkRole env url chain check
  let configAddress := olookup chain.addresses check.key
  let cors :=
    if o.correctionNeeded = true ∧ o.finalAddress ≠ configAddress then
      match o.finalAddress with
      | some f => oinsert acc.1 check.key f
      | none => acc.1
    else acc.1
  let issues :=
    match o.checksumIssue with
    | some ca => acc.2 ++ [(check.key, ca)]
    | none => acc.2
  (cors, issues)

/-- Role keys covered by the fixed `contractChecks` loop
(`checkedAddressKeys` in the source). -/
def checkedAddressKeys : List String := contractChecks.map (fun c => c.key)

/-- The extra token addresses verified for bytecode presence only. -/
def tokensToVerify : List String := ["usdc", "usdt"]

/-- Skip filter of the extra-address loop: already-checked keys and
falsy / zero address values are skipped. -/
def tokenSkip (p : String × String) : Bool :=
  checkedAddressKeys.contains p.1 || p.2 == "" || p.2 == ZERO_ADDRESS

/-- Body of the extra-address loop: a token address with no bytecode is
corrected to the zero address. -/
def tokenZeroStep (env : Env) (url : String) (acc : List (String × String))
    (p : String × String) : List (String × String) :=
  if tokenSkip p then acc
  else if ¬ (tokensToVerify.contains p.1) then acc
  else
    match env.getAddress p.2 with
    | none => acc
    | some ca =>
        match env.getCode url ca with
        | Except.error _ => acc
        | Except.ok code => if code = "0x" then oinsert acc p.1 ZERO_ADDRESS else acc

/-- Application of `otherChecksumIssues` collected by the extra-address
loop: a checksum-mismatched token address is corrected to its checksummed
form (note: in the source this write happens after, and therefore
overrides, the zero-address write of `tokenZeroStep`). -/
def tokenIssueStep (env : Env) (url : String) (acc : List (String × String))
    (p : String × String) : List (String × String) :=
  if tokenSkip p then acc
  else if ¬ (tokensToVerify.contains p.1) then acc
  else
    match env.getAddress p.2 with
    | none => acc
    | some ca =>
        match env.getCode url ca with
        | Except.error _ => acc
        | Except.ok _ => if p.2 != ca then oinsert acc p.1 ca else acc

/-- The extra-address phase of `verifyContracts` for one chain. -/
def tokenPass (env : Env) (url : String) (chain : Chain)
    (acc : List (String × String)) : List (String × String) :=
  chain.addresses.foldl (tokenIssueStep env url)
    (chain.addresses.foldl (tokenZeroStep env url) acc)

/-- The `corrections[key].addresses` map accumulated by `verifyContracts`
for one chain: the per-role corrections, then the checksum-issue
corrections, then the extra-token corrections. -/
def contractCorrectionsChain (env : Env) (url : String) (chain : Chain) :
    List (String × String) :=
  let s := contractChecks.foldl (roleStep env url chain) ([], [])
  let cors2 := s.2.foldl (fun m p => oinsert m p.1 p.2) s.1
  tokenPass env url chain cors2

/-- Keys of the `chainResults` record assembled for one chain: every fixed
role key, then every extra token entry that passes the filters with a
valid address literal. -/
def chainResultKeys (env : Env) (chain : Chain) : List String :=
  checkedAddressKeys ++
    chain.addresses.foldl (fun acc p =>
      if tokenSkip p then acc
      else if ¬ (tokensToVerify.contains p.1) then acc
      else
        match env.getAddress p.2 with
        | none => acc
        | some _ => acc ++ [p.1]) []

/-- `(rpcInfo.workingRpc || rpcInfo.anyWorkingRpc).url` (the caller
guarantees at least one is present; the empty string stands for the
unreachable fallback). -/
def chosenUrl (v : RpcVerdict) : String :=
  match v.workingRpc with
  | some w => w.url
  | none =>
      match v.anyWorkingRpc with
      | some a => a.url
      | none => ""

/-- `verifyContracts(chainConfig, rpcResults)`: per-chain results (their
key sets) and the corrections map. A chain with neither a working nor any
reachable RPC is skipped outright. -/
def verifyContractsStep (env : Env) (rpcResults : List (String × RpcVerdict))
    (acc : List (String × List String) × List (String × ChainCorrection))
    (p : String × Chain) :
    List (String × List String) × List (String × ChainCorrection) :=
  match olookup rpcResults p.1 with
  | none => acc
  | some v =>
      if v.workingRpc.isNone ∧ v.anyWorkingRpc.isNone then acc
      else
        (oinsert acc.1 p.1 (chainResultKeys env p.2),
         if contractCorrectionsChain env (chosenUrl v) p.2 = [] then acc.2
         else oinsert acc.2 p.1 { addresses := contractCorrectionsChain env (chosenUrl v) p.2 })

def verifyContracts (env : Env) (chainConfig : List (String × Chain))
    (rpcResults : List (String × RpcVerdict)) :
    List (String × List String) × List (String × ChainCorrection) :=
  chainConfig.foldl (verifyContractsStep env rpcResults) ([], [])

/-- The correction value the per-role loop writes for one role
(`corrections[key].addresses[check.key] = finalAddress` exactly when
`correctionNeeded && finalAddress !== configAddress`). -/
def roleCorrValue (env : Env) (url : String) (chain : Chain) (check : ContractCheck) :
    Option String :=
  if (checkRole env url chain check).correctionNeeded = true ∧
      (checkRole env url chain check).finalAddress ≠ olookup chain.addresses check.key then
    (checkRole env url chain check).finalAddress
  else none

theorem roleStep_fst (env : Env) (url : String) (chain : Chain)
    (acc : List (String × String) × List (String × String)) (check : ContractCheck) :
    (roleStep env url chain acc check).1 =
      match roleCorrValue env url chain check with
      | some f => oinsert acc.1 check.key f
      | none => acc.1 := by
  simp only [roleStep, roleCorrValue]
  by_cases hc : (checkRole env url chain check).correctionNeeded = true ∧
      (checkRole env url chain check).finalAddress ≠ olookup chain.addresses check.key
  · simp only [if_pos hc]
  · simp only [if_neg hc]

theorem roleStep_snd (env : Env) (url : String) (chain : Chain)
    (acc : List (String × String) × List (String × String)) (check : ContractCheck) :
    (roleStep env url chain acc check).2 =
      acc.2 ++ (match (checkRole env url chain check).checksumIssue with
        | some ca => [(check.key, ca)]
        | none => []) := by
  simp only [roleStep]
  cases h : (checkRole env url chain check).checksumIssue <;> simp [h]

theorem checksFold_fst_lookup_ne (env : Env) (url : String) (chain : Chain) :
    ∀ (l : List ContractCheck) (acc : List (String × String) × List (String × String))
      (k : String), (∀ c ∈ l, c.key ≠ k) →
      olookup (l.foldl (roleStep env url chain) acc).1 k = olookup acc.1 k := by
  intro l
  induction l with
  | nil => intro acc k _; rfl
  | cons x t ih =>
      intro acc k hk
      simp only [List.foldl_cons]
      rw [ih _ k (fun c hc => hk c (List.mem_cons_of_mem _ hc))]
      rw [roleStep_fst]
      cases h : roleCorrValue env url chain x with
      | some f =>
          exact olookup_oinsert_ne _ _ _ _ (fun he => (hk x (List.mem_cons_self x t)) he.symm)
      | none => rfl

theorem checksFold_fst_focus (env : Env) (url : String) (chain : Chain) :
    ∀ (l : List ContractCheck) (acc : List (String × String) × List (String × String))
      (c : ContractCheck), c ∈ l → (l.map (fun x => x.key)).Nodup →
      olookup (l.foldl (roleStep env url chain) acc).1 c.key =
        (match roleCorrValue env url chain c with
         | some f => some f
         | none => olookup acc.1 c.key) := by
  intro l
  induction l with
  | nil => intro acc c hmem; simp at hmem
  | cons x t ih =>
      intro acc c hmem hnd
      simp only [List.map_cons, List.nodup_cons] at hnd
      simp only [List.foldl_cons]
      rcases List.mem_cons.mp hmem with rfl | hmem'
      · have hne : ∀ c' ∈ t, c'.key ≠ c.key := by
          intro c' hc' heq
          exact hnd.1 (heq ▸ (List.mem_map_of_mem (fun x => x.key) hc'))
        rw [checksFold_fst_lookup_ne env url chain t _ _ hne, roleStep_fst]
        cases h : roleCorrValue env url chain c with
        | some f => simp [olookup_oinsert_self]
        | none => rfl
      · have hxne : x.key ≠ c.key := by
          intro heq
          exact hnd.1 (heq ▸ List.mem_map_of_mem (fun x => x.key) hmem')
        rw [ih _ c hmem' hnd.2, roleStep_fst]
        cases h2 : roleCorrValue env url chain c with
        | some f => rfl
        | none =>
            cases h : roleCorrValue env url chain x with
            | some f => exact olookup_oinsert_ne _ _ _ _ (Ne.symm hxne)
            | none => rfl

theorem checksFold_snd_mem (env : Env) (url : String) (chain : Chain) :
    ∀ (l : List ContractCheck) (acc : List (String × String) × List (String × String))
      (p : String × String), p ∈ (l.foldl (roleStep env url chain) acc).2 →
      p ∈ acc.2 ∨ ∃ c ∈ l, (checkRole env url chain c).checksumIssue = some p.2 ∧
        p.1 = c.key := by
  intro l
  induction l with
  | nil => intro acc p hp; exact Or.inl hp
  | cons x t ih =>
      intro acc p hp
      simp only [List.foldl_cons] at hp
      rcases ih _ p hp with hin | ⟨c, hc, hiss, hkey⟩
      · rw [roleStep_snd] at hin
        rcases List.mem_append.mp hin with h | h
        · exact Or.inl h
        · cases hiss : (checkRole env url chain x).checksumIssue with
          | some ca =>
              rw [hiss] at h
              simp only [List.mem_singleton] at h
              subst h
              exact Or.inr ⟨x, List.mem_cons_self x t, by simp [hiss], rfl⟩
          | none => rw [hiss] at h; simp at h
      · exact Or.inr ⟨c, List.mem_cons_of_mem _ hc, hiss, hkey⟩

theorem checkRoleZero_issue (env : Env) (url : String) (check : ContractCheck)
    (x : Option String) : (checkRoleZero env url check x).checksumIssue = none := by
  unfold checkRoleZero
  cases hd : check.dflt with
  | none => rfl
  | some d =>
      dsimp only
      cases hg : env.getCode url d with
      | error m => rfl
      | ok c =>
          dsimp only
          by_cases h : 0 < codeLenOf c <;> simp [h]

theorem checkRoleNonzeroCore_issue (env : Env) (url : String) (check : ContractCheck)
    (a ca : String) (fix : Bool) (v : String)
    (h : (checkRoleNonzeroCore env url check a ca fix).checksumIssue = some v) :
    fix = true ∧ v = ca ∧
    (checkRoleNonzeroCore env url check a ca fix).correctionNeeded = true ∧
    (checkRoleNonzeroCore env url check a ca fix).finalAddress = some ca := by
  unfold checkRoleNonzeroCore at h ⊢
  cases hg : env.getCode url ca with
  | error m => rw [hg] at h; simp at h
  | ok code =>
      rw [hg] at h
      dsimp only at h ⊢
      by_cases hl : 0 < codeLenOf code
      · have hcond : ((verifyContract env url (some ca) check.name).verified
            || decide (0 < codeLenOf code)) = true := by simp [hl]
        simp only [if_pos hl, hcond, if_true] at h ⊢
        cases fix with
        | true => simp_all
        | false => simp_all
      · simp only [if_neg hl] at h
        cases hd : check.dflt with
        | none => rw [hd] at h; simp at h
        | some d =>
            rw [hd] at h
            dsimp only at h
            cases hg2 : env.getCode url d with
            | error m => rw [hg2] at h; simp at h
            | ok c2 =>
                rw [hg2] at h
                dsimp only at h
                by_cases hl2 : 0 < codeLenOf c2 <;> simp [hl2] at h

theorem checkRole_issue (env : Env) (url : String) (chain : Chain) (check : ContractCheck)
    (v : String) (h : (checkRole env url chain check).checksumIssue = some v) :
    (checkRole env url chain check).correctionNeeded = true ∧
    (checkRole env url chain check).finalAddress = some v ∧
    ∃ a, olookup chain.addresses check.key = some a ∧ a ≠ v := by
  unfold checkRole at h ⊢
  cases hlk : olookup chain.addresses check.key with
  | none =>
      rw [hlk] at h
      dsimp only at h
      rw [checkRoleZero_issue] at h
      simp at h
  | some a =>
      rw [hlk] at h
      dsimp only at h ⊢
      by_cases hz : a ≠ "" ∧ a ≠ ZERO_ADDRESS
      · simp only [if_pos hz] at h ⊢
        have hnz : (checkRoleNonzero env url check a).correctionNeeded = true ∧
            (checkRoleNonzero env url check a).finalAddress = some v ∧ a ≠ v := by
          unfold checkRoleNonzero at h ⊢
          cases hga : env.getAddress a with
          | some c =>
              rw [hga] at h
              dsimp only at h ⊢
              obtain ⟨hfix, hv, hcn, hfa⟩ := checkRoleNonzeroCore_issue env url check a c _ v h
              subst hv
              refine ⟨hcn, hfa, ?_⟩
              simpa [bne_iff_ne] using hfix
          | none =>
              rw [hga] at h
              dsimp only at h
              obtain ⟨hfix, _, _, _⟩ := checkRoleNonzeroCore_issue env url check a a _ v h
              exact absurd hfix (by simp)
        exact ⟨hnz.1, hnz.2.1, a, rfl, hnz.2.2⟩
      · simp only [if_neg hz] at h
        rw [checkRoleZero_issue] at h
        simp at h

/-- A checksum issue is always accompanied by an identical per-role
correction: the issue is pushed only in the bytecode-found branch with a
checksum mismatch, where `finalAddress = checksummedAddr` is also the
written correction. -/
theorem checksumIssue_roleCorr (env : Env) (url : String) (chain : Chain)
    (check : ContractCheck) (ca : String)
    (h : (checkRole env url chain check).checksumIssue = some ca) :
    roleCorrValue env url chain check = some ca := by
  obtain ⟨hcn, hfa, a, hlk, hane⟩ := checkRole_issue env url chain check ca h
  unfold roleCorrValue
  rw [if_pos ⟨hcn, by
    rw [hfa, hlk]
    intro hh
    simp only [Option.some_inj] at hh
    exact hane hh.symm⟩]
  exact hfa

theorem issuesFold_idem (is : List (String × String)) :
    ∀ (base : List (String × String)),
      (∀ p ∈ is, olookup base p.1 = some p.2) →
      ∀ k, olookup (is.foldl (fun m p => oinsert m p.1 p.2) base) k = olookup base k := by
  induction is with
  | nil => intro base _ k; rfl
  | cons p t ih =>
      intro base hbase k
      simp only [List.foldl_cons]
      have hstep : ∀ k', olookup (oinsert base p.1 p.2) k' = olookup base k' := by
        intro k'
        rw [olookup_oinsert]
        by_cases hk : k' = p.1
        · subst hk
          rw [if_pos rfl, hbase p (List.mem_cons_self p t)]
        · rw [if_neg hk]
      rw [ih (oinsert base p.1 p.2)
        (fun q hq => (hstep q.1).trans (hbase q (List.mem_cons_of_mem _ hq))) k]
      exact hstep k

theorem tokenZeroStep_lookup (env : Env) (url : String) (acc : List (String × String))
    (p : String × String) (k : String) (hk : checkedAddressKeys.contains k = true) :
    olookup (tokenZeroStep env url acc p) k = olookup acc k := by
  unfold tokenZeroStep
  by_cases hs : tokenSkip p = true
  · rw [if_pos hs]
  · rw [if_neg hs]
    have hne : p.1 ≠ k := by
      intro he
      apply hs
      unfold tokenSkip
      rw [he, hk]
      simp
    by_cases ht : tokensToVerify.contains p.1
    · rw [if_neg (by simpa using ht)]
      cases env.getAddress p.2 with
      | none => rfl
      | some ca =>
          dsimp only
          cases env.getCode url ca with
          | error m => rfl
          | ok code =>
              dsimp only
              by_cases hc : code = "0x"
              · rw [if_pos hc]
                exact olookup_oinsert_ne _ _ _ _ (Ne.symm hne)
              · rw [if_neg hc]
    · rw [if_pos (by simpa using ht)]

theorem tokenIssueStep_lookup (env : Env) (url : String) (acc : List (String × String))
    (p : String × String) (k : String) (hk : checkedAddressKeys.contains k = true) :
    olookup (tokenIssueStep env url acc p) k = olookup acc k := by
  unfold tokenIssueStep
  by_cases hs : tokenSkip p = true
  · rw [if_pos hs]
  · rw [if_neg hs]
    have hne : p.1 ≠ k := by
      intro he
      apply hs
      unfold tokenSkip
      rw [he, hk]
      simp
    by_cases ht : tokensToVerify.contains p.1
    · rw [if_neg (by simpa using ht)]
      cases env.getAddress p.2 with
      | none => rfl
      | some ca =>
          dsimp only
          cases env.getCode url ca with
          | error m => rfl
          | ok code =>
              dsimp only
              by_cases hc : (p.2 != ca) = true
              · rw [if_pos hc]
                exact olookup_oinsert_ne _ _ _ _ (Ne.symm hne)
              · rw [if_neg hc]
    · rw [if_pos (by simpa using ht)]

theorem foldl_lookup_invariant {β : Type} (step : List (String × String) → β → List (String × String))
    (k : String) (hstep : ∀ acc b, olookup (step acc b) k = olookup acc k) :
    ∀ (l : List β) (acc : List (String × String)),
      olookup (l.foldl step acc) k = olookup acc k := by
  intro l
  induction l with
  | nil => intro acc; rfl
  | cons b t ih => intro acc; simp only [List.foldl_cons]; rw [ih, hstep]

theorem tokenPass_lookup_checked (env : Env) (url : String) (chain : Chain)
    (acc : List (String × String)) (k : String)
    (hk : checkedAddressKeys.contains k = true) :
    olookup (tokenPass env url chain acc) k = olookup acc k := by
  unfold tokenPass
  rw [foldl_lookup_invariant _ k (fun a b => tokenIssueStep_lookup env url a b k hk),
      foldl_lookup_invariant _ k (fun a b => tokenZeroStep_lookup env url a b k hk)]

/-- Per-role characterization of the chain's contract-correction map: for
a fixed-table role, the recorded correction is exactly the per-role
correction value (checksum-issue writes re-insert the same value, and the
extra-token phase never touches fixed-table keys). -/
theorem contractCorrectionsChain_lookup_role (env : Env) (url : String) (chain : Chain)
    (check : ContractCheck) (hmem : check ∈ contractChecks) :
    olookup (contractCorrectionsChain env url chain) check.key =
      roleCorrValue env url chain check := by
  unfold contractCorrectionsChain
  have hkmem : checkedAddressKeys.contains check.key = true := by
    unfold checkedAddressKeys
    rw [List.contains_iff_exists_mem_beq]
    exact ⟨check.key, List.mem_map_of_mem (fun x => x.key) hmem, by simp⟩
  rw [tokenPass_lookup_checked env url chain _ check.key hkmem]
  have hnd : (contractChecks.map (fun x => x.key)).Nodup := by decide
  have hfocus := checksFold_fst_focus env url chain contractChecks ([], []) check hmem hnd
  have hidem : ∀ k, olookup
      (((contractChecks.foldl (roleStep env url chain) ([], [])).2).foldl
        (fun m p => oinsert m p.1 p.2)
        ((contractChecks.foldl (roleStep env url chain) ([], [])).1)) k =
      olookup ((contractChecks.foldl (roleStep env url chain) ([], [])).1) k := by
    refine issuesFold_idem _ _ ?_
    intro p hp
    rcases checksFold_snd_mem env url chain contractChecks ([], []) p hp with hin | ⟨c, hc, hiss, hkey⟩
    · simp at hin
    · have hcorr := checksumIssue_roleCorr env url chain c p.2 hiss
      have hf := checksFold_fst_focus env url chain contractChecks ([], []) c hc hnd
      rw [hkey, hf, hcorr]
  rw [hidem, hfocus]
  cases roleCorrValue env url chain check <;> rfl

/-- C1: no-regression invariant. For any fixed-table role whose configured
address is non-zero and whose probe (`getCode` at the checksummed-or-raw
literal, exactly as the source probes it) finds non-empty bytecode, the
chain's contract-correction map never maps that role to the zero address.
The interface-probe collaborator `env.callOk` is universally quantified,
so the conclusion holds whether the probe call succeeds or fails. The
only checksum hypothesis is the one `ethers.utils.getAddress` satisfies:
normalization never turns a non-zero literal into the zero address. -/
theorem verifyContracts_no_regression (env : Env) (url : String) (chain : Chain)
    (check : ContractCheck) (hmem : check ∈ contractChecks)
    (hzero : ∀ b cb, env.getAddress b = some cb → b ≠ ZERO_ADDRESS → cb ≠ ZERO_ADDRESS)
    (a : String) (ha : olookup chain.addresses check.key = some a)
    (hne : a ≠ "") (hnz : a ≠ ZERO_ADDRESS)
    (code : String)
    (hcode : env.getCode url
      (match env.getAddress a with | some c => c | none => a) = Except.ok code)
    (hlen : 0 < codeLenOf code) :
    olookup (contractCorrectionsChain env url chain) check.key ≠ some ZERO_ADDRESS := by
  rw [contractCorrectionsChain_lookup_role env url chain check hmem]
  cases hga : env.getAddress a with
  | some c =>
      have hcode' : env.getCode url c = Except.ok code := by
        rw [hga] at hcode
        simpa using hcode
      have hcr : checkRole env url chain check =
          { finalAddress := some c, correctionNeeded := (a != c),
            correctionReason := if (a != c) then "Checksum fix" else "",
            configCodeLength := codeLenOf code, defaultCodeLength := 0,
            checksummedAddr := some c, needsChecksumFix := (a != c),
            checksumIssue := if (a != c) then some c else none } := by
        unfold checkRole
        rw [ha]
        dsimp only
        rw [if_pos ⟨hne, hnz⟩]
        unfold checkRoleNonzero
        rw [hga]
        dsimp only
        unfold checkRoleNonzeroCore
        rw [hcode']
        dsimp only
        rw [if_pos hlen]
        have hcond : ((verifyContract env url (some c) check.name).verified
            || decide (0 < codeLenOf code)) = true := by simp [hlen]
        rw [if_pos hcond]
      unfold roleCorrValue
      rw [hcr, ha]
      dsimp only
      by_cases hfix : (a != c) = true
      · have hane : a ≠ c := by simpa [bne_iff_ne] using hfix
        rw [if_pos ⟨hfix, by
          intro hh
          simp only [Option.some_inj] at hh
          exact hane hh.symm⟩]
        intro hcontra
        simp only [Option.some_inj] at hcontra
        exact (hzero a c hga hnz) hcontra
      · rw [if_neg (by intro hand; exact hfix hand.1)]
        simp
  | none =>
      have hcode' : env.getCode url a = Except.ok code := by
        rw [hga] at hcode
        simpa using hcode
      have hcr : checkRole env url chain check =
          { finalAddress := some a, correctionNeeded := false,
            correctionReason := "",
            configCodeLength := codeLenOf code, defaultCodeLength := 0,
            checksummedAddr := some a, needsChecksumFix := false,
            checksumIssue := none } := by
        unfold checkRole
        rw [ha]
        dsimp only
        rw [if_pos ⟨hne, hnz⟩]
        unfold checkRoleNonzero
        rw [hga]
        dsimp only
        unfold checkRoleNonzeroCore
        rw [hcode']
        dsimp only
        rw [if_pos hlen]
        have hcond : ((verifyContract env url (some a) check.name).verified
            || decide (0 < codeLenOf code)) = true := by simp [hlen]
        rw [if_pos hcond]
        simp
      unfold roleCorrValue
      rw [hcr, ha]
      dsimp only
      rw [if_neg (by intro hand; simpa using hand.1)]
      simp

/-- Concrete collaborator for the C1 witness: `permit2` is configured with
a non-canonical literal, the checksummed form has bytecode, and every
interface-probe call fails. -/
def envC1 : Env :=
  { getNetwork := fun _ => none
    getCode := fun _ addr => if addr == "0xABC" then Except.ok "0x6001" else Except.ok "0x"
    callOk := fun _ _ _ => false
    getAddress := fun x => if x == "0xabc" then some "0xABC" else some x }

def chainC1 : Chain := { chainId := 1, addresses := [("permit2", "0xabc")] }

/-- Witness for C1 at a concrete input: bytecode confirmed at the
configured `permit2` address and interface probes failing, yet the
correction map does not send `permit2` to the zero address. -/
theorem verifyContracts_no_regression_witness :
    olookup (contractCorrectionsChain envC1 "U" chainC1) "permit2" ≠ some ZERO_ADDRESS :=
  verifyContracts_no_regression envC1 "U" chainC1
    ⟨"permit2", "PERMIT2", olookup DEFAULT_ADDRESSES "permit2"⟩ (by decide)
    (by
      intro b cb h hb
      by_cases hx : b = "0xabc"
      · subst hx
        have hc : cb = "0xABC" := by simpa [envC1] using h.symm
        subst hc
        decide
      · have hc : cb = b := by
          simp only [envC1] at h
          rw [if_neg (by simpa using hx)] at h
          simpa using h.symm
        subst hc
        exact hb)
    "0xabc" (by decide) (by decide) (by decide) "0x6001" rfl (by decide)

/-- C6: zero-address upgrade rule. For a fixed-table role configured as
absent, empty, or the zero address, with a (non-zero) default address, the
recorded correction is a function of the default-address probe alone:
the role is corrected to the default exactly when the probe succeeds and
finds bytecode, and no correction is recorded otherwise (no bytecode, or
probe error). -/
theorem verifyContracts_zero_upgrade (env : Env) (url : String) (chain : Chain)
    (check : ContractCheck) (hmem : check ∈ contractChecks)
    (d : String) (hd : check.dflt = some d) (hdne : d ≠ "") (hdnz : d ≠ ZERO_ADDRESS)
    (hconf : olookup chain.addresses check.key = none ∨
             olookup chain.addresses check.key = some "" ∨
             olookup chain.addresses check.key = some ZERO_ADDRESS) :
    olookup (contractCorrectionsChain env url chain) check.key =
      (match env.getCode url d with
       | Except.ok code => if 0 < codeLenOf code then some d else none
       | Except.error _ => none) := by
  rw [contractCorrectionsChain_lookup_role env url chain check hmem]
  have hcr : checkRole env url chain check =
      checkRoleZero env url check (olookup chain.addresses check.key) := by
    unfold checkRole
    rcases hconf with h | h | h <;> rw [h] <;> dsimp only
    · rw [if_neg (by simp)]
    · rw [if_neg (by simp [ZERO_ADDRESS])]
  have hdiff : some d ≠ olookup chain.addresses check.key := by
    rcases hconf with h | h | h <;> rw [h]
    · simp
    · simpa using hdne
    · simpa using hdnz
  unfold roleCorrValue
  rw [hcr]
  unfold checkRoleZero
  rw [hd]
  dsimp only
  cases hg : env.getCode url d with
  | error m =>
      dsimp only
      rw [if_neg (by intro hand; simpa using hand.1)]
  | ok code =>
      dsimp only
      by_cases hl : 0 < codeLenOf code
      · rw [if_pos hl, if_pos hl]
        rw [if_pos ⟨rfl, hdiff⟩]
      · rw [if_neg hl, if_neg hl]
        rw [if_neg (by intro hand; simpa using hand.1)]

/-- Concrete collaborator for the C6 witness (the spec's chain-`bar`
scenario): `permit2` configured as the zero address, bytecode present at
the `permit2` default. -/
def envC6 : Env :=
  { getNetwork := fun _ => none
    getCode := fun _ addr =>
      if addr == "0x000000000022D473030F116dDEE9F6B43aC78BA3" then Except.ok "0x6001"
      else Except.error "down"
    callOk := fun _ _ _ => true
    getAddress := fun x => some x }

def chainC6 : Chain := { chainId := 2, addresses := [("permit2", ZERO_ADDRESS)] }

/-- Witness for C6: the correction upgrades `permit2` from the zero
address to the default. -/
theorem verifyContracts_zero_upgrade_witness :
    olookup (contractCorrectionsChain envC6 "U" chainC6) "permit2" =
      some "0x000000000022D473030F116dDEE9F6B43aC78BA3" := by
  rw [verifyContracts_zero_upgrade envC6 "U" chainC6
    ⟨"permit2", "PERMIT2", olookup DEFAULT_ADDRESSES "permit2"⟩ (by decide)
    "0x000000000022D473030F116dDEE9F6B43aC78BA3" (by decide) (by decide) (by decide)
    (Or.inr (Or.inr (by decide)))]
  decide

/-- Collaborator for the C7 counterexample: `permit2` configured at a
valid canonical address with no bytecode, and every other probe (the
default address included) raising an RPC error. -/
def envC7x : Env :=
  { getNetwork := fun _ => none
    getCode := fun _ addr => if addr == "0xAAA1" then Except.ok "0x" else Except.error "boom"
    callOk := fun _ _ _ => true
    getAddress := fun x => some x }

def chainC7x : Chain := { chainId := 3, addresses := [("permit2", "0xAAA1")] }

/-- Counterexample to C7 as stated: the configured `permit2` address is
non-zero, its probe finds no bytecode, the role has a default — yet the
correction map holds no entry for the role at all (neither the default
nor the zero address), because the default-address probe raised an RPC
error and the catch dropped the correction. -/
theorem verifyContracts_nonzero_downgrade_cex :
    olookup chainC7x.addresses "permit2" = some "0xAAA1" ∧
    envC7x.getCode "U" "0xAAA1" = Except.ok "0x" ∧
    (⟨"permit2", "PERMIT2", olookup DEFAULT_ADDRESSES "permit2"⟩ : ContractCheck).dflt =
      some "0x000000000022D473030F116dDEE9F6B43aC78BA3" ∧
    olookup (contractCorrectionsChain envC7x "U" chainC7x) "permit2" = none :=
  ⟨rfl, rfl, rfl, by decide⟩

/-- C7 as amended: for a fixed-table role configured at a non-zero address
whose probe succeeds and finds no bytecode, the recorded correction is the
default address when the role has a default whose probe succeeds finding
bytecode, the zero address when the role has no default or the default
probe succeeds finding none, and no correction at all when the default
probe raises an error. -/
theorem verifyContracts_nonzero_downgrade (env : Env) (url : String) (chain : Chain)
    (check : ContractCheck) (hmem : check ∈ contractChecks)
    (a : String) (ha : olookup chain.addresses check.key = some a)
    (hne : a ≠ "") (hnz : a ≠ ZERO_ADDRESS)
    (code0 : String)
    (hcode : env.getCode url
      (match env.getAddress a with | some c => c | none => a) = Except.ok code0)
    (hlen : codeLenOf code0 = 0)
    (hda : ∀ d, check.dflt = some d → d ≠ a) :
    olookup (contractCorrectionsChain env url chain) check.key =
      (match check.dflt with
       | some d =>
           match env.getCode url d with
           | Except.ok codeD => if 0 < codeLenOf codeD then some d else some ZERO_ADDRESS
           | Except.error _ => none
       | none => some ZERO_ADDRESS) := by
  rw [contractCorrectionsChain_lookup_role env url chain check hmem]
  have hnlen : ¬ 0 < codeLenOf code0 := by omega
  have hstep : checkRole env url chain check =
      checkRoleNonzeroCore env url check a
        (match env.getAddress a with | some c => c | none => a)
        (match env.getAddress a with | some c => a != c | none => false) := by
    unfold checkRole
    rw [ha]
    dsimp only
    rw [if_pos ⟨hne, hnz⟩]
    unfold checkRoleNonzero
    cases hga : env.getAddress a <;> dsimp only
  unfold roleCorrValue
  rw [hstep, ha]
  unfold checkRoleNonzeroCore
  rw [hcode]
  dsimp only
  rw [if_neg hnlen]
  cases hd : check.dflt with
  | none =>
      dsimp only
      rw [if_pos ⟨rfl, by simpa using (Ne.symm hnz)⟩]
  | some d =>
      dsimp only
      cases hg : env.getCode url d with
      | error m =>
          dsimp only
          rw [if_neg (by intro hand; simpa using hand.1)]
      | ok codeD =>
          dsimp only
          by_cases hl : 0 < codeLenOf codeD
          · rw [if_pos hl, if_pos hl]
            rw [if_pos ⟨rfl, by simpa using (hda d hd)⟩]
          · rw [if_neg hl, if_neg hl]
            rw [if_pos ⟨rfl, by simpa using (Ne.symm hnz)⟩]

/-- Collaborator for the C7-amended witness: `permit2` configured at a
codeless address, bytecode present at the default. -/
def envC7w : Env :=
  { getNetwork := fun _ => none
    getCode := fun _ addr =>
      if addr == "0x000000000022D473030F116dDEE9F6B43aC78BA3" then Except.ok "0x6001"
      else if addr == "0xBBB1" then Except.ok "0x"
      else Except.error "down"
    callOk := fun _ _ _ => true
    getAddress := fun x => some x }

def chainC7w : Chain := { chainId := 4, addresses := [("permit2", "0xBBB1")] }

/-- Witness for the amended C7: no bytecode at the configured `permit2`
address, bytecode at the default, so the correction proposes the
default. -/
theorem verifyContracts_nonzero_downgrade_witness :
    olookup (contractCorrectionsChain envC7w "U" chainC7w) "permit2" =
      some "0x000000000022D473030F116dDEE9F6B43aC78BA3" := by
  rw [verifyContracts_nonzero_downgrade envC7w "U" chainC7w
    ⟨"permit2", "PERMIT2", olookup DEFAULT_ADDRESSES "permit2"⟩ (by decide)
    "0xBBB1" (by decide) (by decide) (by decide) "0x" rfl (by decide)
    (by
      intro d hd
      have h2 : some "0x000000000022D473030F116dDEE9F6B43aC78BA3" = some d := hd
      simp only [Option.some_inj] at h2
      subst h2
      decide)]
  decide

/-- Collaborator for the C5 counterexample: `permit2` configured with a
checksum-mismatched literal whose canonical form has no bytecode, while
the role's default address has bytecode. -/
def envC5x : Env :=
  { getNetwork := fun _ => none
    getCode := fun _ addr =>
      if addr == "0x000000000022D473030F116dDEE9F6B43aC78BA3" then Except.ok "0x6001"
      else if addr == "0xABC" then Except.ok "0x"
      else Except.error "down"
    callOk := fun _ _ _ => true
    getAddress := fun x => if x == "0xabc" then some "0xABC" else some x }

def chainC5x : Chain := { chainId := 5, addresses := [("permit2", "0xabc")] }

/-- Counterexample to C5 as stated: the configured `permit2` literal
differs from its checksummed form, yet because the probe found no bytecode
at it, the recorded correction is the role's default address, not the
checksummed form — the checksum correction is not recorded "regardless of
the liveness/bytecode outcome". -/
theorem checksum_correction_cex :
    envC5x.getAddress "0xabc" = some "0xABC" ∧
    olookup chainC5x.addresses "permit2" = some "0xabc" ∧
    olookup (contractCorrectionsChain envC5x "U" chainC5x) "permit2" =
      some "0x000000000022D473030F116dDEE9F6B43aC78BA3" ∧
    ("0x000000000022D473030F116dDEE9F6B43aC78BA3" : String) ≠ "0xABC" :=
  ⟨rfl, rfl, by decide, by decide⟩

/-- C5 as amended: the checksum correction is recorded exactly in the
branch where the probe of the configured (checksummed) address succeeds
and finds non-empty bytecode; there the role is corrected to the
checksummed canonical form. -/
theorem checksum_correction_recorded (env : Env) (url : String) (chain : Chain)
    (check : ContractCheck) (hmem : check ∈ contractChecks)
    (a ca : String) (ha : olookup chain.addresses check.key = some a)
    (hne : a ≠ "") (hnz : a ≠ ZERO_ADDRESS)
    (hga : env.getAddress a = some ca) (hfix : a ≠ ca)
    (code : String) (hcode : env.getCode url ca = Except.ok code)
    (hlen : 0 < codeLenOf code) :
    olookup (contractCorrectionsChain env url chain) check.key = some ca := by
  rw [contractCorrectionsChain_lookup_role env url chain check hmem]
  have hfixb : (a != ca) = true := by simpa [bne_iff_ne] using hfix
  have hcr : checkRole env url chain check =
      { finalAddress := some ca, correctionNeeded := (a != ca),
        correctionReason := if (a != ca) then "Checksum fix" else "",
        configCodeLength := codeLenOf code, defaultCodeLength := 0,
        checksummedAddr := some ca, needsChecksumFix := (a != ca),
        checksumIssue := if (a != ca) then some ca else none } := by
    unfold checkRole
    rw [ha]
    dsimp only
    rw [if_pos ⟨hne, hnz⟩]
    unfold checkRoleNonzero
    rw [hga]
    dsimp only
    unfold checkRoleNonzeroCore
    rw [hcode]
    dsimp only
    rw [if_pos hlen]
    have hcond : ((verifyContract env url (some ca) check.name).verified
        || decide (0 < codeLenOf code)) = true := by simp [hlen]
    rw [if_pos hcond]
  unfold roleCorrValue
  rw [hcr, ha]
  dsimp only
  rw [if_pos ⟨hfixb, by
    intro hh
    simp only [Option.some_inj] at hh
    exact hfix hh.symm⟩]

/-- Witness for the amended C5: the spec's chain-`baz` scenario — a
non-canonical-case literal with bytecode present is rewritten to the
checksummed form. -/
theorem checksum_correction_recorded_witness :
    olookup (contractCorrectionsChain envC1 "U" chainC1) "permit2" = some "0xABC" := by
  rw [checksum_correction_recorded envC1 "U" chainC1
    ⟨"permit2", "PERMIT2", olookup DEFAULT_ADDRESSES "permit2"⟩ (by decide)
    "0xabc" "0xABC" (by decide) (by decide) (by decide) rfl (by decide)
    "0x6001" rfl (by decide)]

theorem workingRpc_none_of_any_none (env : Env) (chain : Chain)
    (h : (verifyRpcsChain env chain).anyWorkingRpc = none) :
    (verifyRpcsChain env chain).workingRpc = none := by
  unfold verifyRpcsChain at h ⊢
  dsimp only at h ⊢
  rw [List.find?_eq_none] at h ⊢
  intro r hr hp
  apply h r hr
  simp only [beq_iff_eq] at hp
  rw [hp]
  rfl

theorem verifyRpcs_fst_lookup (env : Env) :
    ∀ (cfg : List (String × Chain))
      (acc : List (String × RpcVerdict) × List (String × ChainCorrection))
      (k : String) (chain : Chain),
      (k, chain) ∈ cfg → (cfg.map Prod.fst).Nodup →
      olookup (cfg.foldl (verifyRpcsStep env) acc).1 k = some (verifyRpcsChain env chain) := by
  intro cfg
  induction cfg with
  | nil => intro acc k chain hmem; simp at hmem
  | cons p t ih =>
      intro acc k chain hmem hnd
      simp only [List.map_cons, List.nodup_cons] at hnd
      simp only [List.foldl_cons]
      rcases List.mem_cons.mp hmem with heq | hmem'
      · obtain ⟨rfl, rfl⟩ : p.1 = k ∧ p.2 = chain := by
          rw [← heq]
          exact ⟨rfl, rfl⟩
        have hkt : ∀ q ∈ t, q.1 ≠ p.1 := by
          intro q hq he
          exact hnd.1 (he ▸ List.mem_map_of_mem Prod.fst hq)
        -- after the head step, the entry is set; the tail never touches it
        have : ∀ acc2 : List (String × RpcVerdict) × List (String × ChainCorrection),
            olookup acc2.1 p.1 = some (verifyRpcsChain env p.2) →
            olookup (t.foldl (verifyRpcsStep env) acc2).1 p.1 =
              some (verifyRpcsChain env p.2) := by
          clear ih hmem hnd
          induction t with
          | nil => intro acc2 h; exact h
          | cons q tt iht =>
              intro acc2 h
              simp only [List.foldl_cons]
              refine iht (fun q2 hq2 => hkt q2 (List.mem_cons_of_mem _ hq2)) _ ?_
              unfold verifyRpcsStep
              dsimp only
              rw [olookup_oinsert_ne _ _ _ _ (Ne.symm (hkt q (List.mem_cons_self q tt)))]
              exact h
        refine this _ ?_
        unfold verifyRpcsStep
        dsimp only
        exact olookup_oinsert_self _ _ _
      · exact ih _ k chain hmem' hnd.2

theorem verifyContracts_fold_lookup_skip (env : Env) (rpcResults : List (String × RpcVerdict)) :
    ∀ (cfg : List (String × Chain))
      (acc : List (String × List String) × List (String × ChainCorrection)) (k : String),
      (∀ p ∈ cfg, p.1 = k →
        ∀ v, olookup rpcResults p.1 = some v →
          v.workingRpc = none ∧ v.anyWorkingRpc = none) →
      olookup (cfg.foldl (verifyContractsStep env rpcResults) acc).1 k = olookup acc.1 k ∧
      olookup (cfg.foldl (verifyContractsStep env rpcResults) acc).2 k = olookup acc.2 k := by
  intro cfg
  induction cfg with
  | nil => intro acc k _; exact ⟨rfl, rfl⟩
  | cons p t ih =>
      intro acc k hskip
      simp only [List.foldl_cons]
      have hstep : olookup (verifyContractsStep env rpcResults acc p).1 k = olookup acc.1 k ∧
          olookup (verifyContractsStep env rpcResults acc p).2 k = olookup acc.2 k := by
        unfold verifyContractsStep
        cases hv : olookup rpcResults p.1 with
        | none => exact ⟨rfl, rfl⟩
        | some v =>
            dsimp only
            by_cases hw : v.workingRpc.isNone ∧ v.anyWorkingRpc.isNone
            · rw [if_pos hw]
              exact ⟨rfl, rfl⟩
            · rw [if_neg hw]
              by_cases hk : p.1 = k
              · exfalso
                obtain ⟨h1, h2⟩ := hskip p (List.mem_cons_self p t) hk v hv
                exact hw ⟨by simp [h1], by simp [h2]⟩
              · constructor
                · exact olookup_oinsert_ne _ _ _ _ (Ne.symm hk)
                · by_cases hc : contractCorrectionsChain env (chosenUrl v) p.2 = []
                  · rw [if_pos hc]
                  · rw [if_neg hc]
                    exact olookup_oinsert_ne _ _ _ _ (Ne.symm hk)
      obtain ⟨h1, h2⟩ := ih (verifyContractsStep env rpcResults acc p) k
        (fun q hq => hskip q (List.mem_cons_of_mem _ hq))
      exact ⟨h1.trans hstep.1, h2.trans hstep.2⟩

theorem verifyContractsStep_fst_isSome (env : Env) (rpcResults : List (String × RpcVerdict))
    (acc : List (String × List String) × List (String × ChainCorrection))
    (p : String × Chain) (k : String)
    (h : (olookup acc.1 k).isSome = true) :
    (olookup (verifyContractsStep env rpcResults acc p).1 k).isSome = true := by
  unfold verifyContractsStep
  cases hv : olookup rpcResults p.1 with
  | none => exact h
  | some v =>
      dsimp only
      by_cases hw : v.workingRpc.isNone ∧ v.anyWorkingRpc.isNone
      · rw [if_pos hw]; exact h
      · rw [if_neg hw]
        dsimp only
        rw [olookup_oinsert]
        by_cases hk : k = p.1
        · rw [if_pos hk]; rfl
        · rw [if_neg hk]; exact h

theorem verifyContracts_fold_fst_isSome (env : Env) (rpcResults : List (String × RpcVerdict)) :
    ∀ (l : List (String × Chain))
      (acc : List (String × List String) × List (String × ChainCorrection)) (k : String),
      (olookup acc.1 k).isSome = true →
      (olookup (l.foldl (verifyContractsStep env rpcResults) acc).1 k).isSome = true := by
  intro l
  induction l with
  | nil => intro acc k h; exact h
  | cons q tt ih =>
      intro acc k h
      simp only [List.foldl_cons]
      exact ih _ k (verifyContractsStep_fst_isSome env rpcResults acc q k h)

theorem verifyContracts_fold_present (env : Env) (rpcResults : List (String × RpcVerdict)) :
    ∀ (cfg : List (String × Chain))
      (acc : List (String × List String) × List (String × ChainCorrection))
      (k : String) (chain : Chain) (v : RpcVerdict),
      (k, chain) ∈ cfg →
      olookup rpcResults k = some v →
      v.anyWorkingRpc ≠ none →
      (olookup (cfg.foldl (verifyContractsStep env rpcResults) acc).1 k).isSome = true := by
  intro cfg
  induction cfg with
  | nil => intro acc k chain v hmem; simp at hmem
  | cons p t ih =>
      intro acc k chain v hmem hv hany
      simp only [List.foldl_cons]
      rcases List.mem_cons.mp hmem with heq | hmem'
      · obtain ⟨rfl, rfl⟩ : p.1 = k ∧ p.2 = chain := by
          rw [← heq]; exact ⟨rfl, rfl⟩
        have hpresent : (olookup (verifyContractsStep env rpcResults acc p).1 p.1).isSome
            = true := by
          unfold verifyContractsStep
          rw [hv]
          dsimp only
          rw [if_neg (by
            intro hand
            exact hany (by simpa using hand.2))]
          dsimp only
          rw [olookup_oinsert_self]
          rfl
        exact verifyContracts_fold_fst_isSome env rpcResults t _ p.1 hpresent
      · exact ih _ k chain v hmem' hv hany

/-- C4: skip on unresolvable. For a chain none of whose endpoints is
reachable, `verifyContracts` records neither results nor corrections for
that chain, while every chain with a reachable endpoint still gets a
results entry. -/
theorem verifyContracts_skip_unresolvable (env : Env) (cfg : List (String × Chain))
    (hnd : (cfg.map Prod.fst).Nodup) (k : String) (chain : Chain)
    (hmem : (k, chain) ∈ cfg)
    (hun : (verifyRpcsChain env chain).anyWorkingRpc = none) :
    olookup (verifyContracts env cfg (verifyRpcs env cfg).1).1 k = none ∧
    olookup (verifyContracts env cfg (verifyRpcs env cfg).1).2 k = none ∧
    (∀ k' chain', (k', chain') ∈ cfg →
      (verifyRpcsChain env chain').anyWorkingRpc ≠ none →
      (olookup (verifyContracts env cfg (verifyRpcs env cfg).1).1 k').isSome = true) := by
  have hrv : ∀ k2 chain2, (k2, chain2) ∈ cfg →
      olookup (verifyRpcs env cfg).1 k2 = some (verifyRpcsChain env chain2) :=
    fun k2 chain2 h2 => verifyRpcs_fst_lookup env cfg ([], []) k2 chain2 h2 hnd
  have hskip : ∀ p ∈ cfg, p.1 = k →
      ∀ v, olookup (verifyRpcs env cfg).1 p.1 = some v →
        v.workingRpc = none ∧ v.anyWorkingRpc = none := by
    intro p hp hpk v hv
    rw [hpk, hrv k chain hmem] at hv
    injection hv with hv
    subst hv
    exact ⟨workingRpc_none_of_any_none env chain hun, hun⟩
  obtain ⟨h1, h2⟩ := verifyContracts_fold_lookup_skip env (verifyRpcs env cfg).1 cfg
    ([], []) k hskip
  refine ⟨h1.trans rfl, h2.trans rfl, ?_⟩
  intro k' chain' hmem' hany'
  exact verifyContracts_fold_present env (verifyRpcs env cfg).1 cfg ([], []) k' chain'
    (verifyRpcsChain env chain') hmem' (hrv k' chain' hmem') hany'

/-- Witness for C4 at a concrete two-chain registry: chain `dead` has no
reachable endpoint and gets neither results nor corrections; chain `live`
(reachable) still gets a results entry. -/
theorem verifyContracts_skip_unresolvable_witness :
    (olookup (verifyContracts
        { getNetwork := fun u => if u == "L" then some 9 else none
          getCode := fun _ _ => Except.error "down"
          callOk := fun _ _ _ => false
          getAddress := fun x => some x }
        [("dead", { chainId := 1, rpcUrls := ["D"] }),
         ("live", { chainId := 9, rpcUrls := ["L"] })]
        (verifyRpcs
          { getNetwork := fun u => if u == "L" then some 9 else none
            getCode := fun _ _ => Except.error "down"
            callOk := fun _ _ _ => false
            getAddress := fun x => some x }
          [("dead", { chainId := 1, rpcUrls := ["D"] }),
           ("live", { chainId := 9, rpcUrls := ["L"] })]).1).1 "dead" = none) ∧
    (olookup (verifyContracts
        { getNetwork := fun u => if u == "L" then some 9 else none
          getCode := fun _ _ => Except.error "down"
          callOk := fun _ _ _ => false
          getAddress := fun x => some x }
        [("dead", { chainId := 1, rpcUrls := ["D"] }),
         ("live", { chainId := 9, rpcUrls := ["L"] })]
        (verifyRpcs
          { getNetwork := fun u => if u == "L" then some 9 else none
            getCode := fun _ _ => Except.error "down"
            callOk := fun _ _ _ => false
            getAddress := fun x => some x }
          [("dead", { chainId := 1, rpcUrls := ["D"] }),
           ("live", { chainId := 9, rpcUrls := ["L"] })]).1).2 "dead" = none) ∧
    ((olookup (verifyContracts
        { getNetwork := fun u => if u == "L" then some 9 else none
          getCode := fun _ _ => Except.error "down"
          callOk := fun _ _ _ => false
          getAddress := fun x => some x }
        [("dead", { chainId := 1, rpcUrls := ["D"] }),
         ("live", { chainId := 9, rpcUrls := ["L"] })]
        (verifyRpcs
          { getNetwork := fun u => if u == "L" then some 9 else none
            getCode := fun _ _ => Except.error "down"
            callOk := fun _ _ _ => false
            getAddress := fun x => some x }
          [("dead", { chainId := 1, rpcUrls := ["D"] }),
           ("live", { chainId := 9, rpcUrls := ["L"] })]).1).1 "live").isSome = true) := by
  obtain ⟨h1, h2, h3⟩ := verifyContracts_skip_unresolvable
    { getNetwork := fun u => if u == "L" then some 9 else none
      getCode := fun _ _ => Except.error "down"
      callOk := fun _ _ _ => false
      getAddress := fun x => some x }
    [("dead", { chainId := 1, rpcUrls := ["D"] }),
     ("live", { chainId := 9, rpcUrls := ["L"] })]
    (by decide) "dead" { chainId := 1, rpcUrls := ["D"] } (by decide) (by decide)
  exact ⟨h1, h2, h3 "live" { chainId := 9, rpcUrls := ["L"] } (by decide) (by decide)⟩

/-! ## Reconciler (`generateCorrectedConfig`, `cmdFix` merge) -/

/-- `REQUIRED_ADDRESSES` from the source. -/
def REQUIRED_ADDRESSES : List String :=
  ["gasToken", "wrappedGasToken", "usdc", "usdt", "permit2", "entryPoint",
   "trustedForwarder", "relayRouter", "messageTransmitter", "tokenMessenger",
   "create5", "multicall3"]

/-- One address-override application of `generateCorrectedConfig`. -/
def addrApplyStep (st : Chain × List String) (q : String × String) : Chain × List String :=
  ({ st.1 with addresses := oinsert st.1.addresses q.1 q.2 },
   st.2 ++ ["Updated address " ++ q.1 ++ " to " ++ q.2])

/-- Application of one chain's corrections (`defaultRpcUrlIndex`,
`chainId`, then each address override), accumulating the change log. -/
def applyCorrectionsOnly (chain : Chain) (cor : Option ChainCorrection) :
    Chain × List String :=
  match cor with
  | none => (chain, [])
  | some cors =>
      let s1 : Chain × List String :=
        match cors.defaultRpcUrlIndex with
        | some i => ({ chain with defaultRpcUrlIndex := i },
            ["Updated defaultRpcUrlIndex to " ++ toString i])
        | none => (chain, [])
      let s2 : Chain × List String :=
        match cors.chainId with
        | some cid => ({ s1.1 with chainId := cid },
            s1.2 ++ ["Updated chainId to " ++ toString cid])
        | none => s1
      cors.addresses.foldl addrApplyStep s2

/-- One step of the required-address backfill:
`if (!corrected[key].addresses[addrKey])` treats a missing key and the
empty string as falsy and substitutes the zero address. -/
def backfillStep (st : Chain × List String) (addrKey : String) : Chain × List String :=
  match olookup st.1.addresses addrKey with
  | some v =>
      if v = "" then
        ({ st.1 with addresses := oinsert st.1.addresses addrKey ZERO_ADDRESS },
         st.2 ++ ["Added missing address " ++ addrKey ++ " as zero address"])
      else st
  | none =>
      ({ st.1 with addresses := oinsert st.1.addresses addrKey ZERO_ADDRESS },
       st.2 ++ ["Added missing address " ++ addrKey ++ " as zero address"])

/-- The whole per-chain body of `generateCorrectedConfig`: corrections,
then the required-address backfill. -/
def applyChainCorrections (chain : Chain) (cor : Option ChainCorrection) :
    Chain × List String :=
  REQUIRED_ADDRESSES.foldl backfillStep (applyCorrectionsOnly chain cor)

theorem applyChainCorrections_eq (chain : Chain) (cor : Option ChainCorrection) :
    applyChainCorrections chain cor =
      REQUIRED_ADDRESSES.foldl backfillStep (applyCorrectionsOnly chain cor) := rfl

/-- Result record of `generateCorrectedConfig`. -/
structure GenResult where
  corrected : List (String × Chain)
  hasChanges : Bool
  changesSummary : List (String × List String)
deriving DecidableEq

/-- Per-chain step of `generateCorrectedConfig`: append the corrected
chain, and record the chain's change list when it is not empty. -/
def genStep (allCorrections : List (String × ChainCorrection))
    (acc : List (String × Chain) × List (String × List String))
    (p : String × Chain) : List (String × Chain) × List (String × List String) :=
  ((acc.1 ++ [(p.1, (applyChainCorrections p.2 (olookup allCorrections p.1)).1)]),
   if (applyChainCorrections p.2 (olookup allCorrections p.1)).2 = [] then acc.2
   else acc.2 ++ [(p.1, (applyChainCorrections p.2 (olookup allCorrections p.1)).2)])

/-- `generateCorrectedConfig(chainConfig, allCorrections)`. -/
def generateCorrectedConfig (chainConfig : List (String × Chain))
    (allCorrections : List (String × ChainCorrection)) : GenResult :=
  let folded := chainConfig.foldl (genStep allCorrections) (([], []))
  { corrected := folded.1, hasChanges := !folded.2.isEmpty, changesSummary := folded.2 }

/-- First-occurrence key set, as built by
`new Set([...Object.keys(a), ...Object.keys(b)])`. -/
def dedupKeys (l : List String) : List String :=
  l.foldl (fun acc k => if acc.contains k then acc else acc ++ [k]) []

/-- The spread-merge of `cmdFix`:
`{...rpc[key], ...contract[key], addresses: {...rpc[key]?.addresses, ...contract[key]?.addresses}}`
(absent fields are `none` / the empty map, and a later field overrides an
earlier one). -/
def spreadMerge (r c : ChainCorrection) : ChainCorrection :=
  { defaultRpcUrlIndex :=
      match c.defaultRpcUrlIndex with
      | some i => some i
      | none => r.defaultRpcUrlIndex
    chainId :=
      match c.chainId with
      | some i => some i
      | none => r.chainId
    addresses := c.addresses.foldl (fun m q => oinsert m q.1 q.2) r.addresses }

/-- The `allCorrections` map assembled by `cmdFix`. -/
def mergeCorrections (rpc contract : List (String × ChainCorrection)) :
    List (String × ChainCorrection) :=
  (dedupKeys (rpc.map Prod.fst ++ contract.map Prod.fst)).map
    (fun k => (k, spreadMerge ((olookup rpc k).getD {}) ((olookup contract k).getD {})))

/-- The full `fix` pipeline without the `--chains` filter: static check is
report-only, then liveness evaluation, contract verification, merge, and
reconciliation. -/
def runPipeline (env : Env) (chainConfig : List (String × Chain)) : GenResult :=
  generateCorrectedConfig chainConfig
    (mergeCorrections (verifyRpcs env chainConfig).2
      (verifyContracts env chainConfig (verifyRpcs env chainConfig).1).2)

/-- Collaborator for the C9 counterexample: endpoint `A` is down, endpoint
`B` is live reporting chainId 7, and no address has bytecode anywhere. -/
def envC9 : Env :=
  { getNetwork := fun u => if u == "B" then some 7 else none
    getCode := fun _ _ => Except.ok "0x"
    callOk := fun _ _ _ => true
    getAddress := fun x => some x }

def cfgC9 : List (String × Chain) :=
  [("c", { chainId := 5, rpcUrls := ["A", "B"], defaultRpcUrlIndex := 0 })]

/-- Counterexample to C9 as stated: with a stable mocked network, the
first `fix` run corrects only `chainId` (to 7, from the first reachable
endpoint). On the corrected registry the second run finds a matching
endpoint at index 1 and now proposes `defaultRpcUrlIndex = 1`, so the
second change log is not empty. -/
theorem runPipeline_idempotence_cex :
    (runPipeline envC9 (runPipeline envC9 cfgC9).corrected).hasChanges = true := by decide

theorem olookup_append {α : Type} (m1 m2 : List (String × α)) (k : String) :
    olookup (m1 ++ m2) k =
      match olookup m1 k with
      | some v => some v
      | none => olookup m2 k := by
  induction m1 with
  | nil => simp [olookup_nil]
  | cons p t ih =>
      simp only [List.cons_append, olookup_cons]
      by_cases h : (p.1 == k) = true <;> simp [h, ih]

theorem backfillStep_preserves_truthy (st : Chain × List String) (addrKey k : String)
    (v : String) (h : olookup st.1.addresses k = some v) (hv : v ≠ "") :
    olookup (backfillStep st addrKey).1.addresses k = some v := by
  unfold backfillStep
  cases hlk : olookup st.1.addresses addrKey with
  | some w =>
      dsimp only
      by_cases hw : w = ""
      · rw [if_pos hw]
        dsimp only
        rw [olookup_oinsert]
        by_cases hk : k = addrKey
        · subst hk
          rw [hlk] at h
          injection h with h
          exact absurd (h ▸ hw) hv
        · rw [if_neg hk]
          exact h
      · rw [if_neg hw]
        exact h
  | none =>
      dsimp only
      rw [olookup_oinsert]
      by_cases hk : k = addrKey
      · subst hk
        rw [hlk] at h
        exact absurd h (by simp)
      · rw [if_neg hk]
        exact h

theorem backfillStep_truthy_self (st : Chain × List String) (addrKey : String) :
    ∃ v, olookup (backfillStep st addrKey).1.addresses addrKey = some v ∧ v ≠ "" := by
  unfold backfillStep
  cases hlk : olookup st.1.addresses addrKey with
  | some w =>
      dsimp only
      by_cases hw : w = ""
      · rw [if_pos hw]
        exact ⟨ZERO_ADDRESS, by dsimp only; rw [olookup_oinsert_self], by decide⟩
      · rw [if_neg hw]
        exact ⟨w, hlk, hw⟩
  | none => exact ⟨ZERO_ADDRESS, by dsimp only; rw [olookup_oinsert_self], by decide⟩

theorem backfill_fold_preserves_truthy :
    ∀ (l : List String) (st : Chain × List String) (k v : String),
      olookup st.1.addresses k = some v → v ≠ "" →
      olookup (l.foldl backfillStep st).1.addresses k = some v := by
  intro l
  induction l with
  | nil => intro st k v h _; exact h
  | cons a t ih =>
      intro st k v h hv
      simp only [List.foldl_cons]
      exact ih _ k v (backfillStep_preserves_truthy st a k v h hv) hv

theorem backfill_fold_truthy :
    ∀ (l : List String) (st : Chain × List String) (role : String), role ∈ l →
      ∃ v, olookup (l.foldl backfillStep st).1.addresses role = some v ∧ v ≠ "" := by
  intro l
  induction l with
  | nil => intro st role h; simp at h
  | cons a t ih =>
      intro st role hmem
      simp only [List.foldl_cons]
      rcases List.mem_cons.mp hmem with rfl | hm
      · obtain ⟨v, hval, hv⟩ := backfillStep_truthy_self st role
        exact ⟨v, backfill_fold_preserves_truthy t _ role v hval hv, hv⟩
      · exact ih _ role hm

theorem backfillStep_snd_mono (st : Chain × List String) (addrKey : String)
    (msg : String) (h : msg ∈ st.2) : msg ∈ (backfillStep st addrKey).2 := by
  unfold backfillStep
  cases olookup st.1.addresses addrKey with
  | some w =>
      dsimp only
      by_cases hw : w = ""
      · rw [if_pos hw]
        exact List.mem_append.mpr (Or.inl h)
      · rw [if_neg hw]
        exact h
  | none => exact List.mem_append.mpr (Or.inl h)

theorem backfill_fold_snd_mono :
    ∀ (l : List String) (st : Chain × List String) (msg : String),
      msg ∈ st.2 → msg ∈ (l.foldl backfillStep st).2 := by
  intro l
  induction l with
  | nil => intro st msg h; exact h
  | cons a t ih =>
      intro st msg h
      simp only [List.foldl_cons]
      exact ih _ msg (backfillStep_snd_mono st a msg h)

theorem backfillStep_lookup_ne (st : Chain × List String) (addrKey role : String)
    (h : addrKey ≠ role) :
    olookup (backfillStep st addrKey).1.addresses role = olookup st.1.addresses role := by
  unfold backfillStep
  cases olookup st.1.addresses addrKey with
  | some w =>
      dsimp only
      by_cases hw : w = ""
      · rw [if_pos hw]
        dsimp only
        exact olookup_oinsert_ne _ _ _ _ (Ne.symm h)
      · rw [if_neg hw]
  | none =>
      dsimp only
      exact olookup_oinsert_ne _ _ _ _ (Ne.symm h)

theorem backfillStep_zero_self (st : Chain × List String) (role : String)
    (h : olookup st.1.addresses role = none ∨ olookup st.1.addresses role = some "") :
    olookup (backfillStep st role).1.addresses role = some ZERO_ADDRESS ∧
    ("Added missing address " ++ role ++ " as zero address") ∈ (backfillStep st role).2 := by
  unfold backfillStep
  rcases h with h | h <;> rw [h] <;> dsimp only
  · exact ⟨olookup_oinsert_self _ _ _, List.mem_append.mpr (Or.inr (by simp))⟩
  · rw [if_pos rfl]
    exact ⟨olookup_oinsert_self _ _ _, List.mem_append.mpr (Or.inr (by simp))⟩

theorem backfill_fold_zero :
    ∀ (l : List String) (st : Chain × List String) (role : String), role ∈ l →
      (olookup st.1.addresses role = none ∨ olookup st.1.addresses role = some "") →
      olookup (l.foldl backfillStep st).1.addresses role = some ZERO_ADDRESS ∧
      ("Added missing address " ++ role ++ " as zero address") ∈
        (l.foldl backfillStep st).2 := by
  intro l
  induction l with
  | nil => intro st role h; simp at h
  | cons a t ih =>
      intro st role hmem hfalsy
      simp only [List.foldl_cons]
      by_cases hk : a = role
      · subst hk
        obtain ⟨h1, h2⟩ := backfillStep_zero_self st a hfalsy
        exact ⟨backfill_fold_preserves_truthy t _ a ZERO_ADDRESS h1 (by decide),
          backfill_fold_snd_mono t _ _ h2⟩
      · have hmem' : role ∈ t := by
          rcases List.mem_cons.mp hmem with h | h
          · exact absurd h.symm hk
          · exact h
        refine ih _ role hmem' ?_
        rw [backfillStep_lookup_ne st a role hk]
        exact hfalsy

theorem genFold_fst (cors : List (String × ChainCorrection)) :
    ∀ (cfg : List (String × Chain))
      (acc : List (String × Chain) × List (String × List String)),
      (cfg.foldl (genStep cors) acc).1 =
        acc.1 ++ cfg.map (fun p => (p.1, (applyChainCorrections p.2 (olookup cors p.1)).1)) := by
  intro cfg
  induction cfg with
  | nil => intro acc; simp
  | cons p t ih =>
      intro acc
      simp only [List.foldl_cons, List.map_cons, ih]
      unfold genStep
      dsimp only
      by_cases h : (applyChainCorrections p.2 (olookup cors p.1)).2 = [] <;>
        simp [h, List.append_assoc]

theorem genFold_snd_lookup_ne (cors : List (String × ChainCorrection)) :
    ∀ (cfg : List (String × Chain))
      (acc : List (String × Chain) × List (String × List String)) (k : String),
      (∀ p ∈ cfg, p.1 ≠ k) →
      olookup (cfg.foldl (genStep cors) acc).2 k = olookup acc.2 k := by
  intro cfg
  induction cfg with
  | nil => intro acc k _; rfl
  | cons p t ih =>
      intro acc k hk
      simp only [List.foldl_cons]
      rw [ih _ k (fun q hq => hk q (List.mem_cons_of_mem _ hq))]
      unfold genStep
      dsimp only
      by_cases h : (applyChainCorrections p.2 (olookup cors p.1)).2 = []
      · rw [if_pos h]
      · rw [if_neg h, olookup_append]
        cases ho : olookup acc.2 k with
        | some v => rfl
        | none =>
            dsimp only
            rw [olookup_cons]
            rw [show (p.1 == k) = false by
              simpa using hk p (List.mem_cons_self p t)]
            simp [olookup_nil]

theorem genFold_snd_lookup (cors : List (String × ChainCorrection)) :
    ∀ (cfg : List (String × Chain))
      (acc : List (String × Chain) × List (String × List String))
      (k : String) (chain : Chain),
      (k, chain) ∈ cfg → (cfg.map Prod.fst).Nodup → olookup acc.2 k = none →
      olookup (cfg.foldl (genStep cors) acc).2 k =
        (if (applyChainCorrections chain (olookup cors k)).2 = [] then none
         else some ((applyChainCorrections chain (olookup cors k)).2)) := by
  intro cfg
  induction cfg with
  | nil => intro acc k chain hmem; simp at hmem
  | cons p t ih =>
      intro acc k chain hmem hnd hacc
      simp only [List.map_cons, List.nodup_cons] at hnd
      simp only [List.foldl_cons]
      rcases List.mem_cons.mp hmem with heq | hmem'
      · obtain ⟨rfl, rfl⟩ : p.1 = k ∧ p.2 = chain := by rw [← heq]; exact ⟨rfl, rfl⟩
        have hkt : ∀ q ∈ t, q.1 ≠ p.1 := by
          intro q hq he
          exact hnd.1 (he ▸ List.mem_map_of_mem Prod.fst hq)
        rw [genFold_snd_lookup_ne cors t _ p.1 hkt]
        unfold genStep
        dsimp only
        by_cases h : (applyChainCorrections p.2 (olookup cors p.1)).2 = []
        · rw [if_pos h, if_pos h]
          exact hacc
        · rw [if_neg h, if_neg h, olookup_append, hacc]
          dsimp only
          rw [olookup_cons]
          simp
      · have hne : p.1 ≠ k := by
          intro he
          exact hnd.1 (he ▸ List.mem_map_of_mem Prod.fst hmem')
        refine ih _ k chain hmem' hnd.2 ?_
        unfold genStep
        dsimp only
        by_cases h : (applyChainCorrections p.2 (olookup cors p.1)).2 = []
        · rw [if_pos h]
          exact hacc
        · rw [if_neg h, olookup_append, hacc]
          dsimp only
          rw [olookup_cons]
          rw [show (p.1 == k) = false by simpa using hne]
          simp [olookup_nil]

theorem genFold_snd_empty (cors : List (String × ChainCorrection)) :
    ∀ (cfg : List (String × Chain))
      (acc : List (String × Chain) × List (String × List String)),
      (∀ p ∈ cfg, (applyChainCorrections p.2 (olookup cors p.1)).2 = []) →
      (cfg.foldl (genStep cors) acc).2 = acc.2 := by
  intro cfg
  induction cfg with
  | nil => intro acc _; rfl
  | cons p t ih =>
      intro acc hall
      simp only [List.foldl_cons]
      rw [ih _ (fun q hq => hall q (List.mem_cons_of_mem _ hq))]
      unfold genStep
      dsimp only
      rw [if_pos (hall p (List.mem_cons_self p t))]

set_option maxHeartbeats 800000 in
/-- C8: backfill completeness. Every entry of the corrected registry holds
every required role with a truthy value; and any required role that was
still missing (or empty) after correction application is set to the zero
address with an `Added missing address` entry recorded in that chain's
change log and in the changes summary. -/
theorem generateCorrectedConfig_backfill (cfg : List (String × Chain))
    (cors : List (String × ChainCorrection))
    (hnd : (cfg.map Prod.fst).Nodup) :
    (∀ p ∈ (generateCorrectedConfig cfg cors).corrected,
      ∀ role ∈ REQUIRED_ADDRESSES,
        ∃ v, olookup p.2.addresses role = some v ∧ v ≠ "") ∧
    (∀ k chain, (k, chain) ∈ cfg → ∀ role ∈ REQUIRED_ADDRESSES,
      (olookup (applyCorrectionsOnly chain (olookup cors k)).1.addresses role = none ∨
       olookup (applyCorrectionsOnly chain (olookup cors k)).1.addresses role = some "") →
      olookup (applyChainCorrections chain (olookup cors k)).1.addresses role
        = some ZERO_ADDRESS ∧
      ∃ ch, olookup (generateCorrectedConfig cfg cors).changesSummary k = some ch ∧
        ("Added missing address " ++ role ++ " as zero address") ∈ ch) := by
  constructor
  · intro p hp role hrole
    have hfst : (generateCorrectedConfig cfg cors).corrected =
        cfg.map (fun q => (q.1, (applyChainCorrections q.2 (olookup cors q.1)).1)) := by
      unfold generateCorrectedConfig
      dsimp only
      rw [genFold_fst cors cfg ([], [])]
      rfl
    rw [hfst] at hp
    obtain ⟨q, hq, heqp⟩ := List.mem_map.mp hp
    rw [← heqp]
    simp only
    rw [applyChainCorrections_eq]
    exact backfill_fold_truthy REQUIRED_ADDRESSES
      (applyCorrectionsOnly q.2 (olookup cors q.1)) role hrole
  · intro k chain hmem role hrole hfalsy
    obtain ⟨h1, h2⟩ := backfill_fold_zero REQUIRED_ADDRESSES
      (applyCorrectionsOnly chain (olookup cors k)) role hrole hfalsy
    rw [← applyChainCorrections_eq chain (olookup cors k)] at h1 h2
    refine ⟨h1, ?_⟩
    have hsum : olookup (generateCorrectedConfig cfg cors).changesSummary k =
        (if (applyChainCorrections chain (olookup cors k)).2 = [] then none
         else some ((applyChainCorrections chain (olookup cors k)).2)) := by
      unfold generateCorrectedConfig
      dsimp only
      exact genFold_snd_lookup cors cfg ([], []) k chain hmem hnd rfl
    have hnonempty : (applyChainCorrections chain (olookup cors k)).2 ≠ [] := by
      intro he
      rw [he] at h2
      simp at h2
    rw [hsum, if_neg hnonempty]
    exact ⟨_, rfl, h2⟩

/-- Witness for C8 at a concrete input: one chain with no addresses at
all and no corrections; every required role is backfilled and logged. -/
theorem generateCorrectedConfig_backfill_witness :
    (∀ p ∈ (generateCorrectedConfig [("solo", { chainId := 1 })] []).corrected,
      ∀ role ∈ REQUIRED_ADDRESSES,
        ∃ v, olookup p.2.addresses role = some v ∧ v ≠ "") ∧
    (olookup (applyChainCorrections { chainId := 1 } (olookup [] "solo")).1.addresses "usdc"
      = some ZERO_ADDRESS ∧
     ∃ ch, olookup (generateCorrectedConfig [("solo", { chainId := 1 })] []).changesSummary
        "solo" = some ch ∧
       ("Added missing address " ++ "usdc" ++ " as zero address") ∈ ch) := by
  obtain ⟨h1, h2⟩ := generateCorrectedConfig_backfill [("solo", { chainId := 1 })] []
    (by decide)
  exact ⟨h1, h2 "solo" { chainId := 1 } (by decide) "usdc" (by decide) (Or.inl rfl)⟩

/-! ## Toward idempotence: characterization lemmas -/

theorem olookup_none_iff_not_mem {α : Type} (m : List (String × α)) (k : String) :
    olookup m k = none ↔ k ∉ m.map Prod.fst := by
  induction m with
  | nil => simp [olookup_nil]
  | cons p t ih =>
      rw [olookup_cons]
      by_cases h : (p.1 == k) = true
      · have h1 : p.1 = k := by simpa [beq_iff_eq] using h
        simp [h, h1]
      · have h1 : p.1 ≠ k := by simpa using h
        simp only [h, Bool.false_eq_true, if_false, List.map_cons, List.mem_cons]
        rw [ih]
        constructor
        · intro hn hor
          rcases hor with hor | hor
          · exact h1 hor.symm
          · exact hn hor
        · intro hn
          exact fun hm => hn (Or.inr hm)

theorem oinsertFold_lookup_ne :
    ∀ (l : List (String × String)) (base : List (String × String)) (k : String),
      (∀ q ∈ l, q.1 ≠ k) →
      olookup (l.foldl (fun m q => oinsert m q.1 q.2) base) k = olookup base k := by
  intro l
  induction l with
  | nil => intro base k _; rfl
  | cons p t ih =>
      intro base k hne
      simp only [List.foldl_cons]
      rw [ih _ k (fun q hq => hne q (List.mem_cons_of_mem _ hq))]
      exact olookup_oinsert_ne _ _ _ _ (Ne.symm (hne p (List.mem_cons_self p t)))

theorem olookup_foldl_oinsert_nodup :
    ∀ (l : List (String × String)) (base : List (String × String)) (k : String),
      (l.map Prod.fst).Nodup →
      olookup (l.foldl (fun m q => oinsert m q.1 q.2) base) k =
        (match olookup l k with
         | some v => some v
         | none => olookup base k) := by
  intro l
  induction l with
  | nil => intro base k _; simp [olookup_nil]
  | cons p t ih =>
      intro base k hnd
      simp only [List.map_cons, List.nodup_cons] at hnd
      simp only [List.foldl_cons, olookup_cons]
      by_cases h : (p.1 == k) = true
      · have h1 : p.1 = k := by simpa [beq_iff_eq] using h
        subst h1
        rw [h]
        have hne : ∀ q ∈ t, q.1 ≠ p.1 := by
          intro q hq he
          exact hnd.1 (he ▸ List.mem_map_of_mem Prod.fst hq)
        rw [oinsertFold_lookup_ne t _ p.1 hne, olookup_oinsert_self]
        simp
      · rw [eq_false_of_ne_true h]
        simp only [Bool.false_eq_true, if_false]
        rw [ih _ k hnd.2, olookup_oinsert_ne _ _ _ _
          (fun he => h (by simp [beq_iff_eq, he]))]

theorem olookup_map_keys (g : String → ChainCorrection) :
    ∀ (l : List String) (x : String),
      olookup (l.map (fun k => (k, g k))) x = if x ∈ l then some (g x) else none := by
  intro l
  induction l with
  | nil => intro x; simp [olookup_nil]
  | cons a t ih =>
      intro x
      simp only [List.map_cons, olookup_cons]
      by_cases h : a = x
      · subst h
        simp
      · have h2 : (a == x) = false := by simpa using h
        rw [h2]
        simp only [Bool.false_eq_true, if_false]
        rw [ih x]
        by_cases hx : x ∈ t
        · rw [if_pos hx, if_pos (List.mem_cons_of_mem _ hx)]
        · rw [if_neg hx, if_neg (by
            intro hmem
            rcases List.mem_cons.mp hmem with hh | hh
            · exact h hh.symm
            · exact hx hh)]

theorem dedupKeys_mem_aux :
    ∀ (l : List String) (acc : List String) (x : String),
      (x ∈ l.foldl (fun acc k => if acc.contains k then acc else acc ++ [k]) acc) ↔
        (x ∈ acc ∨ x ∈ l) := by
  intro l
  induction l with
  | nil => intro acc x; simp
  | cons a t ih =>
      intro acc x
      simp only [List.foldl_cons]
      rw [ih]
      by_cases h : acc.contains a = true
      · have ha : a ∈ acc := by simpa using h
        rw [if_pos h]
        constructor
        · rintro (hh | hh)
          · exact Or.inl hh
          · exact Or.inr (List.mem_cons_of_mem _ hh)
        · rintro (hh | hh)
          · exact Or.inl hh
          · rcases List.mem_cons.mp hh with hh | hh
            · exact Or.inl (hh ▸ ha)
            · exact Or.inr hh
      · rw [if_neg h]
        constructor
        · rintro (hh | hh)
          · rcases List.mem_append.mp hh with hh | hh
            · exact Or.inl hh
            · simp only [List.mem_singleton] at hh
              exact Or.inr (by simp [hh])
          · exact Or.inr (List.mem_cons_of_mem _ hh)
        · rintro (hh | hh)
          · exact Or.inl (List.mem_append.mpr (Or.inl hh))
          · rcases List.mem_cons.mp hh with hh | hh
            · exact Or.inl (List.mem_append.mpr (Or.inr (by simp [hh])))
            · exact Or.inr hh

theorem dedupKeys_mem (l : List String) (x : String) :
    x ∈ dedupKeys l ↔ x ∈ l := by
  unfold dedupKeys
  rw [dedupKeys_mem_aux]
  simp

theorem mergeCorrections_lookup (r c : List (String × ChainCorrection)) (k : String) :
    olookup (mergeCorrections r c) k =
      if k ∈ r.map Prod.fst ∨ k ∈ c.map Prod.fst then
        some (spreadMerge ((olookup r k).getD {}) ((olookup c k).getD {}))
      else none := by
  unfold mergeCorrections
  rw [olookup_map_keys]
  by_cases h : k ∈ dedupKeys (r.map Prod.fst ++ c.map Prod.fst)
  · rw [if_pos h, if_pos (by
      rcases List.mem_append.mp ((dedupKeys_mem _ _).mp h) with hh | hh
      · exact Or.inl hh
      · exact Or.inr hh)]
  · rw [if_neg h, if_neg (by
      intro hor
      apply h
      rw [dedupKeys_mem]
      rcases hor with hh | hh
      · exact List.mem_append.mpr (Or.inl hh)
      · exact List.mem_append.mpr (Or.inr hh))]

theorem rpcCorrectionChain_addresses (env : Env) (chain : Chain) :
    (rpcCorrectionChain env chain).addresses = [] := by
  simp only [rpcCorrectionChain]
  cases hw : (verifyRpcsChain env chain).workingRpc with
  | some w =>
      cases ha : (verifyRpcsChain env chain).anyWorkingRpc <;>
        by_cases hi : (w.index : Int) ≠ chain.defaultRpcUrlIndex <;>
        simp [hi]
  | none =>
      cases ha : (verifyRpcsChain env chain).anyWorkingRpc <;> simp

theorem verifyRpcsFold_snd_lookup_ne (env : Env) :
    ∀ (cfg : List (String × Chain))
      (acc : List (String × RpcVerdict) × List (String × ChainCorrection)) (k : String),
      (∀ p ∈ cfg, p.1 ≠ k) →
      olookup (cfg.foldl (verifyRpcsStep env) acc).2 k = olookup acc.2 k := by
  intro cfg
  induction cfg with
  | nil => intro acc k _; rfl
  | cons p t ih =>
      intro acc k hne
      simp only [List.foldl_cons]
      rw [ih _ k (fun q hq => hne q (List.mem_cons_of_mem _ hq))]
      unfold verifyRpcsStep
      dsimp only
      by_cases hc : rpcCorrectionChain env p.2 = {}
      · rw [if_pos hc]
      · rw [if_neg hc]
        exact olookup_oinsert_ne _ _ _ _ (Ne.symm (hne p (List.mem_cons_self p t)))

theorem verifyRpcs_snd_lookup (env : Env) :
    ∀ (cfg : List (String × Chain))
      (acc : List (String × RpcVerdict) × List (String × ChainCorrection))
      (k : String) (chain : Chain),
      (k, chain) ∈ cfg → (cfg.map Prod.fst).Nodup → olookup acc.2 k = none →
      olookup (cfg.foldl (verifyRpcsStep env) acc).2 k =
        (if rpcCorrectionChain env chain = {} then none
         else some (rpcCorrectionChain env chain)) := by
  intro cfg
  induction cfg with
  | nil => intro acc k chain hmem; simp at hmem
  | cons p t ih =>
      intro acc k chain hmem hnd hacc
      simp only [List.map_cons, List.nodup_cons] at hnd
      simp only [List.foldl_cons]
      rcases List.mem_cons.mp hmem with heq | hmem'
      · obtain ⟨rfl, rfl⟩ : p.1 = k ∧ p.2 = chain := by rw [← heq]; exact ⟨rfl, rfl⟩
        have hkt : ∀ q ∈ t, q.1 ≠ p.1 := by
          intro q hq he
          exact hnd.1 (he ▸ List.mem_map_of_mem Prod.fst hq)
        rw [verifyRpcsFold_snd_lookup_ne env t _ p.1 hkt]
        unfold verifyRpcsStep
        dsimp only
        by_cases hc : rpcCorrectionChain env p.2 = {}
        · rw [if_pos hc, if_pos hc]
          exact hacc
        · rw [if_neg hc, if_neg hc, olookup_oinsert_self]
      · have hne : p.1 ≠ k := by
          intro he
          exact hnd.1 (he ▸ List.mem_map_of_mem Prod.fst hmem')
        refine ih _ k chain hmem' hnd.2 ?_
        unfold verifyRpcsStep
        dsimp only
        by_cases hc : rpcCorrectionChain env p.2 = {}
        · rw [if_pos hc]
          exact hacc
        · rw [if_neg hc, olookup_oinsert_ne _ _ _ _ (Ne.symm hne)]
          exact hacc

theorem verifyContractsFold_snd_lookup_ne (env : Env) (rv : List (String × RpcVerdict)) :
    ∀ (cfg : List (String × Chain))
      (acc : List (String × List String) × List (String × ChainCorrection)) (k : String),
      (∀ p ∈ cfg, p.1 ≠ k) →
      olookup (cfg.foldl (verifyContractsStep env rv) acc).2 k = olookup acc.2 k := by
  intro cfg
  induction cfg with
  | nil => intro acc k _; rfl
  | cons p t ih =>
      intro acc k hne
      simp only [List.foldl_cons]
      rw [ih _ k (fun q hq => hne q (List.mem_cons_of_mem _ hq))]
      unfold verifyContractsStep
      cases olookup rv p.1 with
      | none => rfl
      | some v =>
          dsimp only
          by_cases hw : v.workingRpc.isNone ∧ v.anyWorkingRpc.isNone
          · rw [if_pos hw]
          · rw [if_neg hw]
            dsimp only
            by_cases hc : contractCorrectionsChain env (chosenUrl v) p.2 = []
            · rw [if_pos hc]
            · rw [if_neg hc]
              exact olookup_oinsert_ne _ _ _ _ (Ne.symm (hne p (List.mem_cons_self p t)))

theorem verifyContracts_snd_lookup (env : Env) (rv : List (String × RpcVerdict)) :
    ∀ (cfg : List (String × Chain))
      (acc : List (String × List String) × List (String × ChainCorrection))
      (k : String) (chain : Chain),
      (k, chain) ∈ cfg → (cfg.map Prod.fst).Nodup → olookup acc.2 k = none →
      olookup (cfg.foldl (verifyContractsStep env rv) acc).2 k =
        (match olookup rv k with
         | none => none
         | some v =>
             if v.workingRpc.isNone ∧ v.anyWorkingRpc.isNone then none
             else if contractCorrectionsChain env (chosenUrl v) chain = [] then none
             else some { addresses := contractCorrectionsChain env (chosenUrl v) chain }) := by
  intro cfg
  induction cfg with
  | nil => intro acc k chain hmem; simp at hmem
  | cons p t ih =>
      intro acc k chain hmem hnd hacc
      simp only [List.map_cons, List.nodup_cons] at hnd
      simp only [List.foldl_cons]
      rcases List.mem_cons.mp hmem with heq | hmem'
      · obtain ⟨rfl, rfl⟩ : p.1 = k ∧ p.2 = chain := by rw [← heq]; exact ⟨rfl, rfl⟩
        have hkt : ∀ q ∈ t, q.1 ≠ p.1 := by
          intro q hq he
          exact hnd.1 (he ▸ List.mem_map_of_mem Prod.fst hq)
        rw [verifyContractsFold_snd_lookup_ne env rv t _ p.1 hkt]
        unfold verifyContractsStep
        cases hv : olookup rv p.1 with
        | none => exact hacc
        | some v =>
            dsimp only
            by_cases hw : v.workingRpc.isNone ∧ v.anyWorkingRpc.isNone
            · rw [if_pos hw, if_pos hw]
              exact hacc
            · rw [if_neg hw, if_neg hw]
              dsimp only
              by_cases hc : contractCorrectionsChain env (chosenUrl v) p.2 = []
              · rw [if_pos hc, if_pos hc]
                exact hacc
              · rw [if_neg hc, if_neg hc, olookup_oinsert_self]
      · have hne : p.1 ≠ k := by
          intro he
          exact hnd.1 (he ▸ List.mem_map_of_mem Prod.fst hmem')
        refine ih _ k chain hmem' hnd.2 ?_
        unfold verifyContractsStep
        cases hv : olookup rv p.1 with
        | none => exact hacc
        | some v =>
            dsimp only
            by_cases hw : v.workingRpc.isNone ∧ v.anyWorkingRpc.isNone
            · rw [if_pos hw]
              exact hacc
            · rw [if_neg hw]
              dsimp only
              by_cases hc : contractCorrectionsChain env (chosenUrl v) p.2 = []
              · rw [if_pos hc]
                exact hacc
              · rw [if_neg hc, olookup_oinsert_ne _ _ _ _ (Ne.symm hne)]
                exact hacc

theorem addrApplyFold_chainId :
    ∀ (l : List (String × String)) (st : Chain × List String),
      (l.foldl addrApplyStep st).1.chainId = st.1.chainId := by
  intro l
  induction l with
  | nil => intro st; rfl
  | cons q t ih => intro st; simp only [List.foldl_cons]; rw [ih]; rfl

theorem addrApplyFold_rpcUrls :
    ∀ (l : List (String × String)) (st : Chain × List String),
      (l.foldl addrApplyStep st).1.rpcUrls = st.1.rpcUrls := by
  intro l
  induction l with
  | nil => intro st; rfl
  | cons q t ih => intro st; simp only [List.foldl_cons]; rw [ih]; rfl

theorem addrApplyFold_idx :
    ∀ (l : List (String × String)) (st : Chain × List String),
      (l.foldl addrApplyStep st).1.defaultRpcUrlIndex = st.1.defaultRpcUrlIndex := by
  intro l
  induction l with
  | nil => intro st; rfl
  | cons q t ih => intro st; simp only [List.foldl_cons]; rw [ih]; rfl

theorem addrApplyFold_lookup_preserve :
    ∀ (t : List (String × String)) (k v : String) (st : Chain × List String),
      (∀ q ∈ t, q.1 ≠ k) →
      olookup st.1.addresses k = some v →
      olookup (t.foldl addrApplyStep st).1.addresses k = some v := by
  intro t
  induction t with
  | nil => intro k v st _ h2; exact h2
  | cons q tt iht =>
      intro k v st hne h2
      simp only [List.foldl_cons]
      refine iht k v _ (fun q2 hq2 => hne q2 (List.mem_cons_of_mem _ hq2)) ?_
      unfold addrApplyStep
      dsimp only
      rw [olookup_oinsert_ne _ _ _ _ (Ne.symm (hne q (List.mem_cons_self q tt)))]
      exact h2

theorem addrApplyFold_lookup :
    ∀ (l : List (String × String)) (st : Chain × List String) (k : String),
      (l.map Prod.fst).Nodup →
      olookup (l.foldl addrApplyStep st).1.addresses k =
        (match olookup l k with
         | some v => some v
         | none => olookup st.1.addresses k) := by
  intro l
  induction l with
  | nil => intro st k _; simp [olookup_nil]
  | cons p t ih =>
      intro st k hnd
      simp only [List.map_cons, List.nodup_cons] at hnd
      simp only [List.foldl_cons, olookup_cons]
      by_cases h : (p.1 == k) = true
      · have h1 : p.1 = k := by simpa [beq_iff_eq] using h
        subst h1
        rw [h]
        have hne : ∀ q ∈ t, q.1 ≠ p.1 := by
          intro q hq he
          exact hnd.1 (he ▸ List.mem_map_of_mem Prod.fst hq)
        simp only
        refine addrApplyFold_lookup_preserve t p.1 p.2 _ hne ?_
        unfold addrApplyStep
        dsimp only
        exact olookup_oinsert_self _ _ _
      · rw [eq_false_of_ne_true h]
        simp only [Bool.false_eq_true, if_false]
        rw [ih _ k hnd.2]
        unfold addrApplyStep
        dsimp only
        rw [olookup_oinsert_ne _ _ _ _ (fun he => h (by simp [beq_iff_eq, he]))]

theorem applyCorrectionsOnly_chainId (chain : Chain) (cors : ChainCorrection) :
    (applyCorrectionsOnly chain (some cors)).1.chainId =
      (match cors.chainId with
       | some cid => cid
       | none => chain.chainId) := by
  unfold applyCorrectionsOnly
  rw [addrApplyFold_chainId]
  cases cors.chainId <;> cases cors.defaultRpcUrlIndex <;> rfl

theorem applyCorrectionsOnly_rpcUrls (chain : Chain) (cor : Option ChainCorrection) :
    (applyCorrectionsOnly chain cor).1.rpcUrls = chain.rpcUrls := by
  unfold applyCorrectionsOnly
  cases cor with
  | none => rfl
  | some cors =>
      rw [addrApplyFold_rpcUrls]
      cases cors.chainId <;> cases cors.defaultRpcUrlIndex <;> rfl

theorem applyCorrectionsOnly_idx (chain : Chain) (cors : ChainCorrection) :
    (applyCorrectionsOnly chain (some cors)).1.defaultRpcUrlIndex =
      (match cors.defaultRpcUrlIndex with
       | some i => i
       | none => chain.defaultRpcUrlIndex) := by
  unfold applyCorrectionsOnly
  rw [addrApplyFold_idx]
  cases cors.chainId <;> cases cors.defaultRpcUrlIndex <;> rfl

theorem applyCorrectionsOnly_lookup (chain : Chain) (cors : ChainCorrection) (k : String)
    (hnd : (cors.addresses.map Prod.fst).Nodup) :
    olookup (applyCorrectionsOnly chain (some cors)).1.addresses k =
      (match olookup cors.addresses k with
       | some v => some v
       | none => olookup chain.addresses k) := by
  unfold applyCorrectionsOnly
  rw [addrApplyFold_lookup cors.addresses _ k hnd]
  cases cors.chainId <;> cases cors.defaultRpcUrlIndex <;> rfl

theorem foldl_preserve {γ β : Type} (P : γ → Prop) (f : γ → β → γ)
    (hf : ∀ acc b, P acc → P (f acc b)) :
    ∀ (l : List β) (acc : γ), P acc → P (l.foldl f acc) := by
  intro l
  induction l with
  | nil => intro acc h; exact h
  | cons b t ih => intro acc h; exact ih _ (hf acc b h)

theorem foldl_id_of {γ β : Type} (f : γ → β → γ) :
    ∀ (l : List β) (acc : γ), (∀ b ∈ l, ∀ a, f a b = a) → l.foldl f acc = acc := by
  intro l
  induction l with
  | nil => intro acc _; rfl
  | cons b t ih =>
      intro acc h
      simp only [List.foldl_cons]
      rw [h b (List.mem_cons_self b t) acc]
      exact ih _ (fun b2 hb2 a => h b2 (List.mem_cons_of_mem _ hb2) a)

theorem oinsert_keys_nodup {α : Type} (m : List (String × α)) (k : String) (v : α)
    (h : (m.map Prod.fst).Nodup) : ((oinsert m k v).map Prod.fst).Nodup := by
  unfold oinsert
  by_cases ha : m.any (fun p => p.1 == k) = true
  · rw [if_pos ha]
    have : ((m.map (fun p => if p.1 == k then (k, v) else p)).map Prod.fst) =
        m.map Prod.fst := by
      rw [List.map_map]
      apply List.map_congr_left
      intro p _
      simp only [Function.comp_apply]
      by_cases hp : (p.1 == k) = true
      · have h1 : p.1 = k := by simpa [beq_iff_eq] using hp
        rw [if_pos hp]
        exact h1.symm
      · rw [if_neg hp]
    rw [this]
    exact h
  · rw [if_neg ha]
    rw [List.map_append]
    simp only [List.map_cons, List.map_nil]
    rw [List.nodup_append]
    refine ⟨h, List.nodup_singleton k, ?_⟩
    intro x hx hxk
    simp only [List.mem_singleton] at hxk
    rcases List.mem_map.mp hx with ⟨p, hp, hpk⟩
    have ha2 : ∀ q ∈ m, (q.1 == k) = false := by
      intro q hqm
      by_contra hcon
      apply ha
      rw [List.any_eq_true]
      exact ⟨q, hqm, by simpa using hcon⟩
    have hq := ha2 p hp
    rw [hpk, hxk] at hq
    simp at hq

theorem olookup_mem {α : Type} (m : List (String × α)) (k : String) (v : α)
    (h : olookup m k = some v) : (k, v) ∈ m := by
  unfold olookup at h
  cases hf : m.find? (fun p => p.1 == k) with
  | none => rw [hf] at h; simp at h
  | some p =>
      rw [hf] at h
      simp only [Option.map_some', Option.some_inj] at h
      have hmem := List.mem_of_find?_eq_some hf
      have hkey := List.find?_some hf
      simp only [beq_iff_eq] at hkey
      have : p = (k, v) := by
        cases p with
        | mk a b => simp_all
      rw [← this]
      exact hmem

theorem mem_olookup_of_nodup {α : Type} :
    ∀ (m : List (String × α)), (m.map Prod.fst).Nodup →
      ∀ q ∈ m, olookup m q.1 = some q.2 := by
  intro m
  induction m with
  | nil => intro _ q hq; simp at hq
  | cons p t ih =>
      intro hnd q hq
      simp only [List.map_cons, List.nodup_cons] at hnd
      rw [olookup_cons]
      rcases List.mem_cons.mp hq with he | ht
      · subst he; simp
      · have hne : (p.1 == q.1) = false := by
          simp only [beq_eq_false_iff_ne, ne_eq]
          intro hh
          exact hnd.1 (hh ▸ List.mem_map_of_mem Prod.fst ht)
        rw [hne]
        simp only [Bool.false_eq_true, if_false]
        exact ih hnd.2 q ht

/-- The value the required-address backfill leaves at a processed key. -/
def bfValue (o : Option String) : String :=
  match o with
  | some v => if v = "" then ZERO_ADDRESS else v
  | none => ZERO_ADDRESS

theorem bfValue_ne_empty (o : Option String) : bfValue o ≠ "" := by
  cases o with
  | none => decide
  | some v =>
      by_cases hv : v = ""
      · simp only [bfValue, if_pos hv]; decide
      · simp only [bfValue, if_neg hv]; exact hv

theorem backfillStep_scalars (st : Chain × List String) (addrKey : String) :
    (backfillStep st addrKey).1.rpcUrls = st.1.rpcUrls ∧
    (backfillStep st addrKey).1.chainId = st.1.chainId ∧
    (backfillStep st addrKey).1.defaultRpcUrlIndex = st.1.defaultRpcUrlIndex := by
  unfold backfillStep
  cases olookup st.1.addresses addrKey with
  | some v =>
      dsimp only
      by_cases hv : v = ""
      · rw [if_pos hv]; exact ⟨rfl, rfl, rfl⟩
      · rw [if_neg hv]; exact ⟨rfl, rfl, rfl⟩
  | none => exact ⟨rfl, rfl, rfl⟩

theorem backfill_fold_scalars :
    ∀ (l : List String) (st : Chain × List String),
      (l.foldl backfillStep st).1.rpcUrls = st.1.rpcUrls ∧
      (l.foldl backfillStep st).1.chainId = st.1.chainId ∧
      (l.foldl backfillStep st).1.defaultRpcUrlIndex = st.1.defaultRpcUrlIndex := by
  intro l
  induction l with
  | nil => intro st; exact ⟨rfl, rfl, rfl⟩
  | cons a t ih =>
      intro st
      simp only [List.foldl_cons]
      obtain ⟨h1, h2, h3⟩ := ih (backfillStep st a)
      obtain ⟨g1, g2, g3⟩ := backfillStep_scalars st a
      exact ⟨h1.trans g1, h2.trans g2, h3.trans g3⟩

theorem backfillStep_lookup_self (st : Chain × List String) (k : String) :
    olookup (backfillStep st k).1.addresses k = some (bfValue (olookup st.1.addresses k)) := by
  unfold backfillStep bfValue
  cases hlk : olookup st.1.addresses k with
  | some v =>
      dsimp only
      by_cases hv : v = ""
      · rw [if_pos hv, if_pos hv]
        dsimp only
        exact olookup_oinsert_self _ _ _
      · rw [if_neg hv, if_neg hv]
        exact hlk
  | none =>
      dsimp only
      exact olookup_oinsert_self _ _ _

theorem backfill_fold_lookup_mem :
    ∀ (l : List String) (st : Chain × List String) (k : String), k ∈ l →
      olookup (l.foldl backfillStep st).1.addresses k =
        some (bfValue (olookup st.1.addresses k)) := by
  intro l
  induction l with
  | nil => intro st k h; simp at h
  | cons a t ih =>
      intro st k hmem
      simp only [List.foldl_cons]
      by_cases he : a = k
      · subst he
        exact backfill_fold_preserves_truthy t _ a _ (backfillStep_lookup_self st a)
          (bfValue_ne_empty _)
      · have hkt : k ∈ t := by
          rcases List.mem_cons.mp hmem with h | h
          · exact absurd h.symm he
          · exact h
        rw [ih _ k hkt, backfillStep_lookup_ne st a k he]

theorem backfill_fold_lookup_ne :
    ∀ (l : List String) (st : Chain × List String) (k : String), k ∉ l →
      olookup (l.foldl backfillStep st).1.addresses k = olookup st.1.addresses k := by
  intro l
  induction l with
  | nil => intro st k _; rfl
  | cons a t ih =>
      intro st k hk
      simp only [List.foldl_cons]
      rw [ih _ k (fun h => hk (List.mem_cons_of_mem _ h)),
        backfillStep_lookup_ne st a k (fun h => hk (h ▸ List.mem_cons_self a t))]

theorem backfillStep_id_of_truthy (st : Chain × List String) (x : String) (v : String)
    (h : olookup st.1.addresses x = some v) (hv : v ≠ "") : backfillStep st x = st := by
  unfold backfillStep
  rw [h]
  dsimp only
  rw [if_neg hv]

theorem backfill_fold_id :
    ∀ (l : List String) (st : Chain × List String),
      (∀ x ∈ l, ∃ v, olookup st.1.addresses x = some v ∧ v ≠ "") →
      l.foldl backfillStep st = st := by
  intro l
  induction l with
  | nil => intro st _; rfl
  | cons a t ih =>
      intro st h
      simp only [List.foldl_cons]
      obtain ⟨v, hv, hvne⟩ := h a (List.mem_cons_self a t)
      rw [backfillStep_id_of_truthy st a v hv hvne]
      exact ih _ (fun x hx => h x (List.mem_cons_of_mem _ hx))

theorem backfillStep_addr_nodup (st : Chain × List String) (x : String)
    (h : (st.1.addresses.map Prod.fst).Nodup) :
    ((backfillStep st x).1.addresses.map Prod.fst).Nodup := by
  unfold backfillStep
  cases olookup st.1.addresses x with
  | some v =>
      dsimp only
      by_cases hv : v = ""
      · rw [if_pos hv]; exact oinsert_keys_nodup _ _ _ h
      · rw [if_neg hv]; exact h
  | none => exact oinsert_keys_nodup _ _ _ h

theorem addrApplyStep_addr_nodup (st : Chain × List String) (q : String × String)
    (h : (st.1.addresses.map Prod.fst).Nodup) :
    ((addrApplyStep st q).1.addresses.map Prod.fst).Nodup := by
  unfold addrApplyStep
  exact oinsert_keys_nodup _ _ _ h

theorem verifyRpcsChain_congr (env : Env) (c c2 : Chain)
    (hu : c2.rpcUrls = c.rpcUrls) (hi : c2.chainId = c.chainId) :
    verifyRpcsChain env c2 = verifyRpcsChain env c := by
  unfold verifyRpcsChain
  rw [hu, hi]

theorem anyWorking_result_isSome (env : Env) (chain : Chain) (a : RpcProbeResult)
    (h : (verifyRpcsChain env chain).anyWorkingRpc = some a) : a.result.isSome = true := by
  unfold verifyRpcsChain at h
  dsimp only at h
  simpa using List.find?_some h

theorem rpcCorrectionChain_of_match (env : Env) (chain : Chain) (w : RpcProbeResult)
    (hw : (verifyRpcsChain env chain).workingRpc = some w)
    (hi : (w.index : Int) = chain.defaultRpcUrlIndex) :
    rpcCorrectionChain env chain = {} := by
  simp only [rpcCorrectionChain]
  rw [hw]
  cases (verifyRpcsChain env chain).anyWorkingRpc <;> simp [hi]

theorem rpcCorrectionChain_of_dead (env : Env) (chain : Chain)
    (ha : (verifyRpcsChain env chain).anyWorkingRpc = none) :
    rpcCorrectionChain env chain = {} := by
  have hw := workingRpc_none_of_any_none env chain ha
  simp only [rpcCorrectionChain]
  rw [hw, ha]

theorem rpcCorrectionChain_cases (env : Env) (chain : Chain)
    (hnc : (rpcCorrectionChain env chain).chainId = none) :
    (∃ w, (verifyRpcsChain env chain).workingRpc = some w ∧
      rpcCorrectionChain env chain =
        (if (w.index : Int) ≠ chain.defaultRpcUrlIndex then
          { defaultRpcUrlIndex := some (w.index : Int) } else {})) ∨
    ((verifyRpcsChain env chain).workingRpc = none ∧
      (verifyRpcsChain env chain).anyWorkingRpc = none ∧
      rpcCorrectionChain env chain = {}) := by
  cases hw : (verifyRpcsChain env chain).workingRpc with
  | some w =>
      left
      refine ⟨w, rfl, ?_⟩
      simp only [rpcCorrectionChain]
      rw [hw]
  | none =>
      cases ha : (verifyRpcsChain env chain).anyWorkingRpc with
      | some a =>
          exfalso
          have hs := anyWorking_result_isSome env chain a ha
          simp only [rpcCorrectionChain] at hnc
          rw [hw, ha] at hnc
          dsimp only at hnc
          rw [hnc] at hs
          simp at hs
      | none => exact Or.inr ⟨rfl, rfl, rpcCorrectionChain_of_dead env chain ha⟩

theorem verifyRpcs_snd_nil (env : Env) :
    ∀ (cfg : List (String × Chain))
      (acc : List (String × RpcVerdict) × List (String × ChainCorrection)),
      (∀ p ∈ cfg, rpcCorrectionChain env p.2 = {}) →
      (cfg.foldl (verifyRpcsStep env) acc).2 = acc.2 := by
  intro cfg
  induction cfg with
  | nil => intro acc _; rfl
  | cons p t ih =>
      intro acc h
      simp only [List.foldl_cons]
      rw [ih _ (fun q hq => h q (List.mem_cons_of_mem _ hq))]
      unfold verifyRpcsStep
      rw [if_pos (h p (List.mem_cons_self p t))]

theorem verifyContracts_snd_nil (env : Env) (rv : List (String × RpcVerdict)) :
    ∀ (cfg : List (String × Chain))
      (acc : List (String × List String) × List (String × ChainCorrection)),
      (∀ p ∈ cfg, ∀ v, olookup rv p.1 = some v →
        (v.workingRpc.isNone ∧ v.anyWorkingRpc.isNone) ∨
        contractCorrectionsChain env (chosenUrl v) p.2 = []) →
      (cfg.foldl (verifyContractsStep env rv) acc).2 = acc.2 := by
  intro cfg
  induction cfg with
  | nil => intro acc _; rfl
  | cons p t ih =>
      intro acc h
      simp only [List.foldl_cons]
      rw [ih _ (fun q hq => h q (List.mem_cons_of_mem _ hq))]
      unfold verifyContractsStep
      cases hv : olookup rv p.1 with
      | none => rfl
      | some v =>
          dsimp only
          rcases h p (List.mem_cons_self p t) v hv with hskip | hccc
          · rw [if_pos hskip]
          · by_cases hskip : v.workingRpc.isNone ∧ v.anyWorkingRpc.isNone
            · rw [if_pos hskip]
            · rw [if_neg hskip]
              dsimp only
              rw [if_pos hccc]

theorem tokenZeroStep_id (env : Env) (url : String) (acc : List (String × String))
    (q : String × String)
    (hq : tokensToVerify.contains q.1 = true → q.2 = "" ∨ q.2 = ZERO_ADDRESS) :
    tokenZeroStep env url acc q = acc := by
  unfold tokenZeroStep
  by_cases hs : tokenSkip q = true
  · rw [if_pos hs]
  · rw [if_neg hs]
    by_cases ht : tokensToVerify.contains q.1 = true
    · exfalso
      apply hs
      unfold tokenSkip
      rcases hq ht with h | h <;> simp [h]
    · rw [if_pos (by simpa using ht)]

theorem tokenIssueStep_id (env : Env) (url : String) (acc : List (String × String))
    (q : String × String)
    (hq : tokensToVerify.contains q.1 = true → q.2 = "" ∨ q.2 = ZERO_ADDRESS) :
    tokenIssueStep env url acc q = acc := by
  unfold tokenIssueStep
  by_cases hs : tokenSkip q = true
  · rw [if_pos hs]
  · rw [if_neg hs]
    by_cases ht : tokensToVerify.contains q.1 = true
    · exfalso
      apply hs
      unfold tokenSkip
      rcases hq ht with h | h <;> simp [h]
    · rw [if_pos (by simpa using ht)]

theorem tokenPass_id (env : Env) (url : String) (chain : Chain)
    (acc : List (String × String))
    (h : ∀ q ∈ chain.addresses, tokensToVerify.contains q.1 = true →
      q.2 = "" ∨ q.2 = ZERO_ADDRESS) :
    tokenPass env url chain acc = acc := by
  unfold tokenPass
  rw [foldl_id_of _ _ _ (fun q hq a => tokenZeroStep_id env url a q (h q hq)),
    foldl_id_of _ _ _ (fun q hq a => tokenIssueStep_id env url a q (h q hq))]

theorem roleFold_fst_id (env : Env) (url : String) (chain : Chain) :
    ∀ (l : List ContractCheck) (acc : List (String × String) × List (String × String)),
      (∀ c ∈ l, roleCorrValue env url chain c = none) →
      (l.foldl (roleStep env url chain) acc).1 = acc.1 := by
  intro l
  induction l with
  | nil => intro acc _; rfl
  | cons x t ih =>
      intro acc h
      simp only [List.foldl_cons]
      rw [ih _ (fun c hc => h c (List.mem_cons_of_mem _ hc))]
      rw [roleStep_fst, h x (List.mem_cons_self x t)]

theorem roleFold_snd_id (env : Env) (url : String) (chain : Chain) :
    ∀ (l : List ContractCheck) (acc : List (String × String) × List (String × String)),
      (∀ c ∈ l, (checkRole env url chain c).checksumIssue = none) →
      (l.foldl (roleStep env url chain) acc).2 = acc.2 := by
  intro l
  induction l with
  | nil => intro acc _; rfl
  | cons x t ih =>
      intro acc h
      simp only [List.foldl_cons]
      rw [ih _ (fun c hc => h c (List.mem_cons_of_mem _ hc))]
      rw [roleStep_snd, h x (List.mem_cons_self x t)]
      simp

theorem contractCorrectionsChain_empty (env : Env) (url : String) (chain : Chain)
    (hrole : ∀ c ∈ contractChecks, roleCorrValue env url chain c = none)
    (htok : ∀ q ∈ chain.addresses, tokensToVerify.contains q.1 = true →
      q.2 = "" ∨ q.2 = ZERO_ADDRESS) :
    contractCorrectionsChain env url chain = [] := by
  unfold contractCorrectionsChain
  have hiss : ∀ c ∈ contractChecks, (checkRole env url chain c).checksumIssue = none := by
    intro c hc
    cases hi : (checkRole env url chain c).checksumIssue with
    | none => rfl
    | some ca =>
        exfalso
        have := checksumIssue_roleCorr env url chain c ca hi
        rw [hrole c hc] at this
        exact Option.noConfusion this
  dsimp only
  rw [roleFold_snd_id env url chain contractChecks ([], []) hiss]
  simp only [List.foldl_nil]
  rw [roleFold_fst_id env url chain contractChecks ([], []) hrole]
  exact tokenPass_id env url chain [] htok

theorem oinsertFold_keys_nodup :
    ∀ (l : List (String × String)) (base : List (String × String)),
      (base.map Prod.fst).Nodup →
      (((l.foldl (fun m q => oinsert m q.1 q.2) base)).map Prod.fst).Nodup :=
  fun l base h =>
    foldl_preserve (fun m => (m.map Prod.fst).Nodup) _
      (fun acc b hacc => oinsert_keys_nodup acc b.1 b.2 hacc) l base h

theorem tokenZeroStep_nodup (env : Env) (url : String) (acc : List (String × String))
    (q : String × String) (h : (acc.map Prod.fst).Nodup) :
    ((tokenZeroStep env url acc q).map Prod.fst).Nodup := by
  unfold tokenZeroStep
  by_cases hs : tokenSkip q = true
  · rw [if_pos hs]; exact h
  · rw [if_neg hs]
    by_cases ht : ¬tokensToVerify.contains q.1 = true
    · rw [if_pos ht]; exact h
    · rw [if_neg ht]
      cases env.getAddress q.2 with
      | none => exact h
      | some ca =>
          dsimp only
          cases env.getCode url ca with
          | error m => exact h
          | ok code =>
              dsimp only
              by_cases hc : code = "0x"
              · rw [if_pos hc]; exact oinsert_keys_nodup _ _ _ h
              · rw [if_neg hc]; exact h

theorem tokenIssueStep_nodup (env : Env) (url : String) (acc : List (String × String))
    (q : String × String) (h : (acc.map Prod.fst).Nodup) :
    ((tokenIssueStep env url acc q).map Prod.fst).Nodup := by
  unfold tokenIssueStep
  by_cases hs : tokenSkip q = true
  · rw [if_pos hs]; exact h
  · rw [if_neg hs]
    by_cases ht : ¬tokensToVerify.contains q.1 = true
    · rw [if_pos ht]; exact h
    · rw [if_neg ht]
      cases env.getAddress q.2 with
      | none => exact h
      | some ca =>
          dsimp only
          cases env.getCode url ca with
          | error m => exact h
          | ok code =>
              dsimp only
              by_cases hc : (q.2 != ca) = true
              · rw [if_pos hc]; exact oinsert_keys_nodup _ _ _ h
              · rw [if_neg hc]; exact h

theorem checksFold_fst_nodup (env : Env) (url : String) (chain : Chain) :
    ∀ (l : List ContractCheck) (acc : List (String × String) × List (String × String)),
      (acc.1.map Prod.fst).Nodup →
      ((l.foldl (roleStep env url chain) acc).1.map Prod.fst).Nodup := by
  intro l
  induction l with
  | nil => intro acc h; exact h
  | cons x t ih =>
      intro acc h
      simp only [List.foldl_cons]
      apply ih
      rw [roleStep_fst]
      cases roleCorrValue env url chain x with
      | some f => exact oinsert_keys_nodup _ _ _ h
      | none => exact h

theorem contractCorrectionsChain_nodupKeys (env : Env) (url : String) (chain : Chain) :
    ((contractCorrectionsChain env url chain).map Prod.fst).Nodup := by
  unfold contractCorrectionsChain tokenPass
  dsimp only
  apply foldl_preserve (fun m => (m.map Prod.fst).Nodup) _
    (fun acc b hacc => tokenIssueStep_nodup env url acc b hacc)
  apply foldl_preserve (fun m => (m.map Prod.fst).Nodup) _
    (fun acc b hacc => tokenZeroStep_nodup env url acc b hacc)
  apply oinsertFold_keys_nodup
  exact checksFold_fst_nodup env url chain contractChecks ([], []) (by simp)

theorem roleCorrValue_none_of_not_needed (env : Env) (url : String) (c2 : Chain)
    (check : ContractCheck) (h : (checkRole env url c2 check).correctionNeeded = false) :
    roleCorrValue env url c2 check = none := by
  unfold roleCorrValue
  by_cases hc : (checkRole env url c2 check).correctionNeeded = true ∧
      (checkRole env url c2 check).finalAddress ≠ olookup c2.addresses check.key
  · rw [h] at hc
    exact absurd hc.1 (by decide)
  · rw [if_neg hc]

theorem roleCorrValue_none_of_same (env : Env) (url : String) (c2 : Chain)
    (check : ContractCheck)
    (h : (checkRole env url c2 check).finalAddress = olookup c2.addresses check.key) :
    roleCorrValue env url c2 check = none := by
  unfold roleCorrValue
  by_cases hc : (checkRole env url c2 check).correctionNeeded = true ∧
      (checkRole env url c2 check).finalAddress ≠ olookup c2.addresses check.key
  · exact absurd h hc.2
  · rw [if_neg hc]

theorem checkRole_eq_nonzero (env : Env) (url : String) (chain : Chain)
    (check : ContractCheck) (a : String)
    (hlk : olookup chain.addresses check.key = some a) (ha1 : a ≠ "")
    (ha2 : a ≠ ZERO_ADDRESS) :
    checkRole env url chain check = checkRoleNonzero env url check a := by
  unfold checkRole
  rw [hlk]
  dsimp only
  rw [if_pos ⟨ha1, ha2⟩]

theorem checkRole_eq_zero_none (env : Env) (url : String) (chain : Chain)
    (check : ContractCheck) (hlk : olookup chain.addresses check.key = none) :
    checkRole env url chain check = checkRoleZero env url check none := by
  unfold checkRole
  rw [hlk]

theorem checkRole_eq_zero_some (env : Env) (url : String) (chain : Chain)
    (check : ContractCheck) (a : String)
    (hlk : olookup chain.addresses check.key = some a)
    (ha : ¬(a ≠ "" ∧ a ≠ ZERO_ADDRESS)) :
    checkRole env url chain check = checkRoleZero env url check (some a) := by
  unfold checkRole
  rw [hlk]
  dsimp only
  rw [if_neg ha]

theorem checkRoleNonzero_eq_some (env : Env) (url : String) (check : ContractCheck)
    (a ca : String) (h : env.getAddress a = some ca) :
    checkRoleNonzero env url check a = checkRoleNonzeroCore env url check a ca (a != ca) := by
  unfold checkRoleNonzero
  rw [h]

theorem checkRoleNonzero_eq_none (env : Env) (url : String) (check : ContractCheck)
    (a : String) (h : env.getAddress a = none) :
    checkRoleNonzero env url check a = checkRoleNonzeroCore env url check a a false := by
  unfold checkRoleNonzero
  rw [h]

theorem core_proj_err (env : Env) (url : String) (check : ContractCheck)
    (a ca : String) (fix : Bool) (m : String) (h : env.getCode url ca = Except.error m) :
    (checkRoleNonzeroCore env url check a ca fix).correctionNeeded = false ∧
    (checkRoleNonzeroCore env url check a ca fix).checksumIssue = none := by
  unfold checkRoleNonzeroCore
  rw [h]
  exact ⟨rfl, rfl⟩

theorem core_proj_code (env : Env) (url : String) (check : ContractCheck)
    (a ca : String) (fix : Bool) (code : String)
    (h : env.getCode url ca = Except.ok code) (hlen : 0 < codeLenOf code) :
    (checkRoleNonzeroCore env url check a ca fix).correctionNeeded = fix ∧
    (checkRoleNonzeroCore env url check a ca fix).finalAddress = some ca ∧
    (checkRoleNonzeroCore env url check a ca fix).checksumIssue =
      (if fix then some ca else none) := by
  unfold checkRoleNonzeroCore
  rw [h]
  dsimp only
  rw [if_pos hlen, if_pos (by rw [decide_eq_true hlen, Bool.or_true])]
  exact ⟨rfl, rfl, rfl⟩

theorem core_proj_nocode_nodflt (env : Env) (url : String) (check : ContractCheck)
    (a ca : String) (fix : Bool) (code : String)
    (h : env.getCode url ca = Except.ok code) (hlen : ¬0 < codeLenOf code)
    (hdf : check.dflt = none) :
    (checkRoleNonzeroCore env url check a ca fix).correctionNeeded = true ∧
    (checkRoleNonzeroCore env url check a ca fix).finalAddress = some ZERO_ADDRESS ∧
    (checkRoleNonzeroCore env url check a ca fix).checksumIssue = none := by
  unfold checkRoleNonzeroCore
  rw [h]
  dsimp only
  rw [if_neg hlen, hdf]
  exact ⟨rfl, rfl, rfl⟩

theorem core_proj_nocode_dflt_err (env : Env) (url : String) (check : ContractCheck)
    (a ca : String) (fix : Bool) (code : String) (d m : String)
    (h : env.getCode url ca = Except.ok code) (hlen : ¬0 < codeLenOf code)
    (hdf : check.dflt = some d) (hd : env.getCode url d = Except.error m) :
    (checkRoleNonzeroCore env url check a ca fix).correctionNeeded = false ∧
    (checkRoleNonzeroCore env url check a ca fix).checksumIssue = none := by
  unfold checkRoleNonzeroCore
  rw [h]
  dsimp only
  rw [if_neg hlen, hdf]
  dsimp only
  rw [hd]
  exact ⟨rfl, rfl⟩

theorem core_proj_nocode_dflt_code (env : Env) (url : String) (check : ContractCheck)
    (a ca : String) (fix : Bool) (code : String) (d dcode : String)
    (h : env.getCode url ca = Except.ok code) (hlen : ¬0 < codeLenOf code)
    (hdf : check.dflt = some d) (hd : env.getCode url d = Except.ok dcode)
    (hdlen : 0 < codeLenOf dcode) :
    (checkRoleNonzeroCore env url check a ca fix).correctionNeeded = true ∧
    (checkRoleNonzeroCore env url check a ca fix).finalAddress = some d ∧
    (checkRoleNonzeroCore env url check a ca fix).checksumIssue = none := by
  unfold checkRoleNonzeroCore
  rw [h]
  dsimp only
  rw [if_neg hlen, hdf]
  dsimp only
  rw [hd]
  dsimp only
  rw [if_pos hdlen]
  exact ⟨rfl, rfl, rfl⟩

theorem core_proj_nocode_dflt_nocode (env : Env) (url : String) (check : ContractCheck)
    (a ca : String) (fix : Bool) (code : String) (d dcode : String)
    (h : env.getCode url ca = Except.ok code) (hlen : ¬0 < codeLenOf code)
    (hdf : check.dflt = some d) (hd : env.getCode url d = Except.ok dcode)
    (hdlen : ¬0 < codeLenOf dcode) :
    (checkRoleNonzeroCore env url check a ca fix).correctionNeeded = true ∧
    (checkRoleNonzeroCore env url check a ca fix).finalAddress = some ZERO_ADDRESS ∧
    (checkRoleNonzeroCore env url check a ca fix).checksumIssue = none := by
  unfold checkRoleNonzeroCore
  rw [h]
  dsimp only
  rw [if_neg hlen, hdf]
  dsimp only
  rw [hd]
  dsimp only
  rw [if_neg hdlen]
  exact ⟨rfl, rfl, rfl⟩

theorem zero_proj_nodflt (env : Env) (url : String) (check : ContractCheck)
    (x : Option String) (hdf : check.dflt = none) :
    (checkRoleZero env url check x).correctionNeeded = false := by
  unfold checkRoleZero
  rw [hdf]

theorem zero_proj_err (env : Env) (url : String) (check : ContractCheck)
    (x : Option String) (d m : String) (hdf : check.dflt = some d)
    (hd : env.getCode url d = Except.error m) :
    (checkRoleZero env url check x).correctionNeeded = false := by
  unfold checkRoleZero
  rw [hdf]
  dsimp only
  rw [hd]

theorem zero_proj_code (env : Env) (url : String) (check : ContractCheck)
    (x : Option String) (d dcode : String) (hdf : check.dflt = some d)
    (hd : env.getCode url d = Except.ok dcode) (hdlen : 0 < codeLenOf dcode) :
    (checkRoleZero env url check x).correctionNeeded = true ∧
    (checkRoleZero env url check x).finalAddress = some d := by
  unfold checkRoleZero
  rw [hdf]
  dsimp only
  rw [hd]
  dsimp only
  rw [if_pos hdlen]
  exact ⟨rfl, rfl⟩

theorem zero_proj_nocode (env : Env) (url : String) (check : ContractCheck)
    (x : Option String) (d dcode : String) (hdf : check.dflt = some d)
    (hd : env.getCode url d = Except.ok dcode) (hdlen : ¬0 < codeLenOf dcode) :
    (checkRoleZero env url check x).correctionNeeded = false := by
  unfold checkRoleZero
  rw [hdf]
  dsimp only
  rw [hd]
  dsimp only
  rw [if_neg hdlen]

theorem checkRole_stable_canon (env : Env) (url : String) (c2 : Chain)
    (check : ContractCheck) (x : String)
    (hlk : olookup c2.addresses check.key = some x) (hx1 : x ≠ "")
    (hx2 : x ≠ ZERO_ADDRESS) (hxga : env.getAddress x = some x) (code : String)
    (hcode : env.getCode url x = Except.ok code) (hlen : 0 < codeLenOf code) :
    roleCorrValue env url c2 check = none ∧
    (checkRole env url c2 check).checksumIssue = none := by
  have heq : checkRole env url c2 check = checkRoleNonzeroCore env url check x x (x != x) :=
    (checkRole_eq_nonzero env url c2 check x hlk hx1 hx2).trans
      (checkRoleNonzero_eq_some env url check x x hxga)
  have hfix : (x != x) = false := by simp
  obtain ⟨hcn, hfa, hiss⟩ := core_proj_code env url check x x (x != x) code hcode hlen
  constructor
  · apply roleCorrValue_none_of_not_needed
    rw [heq, hcn, hfix]
  · rw [heq, hiss, hfix]
    simp

theorem checkRole_stable_zero (env : Env) (url : String) (c2 : Chain)
    (check : ContractCheck)
    (hlk : olookup c2.addresses check.key = some ZERO_ADDRESS)
    (hdz : ∀ d, check.dflt = some d →
      (∃ m, env.getCode url d = Except.error m) ∨
      (∃ dcode, env.getCode url d = Except.ok dcode ∧ ¬0 < codeLenOf dcode)) :
    roleCorrValue env url c2 check = none ∧
    (checkRole env url c2 check).checksumIssue = none := by
  have heq : checkRole env url c2 check = checkRoleZero env url check (some ZERO_ADDRESS) :=
    checkRole_eq_zero_some env url c2 check ZERO_ADDRESS hlk (fun h => h.2 rfl)
  have hcn : (checkRole env url c2 check).correctionNeeded = false := by
    rw [heq]
    cases hdf : check.dflt with
    | none => exact zero_proj_nodflt env url check _ hdf
    | some d =>
        rcases hdz d hdf with ⟨m, hm⟩ | ⟨dcode, hdc, hdl⟩
        · exact zero_proj_err env url check _ d m hdf hm
        · exact zero_proj_nocode env url check _ d dcode hdf hdc hdl
  exact ⟨roleCorrValue_none_of_not_needed env url c2 check hcn,
    by rw [heq]; exact checkRoleZero_issue env url check _⟩

theorem checkRole_stable_zcase (env : Env) (url : String) (chain c2 : Chain)
    (check : ContractCheck)
    (hd : ∀ d, check.dflt = some d →
      d ≠ "" ∧ d ≠ ZERO_ADDRESS ∧ env.getAddress d = some d)
    (cfgA : Option String)
    (hlk1 : olookup chain.addresses check.key = cfgA)
    (hres1 : checkRole env url chain check = checkRoleZero env url check cfgA)
    (hbz : bfValue cfgA = ZERO_ADDRESS)
    (hAne : ∀ d, check.dflt = some d → cfgA ≠ some d)
    (hpost : olookup c2.addresses check.key =
      some (bfValue (match roleCorrValue env url chain check with
        | some v => some v
        | none => cfgA))) :
    roleCorrValue env url c2 check = none ∧
    (checkRole env url c2 check).checksumIssue = none := by
  cases hdf : check.dflt with
  | none =>
      have hrcv1 : roleCorrValue env url chain check = none :=
        roleCorrValue_none_of_not_needed env url chain check
          (by rw [hres1]; exact zero_proj_nodflt env url check _ hdf)
      rw [hrcv1] at hpost
      dsimp only at hpost
      rw [hbz] at hpost
      exact checkRole_stable_zero env url c2 check hpost
        (fun d hdfd => absurd (hdf ▸ hdfd) (by simp))
  | some d =>
      obtain ⟨hd1, hd2, hd3⟩ := hd d hdf
      cases hdc : env.getCode url d with
      | error m =>
          have hrcv1 : roleCorrValue env url chain check = none :=
            roleCorrValue_none_of_not_needed env url chain check
              (by rw [hres1]; exact zero_proj_err env url check _ d m hdf hdc)
          rw [hrcv1] at hpost
          dsimp only at hpost
          rw [hbz] at hpost
          refine checkRole_stable_zero env url c2 check hpost ?_
          intro d2 hdfd
          rw [hdf] at hdfd
          injection hdfd with hdd
          subst hdd
          exact Or.inl ⟨m, hdc⟩
      | ok dcode =>
          by_cases hdl : 0 < codeLenOf dcode
          · obtain ⟨hcn, hfa⟩ := zero_proj_code env url check cfgA d dcode hdf hdc hdl
            have hrcv1 : roleCorrValue env url chain check = some d := by
              unfold roleCorrValue
              rw [if_pos ⟨by rw [hres1]; exact hcn,
                by rw [hres1, hfa, hlk1]; exact fun h => hAne d hdf h.symm⟩]
              rw [hres1, hfa]
            rw [hrcv1] at hpost
            dsimp only at hpost
            have hbd : bfValue (some d) = d := by simp only [bfValue, if_neg hd1]
            rw [hbd] at hpost
            exact checkRole_stable_canon env url c2 check d hpost hd1 hd2 hd3 dcode hdc hdl
          · have hrcv1 : roleCorrValue env url chain check = none :=
              roleCorrValue_none_of_not_needed env url chain check
                (by rw [hres1]; exact zero_proj_nocode env url check _ d dcode hdf hdc hdl)
            rw [hrcv1] at hpost
            dsimp only at hpost
            rw [hbz] at hpost
            refine checkRole_stable_zero env url c2 check hpost ?_
            intro d2 hdfd
            rw [hdf] at hdfd
            injection hdfd with hdd
            subst hdd
            exact Or.inr ⟨dcode, hdc, hdl⟩

theorem checkRole_stable_nzcase (env : Env) (url : String) (chain c2 : Chain)
    (check : ContractCheck) (a ca : String) (fix : Bool)
    (hd : ∀ d, check.dflt = some d →
      d ≠ "" ∧ d ≠ ZERO_ADDRESS ∧ env.getAddress d = some d)
    (ha1 : a ≠ "") (ha2 : a ≠ ZERO_ADDRESS)
    (hlk1 : olookup chain.addresses check.key = some a)
    (hres1 : checkRole env url chain check = checkRoleNonzeroCore env url check a ca fix)
    (hres2 : olookup c2.addresses check.key = some a →
      checkRole env url c2 check = checkRoleNonzeroCore env url check a ca fix)
    (hfixca : fix = true →
      ca ≠ "" ∧ ca ≠ ZERO_ADDRESS ∧ env.getAddress ca = some ca ∧ ca ≠ a)
    (hpost : olookup c2.addresses check.key =
      some (bfValue (match roleCorrValue env url chain check with
        | some v => some v
        | none => some a))) :
    roleCorrValue env url c2 check = none ∧
    (checkRole env url c2 check).checksumIssue = none := by
  have hba : bfValue (some a) = a := by simp only [bfValue, if_neg ha1]
  have hbz0 : bfValue (some ZERO_ADDRESS) = ZERO_ADDRESS := by
    simp only [bfValue, if_neg (by decide : ¬ZERO_ADDRESS = "")]
  cases hcode : env.getCode url ca with
  | error m =>
      obtain ⟨hcn, hiss⟩ := core_proj_err env url check a ca fix m hcode
      have hrcv1 : roleCorrValue env url chain check = none :=
        roleCorrValue_none_of_not_needed env url chain check (by rw [hres1]; exact hcn)
      rw [hrcv1] at hpost
      dsimp only at hpost
      rw [hba] at hpost
      have heq2 := hres2 hpost
      exact ⟨roleCorrValue_none_of_not_needed env url c2 check (by rw [heq2]; exact hcn),
        by rw [heq2]; exact hiss⟩
  | ok code =>
      by_cases hlen : 0 < codeLenOf code
      · obtain ⟨hcn, hfa, hiss⟩ := core_proj_code env url check a ca fix code hcode hlen
        cases fix with
        | false =>
            have hrcv1 : roleCorrValue env url chain check = none :=
              roleCorrValue_none_of_not_needed env url chain check
                (by rw [hres1]; exact hcn)
            rw [hrcv1] at hpost
            dsimp only at hpost
            rw [hba] at hpost
            have heq2 := hres2 hpost
            refine ⟨roleCorrValue_none_of_not_needed env url c2 check
              (by rw [heq2]; exact hcn), ?_⟩
            rw [heq2, hiss]
            simp
        | true =>
            obtain ⟨hca1, hca2, hcaga, hcane⟩ := hfixca rfl
            have hrcv1 : roleCorrValue env url chain check = some ca := by
              unfold roleCorrValue
              rw [if_pos ⟨by rw [hres1]; exact hcn, by
                rw [hres1, hfa, hlk1]
                intro h
                injection h with hh
                exact hcane hh⟩]
              rw [hres1, hfa]
            rw [hrcv1] at hpost
            dsimp only at hpost
            have hbca : bfValue (some ca) = ca := by simp only [bfValue, if_neg hca1]
            rw [hbca] at hpost
            exact checkRole_stable_canon env url c2 check ca hpost hca1 hca2 hcaga
              code hcode hlen
      · cases hdf : check.dflt with
        | none =>
            obtain ⟨hcn, hfa, hiss⟩ :=
              core_proj_nocode_nodflt env url check a ca fix code hcode hlen hdf
            have hrcv1 : roleCorrValue env url chain check = some ZERO_ADDRESS := by
              unfold roleCorrValue
              rw [if_pos ⟨by rw [hres1]; exact hcn, by
                rw [hres1, hfa, hlk1]
                intro h
                injection h with hh
                exact ha2 hh.symm⟩]
              rw [hres1, hfa]
            rw [hrcv1] at hpost
            dsimp only at hpost
            rw [hbz0] at hpost
            exact checkRole_stable_zero env url c2 check hpost
              (fun d hdfd => absurd (hdf ▸ hdfd) (by simp))
        | some d =>
            obtain ⟨hd1, hd2, hd3⟩ := hd d hdf
            cases hdc : env.getCode url d with
            | error m =>
                obtain ⟨hcn, hiss⟩ :=
                  core_proj_nocode_dflt_err env url check a ca fix code d m hcode hlen hdf hdc
                have hrcv1 : roleCorrValue env url chain check = none :=
                  roleCorrValue_none_of_not_needed env url chain check
                    (by rw [hres1]; exact hcn)
                rw [hrcv1] at hpost
                dsimp only at hpost
                rw [hba] at hpost
                have heq2 := hres2 hpost
                exact ⟨roleCorrValue_none_of_not_needed env url c2 check
                  (by rw [heq2]; exact hcn), by rw [heq2]; exact hiss⟩
            | ok dcode =>
                by_cases hdlen : 0 < codeLenOf dcode
                · obtain ⟨hcn, hfa, hiss⟩ :=
                    core_proj_nocode_dflt_code env url check a ca fix code d dcode
                      hcode hlen hdf hdc hdlen
                  by_cases hdeq : d = a
                  · have hrcv1 : roleCorrValue env url chain check = none := by
                      apply roleCorrValue_none_of_same
                      rw [hres1, hfa, hlk1, hdeq]
                    rw [hrcv1] at hpost
                    dsimp only at hpost
                    rw [hba] at hpost
                    have heq2 := hres2 hpost
                    refine ⟨?_, by rw [heq2]; exact hiss⟩
                    apply roleCorrValue_none_of_same
                    rw [heq2, hfa, hpost, hdeq]
                  · have hrcv1 : roleCorrValue env url chain check = some d := by
                      unfold roleCorrValue
                      rw [if_pos ⟨by rw [hres1]; exact hcn, by
                        rw [hres1, hfa, hlk1]
                        intro h
                        injection h with hh
                        exact hdeq hh⟩]
                      rw [hres1, hfa]
                    rw [hrcv1] at hpost
                    dsimp only at hpost
                    have hbd : bfValue (some d) = d := by simp only [bfValue, if_neg hd1]
                    rw [hbd] at hpost
                    exact checkRole_stable_canon env url c2 check d hpost hd1 hd2 hd3
                      dcode hdc hdlen
                · obtain ⟨hcn, hfa, hiss⟩ :=
                    core_proj_nocode_dflt_nocode env url check a ca fix code d dcode
                      hcode hlen hdf hdc hdlen
                  have hrcv1 : roleCorrValue env url chain check = some ZERO_ADDRESS := by
                    unfold roleCorrValue
                    rw [if_pos ⟨by rw [hres1]; exact hcn, by
                      rw [hres1, hfa, hlk1]
                      intro h
                      injection h with hh
                      exact ha2 hh.symm⟩]
                    rw [hres1, hfa]
                  rw [hrcv1] at hpost
                  dsimp only at hpost
                  rw [hbz0] at hpost
                  refine checkRole_stable_zero env url c2 check hpost ?_
                  intro d2 hdfd
                  rw [hdf] at hdfd
                  injection hdfd with hdd
                  subst hdd
                  exact Or.inr ⟨dcode, hdc, hdlen⟩

/-- Stability of the per-role loop: if a chain's address for a fixed-table
role already reflects one application of the verifier's correction (plus
the required-address backfill), the verifier proposes nothing further for
that role, provided the checksum collaborator is idempotent, truthful on
non-zero addresses, and the role defaults are canonical. -/
theorem checkRole_stable (env : Env) (url : String) (chain c2 : Chain)
    (check : ContractCheck)
    (hIdem : ∀ a ca, env.getAddress a = some ca → env.getAddress ca = some ca)
    (hGA : ∀ a ca, env.getAddress a = some ca →
      ca ≠ "" ∧ (a ≠ ZERO_ADDRESS → ca ≠ ZERO_ADDRESS))
    (hd : ∀ d, check.dflt = some d →
      d ≠ "" ∧ d ≠ ZERO_ADDRESS ∧ env.getAddress d = some d)
    (hpost : olookup c2.addresses check.key =
      some (bfValue (match roleCorrValue env url chain check with
        | some v => some v
        | none => olookup chain.addresses check.key))) :
    roleCorrValue env url c2 check = none ∧
    (checkRole env url c2 check).checksumIssue = none := by
  cases hlk1 : olookup chain.addresses check.key with
  | none =>
      rw [hlk1] at hpost
      exact checkRole_stable_zcase env url chain c2 check hd none hlk1
        (checkRole_eq_zero_none env url chain check hlk1) rfl
        (fun d _ h => Option.noConfusion h) hpost
  | some a =>
      rw [hlk1] at hpost
      by_cases ha : a ≠ "" ∧ a ≠ ZERO_ADDRESS
      · obtain ⟨ha1, ha2⟩ := ha
        cases hga : env.getAddress a with
        | some ca =>
            refine checkRole_stable_nzcase env url chain c2 check a ca (a != ca) hd
              ha1 ha2 hlk1 ?_ ?_ ?_ hpost
            · exact (checkRole_eq_nonzero env url chain check a hlk1 ha1 ha2).trans
                (checkRoleNonzero_eq_some env url check a ca hga)
            · intro hlk2
              exact (checkRole_eq_nonzero env url c2 check a hlk2 ha1 ha2).trans
                (checkRoleNonzero_eq_some env url check a ca hga)
            · intro hfix
              have hne : a ≠ ca := by simpa using hfix
              obtain ⟨hca1, hca2⟩ := hGA a ca hga
              exact ⟨hca1, hca2 ha2, hIdem a ca hga, fun h => hne h.symm⟩
        | none =>
            refine checkRole_stable_nzcase env url chain c2 check a a false hd
              ha1 ha2 hlk1 ?_ ?_ (fun h => absurd h (by simp)) hpost
            · exact (checkRole_eq_nonzero env url chain check a hlk1 ha1 ha2).trans
                (checkRoleNonzero_eq_none env url check a hga)
            · intro hlk2
              exact (checkRole_eq_nonzero env url c2 check a hlk2 ha1 ha2).trans
                (checkRoleNonzero_eq_none env url check a hga)
      · have hbz : bfValue (some a) = ZERO_ADDRESS := by
          by_cases ha1 : a = ""
          · simp only [bfValue, if_pos ha1]
          · have ha2 : a = ZERO_ADDRESS := by
              by_contra ha2
              exact ha ⟨ha1, ha2⟩
            simp only [bfValue, if_neg ha1, ha2]
            simp
        refine checkRole_stable_zcase env url chain c2 check hd (some a) hlk1
          (checkRole_eq_zero_some env url chain check a hlk1 ha) hbz ?_ hpost
        intro d hdf h
        obtain ⟨hd1, hd2, _⟩ := hd d hdf
        injection h with hh
        by_cases ha1 : a = ""
        · exact hd1 (hh.symm.trans ha1)
        · have ha2 : a = ZERO_ADDRESS := by
            by_contra ha2
            exact ha ⟨ha1, ha2⟩
          exact hd2 (hh.symm.trans ha2)

theorem applyCorrectionsOnly_none (chain : Chain) :
    applyCorrectionsOnly chain none = (chain, []) := rfl

theorem spreadMerge_addresses_eq (r c : ChainCorrection) :
    (spreadMerge r c).addresses =
      c.addresses.foldl (fun m q => oinsert m q.1 q.2) r.addresses := rfl

theorem spreadMerge_idx (r c : ChainCorrection) (hc : c.defaultRpcUrlIndex = none) :
    (spreadMerge r c).defaultRpcUrlIndex = r.defaultRpcUrlIndex := by
  unfold spreadMerge
  dsimp only
  rw [hc]

theorem spreadMerge_chainId (r c : ChainCorrection) (hc : c.chainId = none) :
    (spreadMerge r c).chainId = r.chainId := by
  unfold spreadMerge
  dsimp only
  rw [hc]

theorem spreadMerge_lookup (r c : ChainCorrection) (hr : r.addresses = [])
    (hnd : (c.addresses.map Prod.fst).Nodup) (x : String) :
    olookup (spreadMerge r c).addresses x = olookup c.addresses x := by
  rw [spreadMerge_addresses_eq, hr, olookup_foldl_oinsert_nodup c.addresses [] x hnd]
  cases olookup c.addresses x <;> rfl

theorem spreadMerge_addr_nodup (r c : ChainCorrection) (hr : r.addresses = []) :
    ((spreadMerge r c).addresses.map Prod.fst).Nodup := by
  rw [spreadMerge_addresses_eq, hr]
  exact oinsertFold_keys_nodup c.addresses [] (by simp)

theorem contractChecks_key_mem_required :
    ∀ c ∈ contractChecks, c.key ∈ REQUIRED_ADDRESSES := by decide

theorem contractChecks_key_ne_usdc : ∀ c ∈ contractChecks, c.key ≠ "usdc" := by decide

theorem contractChecks_key_ne_usdt : ∀ c ∈ contractChecks, c.key ≠ "usdt" := by decide

theorem usdc_mem_required : "usdc" ∈ REQUIRED_ADDRESSES := by decide

theorem usdt_mem_required : "usdt" ∈ REQUIRED_ADDRESSES := by decide

theorem tokensToVerify_char (t : String) :
    tokensToVerify.contains t = true ↔ t = "usdc" ∨ t = "usdt" := by
  constructor
  · intro h
    rw [List.contains_iff_exists_mem_beq] at h
    rcases h with ⟨a, ha, hba⟩
    have hb : t = a := by simpa [beq_iff_eq] using hba
    simp only [tokensToVerify, List.mem_cons, List.mem_singleton] at ha
    rcases ha with ha | ha
    · exact Or.inl (hb.trans ha)
    · simp only [List.mem_nil_iff, or_false] at ha
      exact Or.inr (hb.trans ha)
  · intro h
    rw [List.contains_iff_exists_mem_beq]
    rcases h with h | h
    · exact ⟨"usdc", by simp [tokensToVerify], by simp [h]⟩
    · exact ⟨"usdt", by simp [tokensToVerify], by simp [h]⟩

theorem applyCorrectionsOnly_addr_nodup (chain : Chain) (cor : Option ChainCorrection)
    (h : (chain.addresses.map Prod.fst).Nodup) :
    ((applyCorrectionsOnly chain cor).1.addresses.map Prod.fst).Nodup := by
  cases cor with
  | none => exact h
  | some cors =>
      unfold applyCorrectionsOnly
      dsimp only
      apply foldl_preserve (fun st : Chain × List String =>
        ((st.1.addresses.map Prod.fst).Nodup)) addrApplyStep
        (fun acc b hacc => addrApplyStep_addr_nodup acc b hacc)
      cases cors.chainId <;> cases cors.defaultRpcUrlIndex <;> exact h

theorem contractCorrectionsChain_token_none (env : Env) (url : String) (chain : Chain)
    (t : String) (ht : ∀ c ∈ contractChecks, c.key ≠ t)
    (htok : ∀ q ∈ chain.addresses, tokensToVerify.contains q.1 = true →
      q.2 = "" ∨ q.2 = ZERO_ADDRESS) :
    olookup (contractCorrectionsChain env url chain) t = none := by
  unfold contractCorrectionsChain
  dsimp only
  rw [tokenPass_id env url chain _ htok]
  have hne : ∀ q ∈ (contractChecks.foldl (roleStep env url chain) ([], [])).2, q.1 ≠ t := by
    intro q hq
    rcases checksFold_snd_mem env url chain contractChecks ([], []) q hq with hin | ⟨c, hc, _, hkey⟩
    · simp at hin
    · rw [hkey]
      exact ht c hc
  rw [oinsertFold_lookup_ne _ _ t hne,
    checksFold_fst_lookup_ne env url chain contractChecks ([], []) t ht]
  rfl

theorem generateCorrectedConfig_corrected (cfg : List (String × Chain))
    (ac : List (String × ChainCorrection)) :
    (generateCorrectedConfig cfg ac).corrected = (cfg.foldl (genStep ac) ([], [])).1 := rfl

theorem generateCorrectedConfig_hasChanges (cfg : List (String × Chain))
    (ac : List (String × ChainCorrection)) :
    (generateCorrectedConfig cfg ac).hasChanges =
      !((cfg.foldl (genStep ac) ([], [])).2.isEmpty) := rfl

/-- The chain a registry entry is mapped to by one full `fix` run. -/
def correctedChain (env : Env) (cfg : List (String × Chain)) (p : String × Chain) : Chain :=
  (applyChainCorrections p.2
    (olookup (mergeCorrections (verifyRpcs env cfg).2
      (verifyContracts env cfg (verifyRpcs env cfg).1).2) p.1)).1

theorem runPipeline_corrected (env : Env) (cfg : List (String × Chain)) :
    (runPipeline env cfg).corrected =
      cfg.map (fun p => (p.1, correctedChain env cfg p)) := by
  unfold runPipeline
  rw [generateCorrectedConfig_corrected, genFold_fst]
  rfl

/-- After one full `fix` run, a chain of the corrected registry triggers no
further RPC correction, no further contract correction, and has every
required role key populated — provided the first run proposed no `chainId`
correction and no usdc/usdt token correction was applicable, and the
checksum collaborator is idempotent, truthful and default-canonical. -/
theorem chain_corrected_stable (env : Env) (cfg : List (String × Chain))
    (hnd : (cfg.map Prod.fst).Nodup)
    (hIdem : ∀ a ca, env.getAddress a = some ca → env.getAddress ca = some ca)
    (hGA : ∀ a ca, env.getAddress a = some ca →
      ca ≠ "" ∧ (a ≠ ZERO_ADDRESS → ca ≠ ZERO_ADDRESS))
    (hDflt : ∀ check ∈ contractChecks,
      match check.dflt with
      | some d => d ≠ "" ∧ d ≠ ZERO_ADDRESS ∧ env.getAddress d = some d
      | none => True)
    (key : String) (chain : Chain) (hmem : (key, chain) ∈ cfg)
    (hNoChainId : (rpcCorrectionChain env chain).chainId = none)
    (hTok : ∀ q ∈ chain.addresses, tokensToVerify.contains q.1 = true →
      q.2 = "" ∨ q.2 = ZERO_ADDRESS)
    (hAddrNd : (chain.addresses.map Prod.fst).Nodup) :
    (correctedChain env cfg (key, chain)).rpcUrls = chain.rpcUrls ∧
    (correctedChain env cfg (key, chain)).chainId = chain.chainId ∧
    rpcCorrectionChain env (correctedChain env cfg (key, chain)) = {} ∧
    (¬((verifyRpcsChain env (correctedChain env cfg (key, chain))).workingRpc.isNone ∧
        (verifyRpcsChain env (correctedChain env cfg (key, chain))).anyWorkingRpc.isNone) →
      contractCorrectionsChain env
        (chosenUrl (verifyRpcsChain env (correctedChain env cfg (key, chain))))
        (correctedChain env cfg (key, chain)) = []) ∧
    (∀ role ∈ REQUIRED_ADDRESSES,
      ∃ v, olookup (correctedChain env cfg (key, chain)).addresses role = some v ∧
        v ≠ "") := by
  have hc2eq : correctedChain env cfg (key, chain) =
      (REQUIRED_ADDRESSES.foldl backfillStep
        (applyCorrectionsOnly chain
          (olookup (mergeCorrections (verifyRpcs env cfg).2
            (verifyContracts env cfg (verifyRpcs env cfg).1).2) key))).1 := by
    unfold correctedChain
    rw [applyChainCorrections_eq]
  have h_rv1 : olookup (verifyRpcs env cfg).1 key = some (verifyRpcsChain env chain) :=
    verifyRpcs_fst_lookup env cfg ([], []) key chain hmem hnd
  have h_rc1 : olookup (verifyRpcs env cfg).2 key =
      (if rpcCorrectionChain env chain = {} then none
       else some (rpcCorrectionChain env chain)) :=
    verifyRpcs_snd_lookup env cfg ([], []) key chain hmem hnd rfl
  have h_cc1 : olookup (verifyContracts env cfg (verifyRpcs env cfg).1).2 key =
      (match olookup (verifyRpcs env cfg).1 key with
       | none => none
       | some v =>
           if v.workingRpc.isNone ∧ v.anyWorkingRpc.isNone then none
           else if contractCorrectionsChain env (chosenUrl v) chain = [] then none
           else some { addresses := contractCorrectionsChain env (chosenUrl v) chain }) :=
    verifyContracts_snd_lookup env (verifyRpcs env cfg).1 cfg ([], []) key chain hmem hnd rfl
  rw [h_rv1] at h_cc1
  dsimp only at h_cc1
  by_cases hskip : (verifyRpcsChain env chain).anyWorkingRpc = none
  · -- the chain is unreachable: no corrections were recorded at all
    have hwn : (verifyRpcsChain env chain).workingRpc = none :=
      workingRpc_none_of_any_none env chain hskip
    have hrc0 : rpcCorrectionChain env chain = {} :=
      rpcCorrectionChain_of_dead env chain hskip
    rw [if_pos hrc0] at h_rc1
    rw [if_pos ⟨by rw [hwn]; rfl, by rw [hskip]; rfl⟩] at h_cc1
    have hmcnone : olookup (mergeCorrections (verifyRpcs env cfg).2
        (verifyContracts env cfg (verifyRpcs env cfg).1).2) key = none := by
      rw [mergeCorrections_lookup]
      rw [if_neg]
      intro h
      rcases h with h | h
      · exact (olookup_none_iff_not_mem _ _).mp h_rc1 h
      · exact (olookup_none_iff_not_mem _ _).mp h_cc1 h
    rw [hmcnone, applyCorrectionsOnly_none] at hc2eq
    have h1 : (correctedChain env cfg (key, chain)).rpcUrls = chain.rpcUrls := by
      rw [hc2eq]
      exact (backfill_fold_scalars REQUIRED_ADDRESSES (chain, [])).1
    have h2 : (correctedChain env cfg (key, chain)).chainId = chain.chainId := by
      rw [hc2eq]
      exact (backfill_fold_scalars REQUIRED_ADDRESSES (chain, [])).2.1
    have hv2 : verifyRpcsChain env (correctedChain env cfg (key, chain)) =
        verifyRpcsChain env chain :=
      verifyRpcsChain_congr env chain _ h1 h2
    refine ⟨h1, h2, ?_, ?_, ?_⟩
    · apply rpcCorrectionChain_of_dead
      rw [hv2]
      exact hskip
    · intro hns
      exfalso
      apply hns
      rw [hv2, hwn, hskip]
      exact ⟨rfl, rfl⟩
    · intro role hrole
      rw [hc2eq]
      exact backfill_fold_truthy REQUIRED_ADDRESSES (chain, []) role hrole
  · -- at least one endpoint is reachable
    have hskipc : ¬((verifyRpcsChain env chain).workingRpc.isNone ∧
        (verifyRpcsChain env chain).anyWorkingRpc.isNone) := by
      intro hs
      exact hskip (Option.isNone_iff_eq_none.mp hs.2)
    rw [if_neg hskipc] at h_cc1
    -- uniform characterization of the corrected chain before the backfill
    have hchar :
        (applyCorrectionsOnly chain
          (olookup (mergeCorrections (verifyRpcs env cfg).2
            (verifyContracts env cfg (verifyRpcs env cfg).1).2) key)).1.rpcUrls =
          chain.rpcUrls ∧
        (applyCorrectionsOnly chain
          (olookup (mergeCorrections (verifyRpcs env cfg).2
            (verifyContracts env cfg (verifyRpcs env cfg).1).2) key)).1.chainId =
          chain.chainId ∧
        (applyCorrectionsOnly chain
          (olookup (mergeCorrections (verifyRpcs env cfg).2
            (verifyContracts env cfg (verifyRpcs env cfg).1).2) key)).1.defaultRpcUrlIndex =
          (match (rpcCorrectionChain env chain).defaultRpcUrlIndex with
           | some i => i
           | none => chain.defaultRpcUrlIndex) ∧
        (∀ x, olookup (applyCorrectionsOnly chain
          (olookup (mergeCorrections (verifyRpcs env cfg).2
            (verifyContracts env cfg (verifyRpcs env cfg).1).2) key)).1.addresses x =
          (match olookup (contractCorrectionsChain env
              (chosenUrl (verifyRpcsChain env chain)) chain) x with
           | some v => some v
           | none => olookup chain.addresses x)) ∧
        ((applyCorrectionsOnly chain
          (olookup (mergeCorrections (verifyRpcs env cfg).2
            (verifyContracts env cfg (verifyRpcs env cfg).1).2) key)).1.addresses.map
              Prod.fst).Nodup := by
      by_cases hrc0 : rpcCorrectionChain env chain = {}
      · rw [if_pos hrc0] at h_rc1
        by_cases hccc0 : contractCorrectionsChain env
            (chosenUrl (verifyRpcsChain env chain)) chain = []
        · rw [if_pos hccc0] at h_cc1
          have hmcnone : olookup (mergeCorrections (verifyRpcs env cfg).2
              (verifyContracts env cfg (verifyRpcs env cfg).1).2) key = none := by
            rw [mergeCorrections_lookup]
            rw [if_neg]
            intro h
            rcases h with h | h
            · exact (olookup_none_iff_not_mem _ _).mp h_rc1 h
            · exact (olookup_none_iff_not_mem _ _).mp h_cc1 h
          rw [hmcnone, applyCorrectionsOnly_none]
          refine ⟨rfl, rfl, ?_, ?_, hAddrNd⟩
          · rw [hrc0]
          · intro x
            rw [hccc0]
            rfl
        · rw [if_neg hccc0] at h_cc1
          have hcmem : key ∈
              ((verifyContracts env cfg (verifyRpcs env cfg).1).2.map Prod.fst) := by
            by_contra hnm
            have hz := (olookup_none_iff_not_mem _ _).mpr hnm
            rw [hz] at h_cc1
            exact Option.noConfusion h_cc1
          have hmcsome : olookup (mergeCorrections (verifyRpcs env cfg).2
              (verifyContracts env cfg (verifyRpcs env cfg).1).2) key =
              some (spreadMerge {}
                { addresses := contractCorrectionsChain env
                    (chosenUrl (verifyRpcsChain env chain)) chain }) := by
            rw [mergeCorrections_lookup, if_pos (Or.inr hcmem), h_rc1, h_cc1]
            rfl
          rw [hmcsome]
          have hccnd : (((⟨none, none, contractCorrectionsChain env
              (chosenUrl (verifyRpcsChain env chain)) chain⟩ :
                ChainCorrection).addresses).map Prod.fst).Nodup :=
            contractCorrectionsChain_nodupKeys env _ chain
          refine ⟨applyCorrectionsOnly_rpcUrls chain _, ?_, ?_, ?_,
            applyCorrectionsOnly_addr_nodup chain _ hAddrNd⟩
          · rw [applyCorrectionsOnly_chainId]
            rw [spreadMerge_chainId _ _ rfl]
          · rw [applyCorrectionsOnly_idx]
            rw [spreadMerge_idx _ _ rfl, hrc0]
          · intro x
            rw [applyCorrectionsOnly_lookup chain _ x (spreadMerge_addr_nodup _ _ rfl)]
            rw [spreadMerge_lookup _ _ rfl hccnd x]
      · rw [if_neg hrc0] at h_rc1
        have hrmem : key ∈ ((verifyRpcs env cfg).2.map Prod.fst) := by
          by_contra hnm
          have hz := (olookup_none_iff_not_mem _ _).mpr hnm
          rw [hz] at h_rc1
          exact Option.noConfusion h_rc1
        by_cases hccc0 : contractCorrectionsChain env
            (chosenUrl (verifyRpcsChain env chain)) chain = []
        · rw [if_pos hccc0] at h_cc1
          have hmcsome : olookup (mergeCorrections (verifyRpcs env cfg).2
              (verifyContracts env cfg (verifyRpcs env cfg).1).2) key =
              some (spreadMerge (rpcCorrectionChain env chain) {}) := by
            rw [mergeCorrections_lookup, if_pos (Or.inl hrmem), h_rc1, h_cc1]
            rfl
          rw [hmcsome]
          have hsadr : (spreadMerge (rpcCorrectionChain env chain)
              ({} : ChainCorrection)).addresses = [] :=
            (rfl : (spreadMerge (rpcCorrectionChain env chain)
              ({} : ChainCorrection)).addresses =
                (rpcCorrectionChain env chain).addresses).trans
              (rpcCorrectionChain_addresses env chain)
          refine ⟨applyCorrectionsOnly_rpcUrls chain _, ?_, ?_, ?_,
            applyCorrectionsOnly_addr_nodup chain _ hAddrNd⟩
          · rw [applyCorrectionsOnly_chainId]
            rw [spreadMerge_chainId _ _ rfl, hNoChainId]
          · rw [applyCorrectionsOnly_idx]
            rw [spreadMerge_idx _ _ rfl]
          · intro x
            rw [applyCorrectionsOnly_lookup chain _ x (by rw [hsadr]; simp)]
            rw [hsadr, olookup_nil, hccc0, olookup_nil]
        · rw [if_neg hccc0] at h_cc1
          have hcmem : key ∈
              ((verifyContracts env cfg (verifyRpcs env cfg).1).2.map Prod.fst) := by
            by_contra hnm
            have hz := (olookup_none_iff_not_mem _ _).mpr hnm
            rw [hz] at h_cc1
            exact Option.noConfusion h_cc1
          have hmcsome : olookup (mergeCorrections (verifyRpcs env cfg).2
              (verifyContracts env cfg (verifyRpcs env cfg).1).2) key =
              some (spreadMerge (rpcCorrectionChain env chain)
                { addresses := contractCorrectionsChain env
                    (chosenUrl (verifyRpcsChain env chain)) chain }) := by
            rw [mergeCorrections_lookup, if_pos (Or.inl hrmem), h_rc1, h_cc1]
            rfl
          rw [hmcsome]
          have hccnd : (((⟨none, none, contractCorrectionsChain env
              (chosenUrl (verifyRpcsChain env chain)) chain⟩ :
                ChainCorrection).addresses).map Prod.fst).Nodup :=
            contractCorrectionsChain_nodupKeys env _ chain
          refine ⟨applyCorrectionsOnly_rpcUrls chain _, ?_, ?_, ?_,
            applyCorrectionsOnly_addr_nodup chain _ hAddrNd⟩
          · rw [applyCorrectionsOnly_chainId]
            rw [spreadMerge_chainId _ _ rfl, hNoChainId]
          · rw [applyCorrectionsOnly_idx]
            rw [spreadMerge_idx _ _ rfl]
          · intro x
            rw [applyCorrectionsOnly_lookup chain _ x
              (spreadMerge_addr_nodup _ _ (rpcCorrectionChain_addresses env chain))]
            rw [spreadMerge_lookup _ _ (rpcCorrectionChain_addresses env chain) hccnd x]
    obtain ⟨hu, hci, hidx, hlkp, hpnd⟩ := hchar
    have h1 : (correctedChain env cfg (key, chain)).rpcUrls = chain.rpcUrls := by
      rw [hc2eq]
      exact ((backfill_fold_scalars REQUIRED_ADDRESSES _).1).trans hu
    have h2 : (correctedChain env cfg (key, chain)).chainId = chain.chainId := by
      rw [hc2eq]
      exact ((backfill_fold_scalars REQUIRED_ADDRESSES _).2.1).trans hci
    have hv2 : verifyRpcsChain env (correctedChain env cfg (key, chain)) =
        verifyRpcsChain env chain :=
      verifyRpcsChain_congr env chain _ h1 h2
    have hidx2 : (correctedChain env cfg (key, chain)).defaultRpcUrlIndex =
        (match (rpcCorrectionChain env chain).defaultRpcUrlIndex with
         | some i => i
         | none => chain.defaultRpcUrlIndex) := by
      rw [hc2eq]
      exact ((backfill_fold_scalars REQUIRED_ADDRESSES _).2.2).trans hidx
    refine ⟨h1, h2, ?_, ?_, ?_⟩
    · -- the second run proposes no RPC correction
      rcases rpcCorrectionChain_cases env chain hNoChainId with ⟨w, hw, heq⟩ | ⟨_, han, _⟩
      · by_cases hi : (w.index : Int) ≠ chain.defaultRpcUrlIndex
        · have hpi : (rpcCorrectionChain env chain).defaultRpcUrlIndex =
              some (w.index : Int) := by
            rw [heq, if_pos hi]
          apply rpcCorrectionChain_of_match env _ w
          · rw [hv2]
            exact hw
          · rw [hidx2, hpi]
        · have hieq : (w.index : Int) = chain.defaultRpcUrlIndex := not_not.mp hi
          have hpi : (rpcCorrectionChain env chain).defaultRpcUrlIndex = none := by
            rw [heq, if_neg hi]
          apply rpcCorrectionChain_of_match env _ w
          · rw [hv2]
            exact hw
          · rw [hidx2, hpi]
            exact hieq
      · exact absurd han hskip
    · -- the second run proposes no contract correction
      intro _
      rw [hv2]
      have hnd2 : ((correctedChain env cfg (key, chain)).addresses.map Prod.fst).Nodup := by
        rw [hc2eq]
        exact foldl_preserve
          (fun st : Chain × List String => ((st.1.addresses.map Prod.fst).Nodup))
          backfillStep (fun a b h => backfillStep_addr_nodup a b h)
          REQUIRED_ADDRESSES _ hpnd
      have husdc : olookup (correctedChain env cfg (key, chain)).addresses "usdc" =
          some ZERO_ADDRESS := by
        rw [hc2eq, backfill_fold_lookup_mem REQUIRED_ADDRESSES _ "usdc" usdc_mem_required,
          hlkp "usdc",
          contractCorrectionsChain_token_none env _ chain "usdc"
            contractChecks_key_ne_usdc hTok]
        dsimp only
        cases hcl : olookup chain.addresses "usdc" with
        | none => rfl
        | some v =>
            rcases hTok ("usdc", v) (olookup_mem _ _ _ hcl)
                (by rw [tokensToVerify_char]; exact Or.inl rfl) with hv | hv
            · dsimp only at hv
              rw [hv]
              simp only [bfValue, if_pos rfl]
              simp
            · dsimp only at hv
              rw [hv]
              simp only [bfValue, if_neg (by decide : ¬ZERO_ADDRESS = "")]
      have husdt : olookup (correctedChain env cfg (key, chain)).addresses "usdt" =
          some ZERO_ADDRESS := by
        rw [hc2eq, backfill_fold_lookup_mem REQUIRED_ADDRESSES _ "usdt" usdt_mem_required,
          hlkp "usdt",
          contractCorrectionsChain_token_none env _ chain "usdt"
            contractChecks_key_ne_usdt hTok]
        dsimp only
        cases hcl : olookup chain.addresses "usdt" with
        | none => rfl
        | some v =>
            rcases hTok ("usdt", v) (olookup_mem _ _ _ hcl)
                (by rw [tokensToVerify_char]; exact Or.inr rfl) with hv | hv
            · dsimp only at hv
              rw [hv]
              simp only [bfValue, if_pos rfl]
              simp
            · dsimp only at hv
              rw [hv]
              simp only [bfValue, if_neg (by decide : ¬ZERO_ADDRESS = "")]
      apply contractCorrectionsChain_empty
      · intro c hc
        have hd' : ∀ d, c.dflt = some d →
            d ≠ "" ∧ d ≠ ZERO_ADDRESS ∧ env.getAddress d = some d := by
          intro d hdf
          have hx := hDflt c hc
          rw [hdf] at hx
          exact hx
        have hpost : olookup (correctedChain env cfg (key, chain)).addresses c.key =
            some (bfValue (match roleCorrValue env
                (chosenUrl (verifyRpcsChain env chain)) chain c with
              | some v => some v
              | none => olookup chain.addresses c.key)) := by
          rw [hc2eq, backfill_fold_lookup_mem REQUIRED_ADDRESSES _ c.key
              (contractChecks_key_mem_required c hc),
            hlkp c.key,
            contractCorrectionsChain_lookup_role env
              (chosenUrl (verifyRpcsChain env chain)) chain c hc]
        exact (checkRole_stable env (chosenUrl (verifyRpcsChain env chain)) chain
          (correctedChain env cfg (key, chain)) c hIdem hGA hd' hpost).1
      · intro q hq ht
        have hlq := mem_olookup_of_nodup _ hnd2 q hq
        rcases (tokensToVerify_char q.1).mp ht with h | h
        · rw [h, husdc] at hlq
          injection hlq with hh
          exact Or.inr hh.symm
        · rw [h, husdt] at hlq
          injection hlq with hh
          exact Or.inr hh.symm
    · intro role hrole
      rw [hc2eq]
      exact backfill_fold_truthy REQUIRED_ADDRESSES _ role hrole

theorem verifyRpcs_eq (env : Env) (cfg : List (String × Chain)) :
    verifyRpcs env cfg = cfg.foldl (verifyRpcsStep env) ([], []) := rfl

theorem verifyContracts_eq (env : Env) (cfg : List (String × Chain))
    (rv : List (String × RpcVerdict)) :
    verifyContracts env cfg rv = cfg.foldl (verifyContractsStep env rv) ([], []) := rfl

theorem mergeCorrections_nil : mergeCorrections [] [] = [] := rfl

attribute [irreducible] verifyRpcs verifyContracts applyChainCorrections mergeCorrections

set_option maxHeartbeats 1600000 in
/-- C9 (amended): one full `fix` run reaches a fixed point — the second run
over the corrected registry reports no changes — provided the registry has
no duplicate chain or address keys, the first run proposed no `chainId`
correction and every usdc/usdt token entry was empty or zero, and address
checksumming is idempotent, truthful on non-zero addresses, and maps each
role default to itself. -/
theorem runPipeline_idempotent (env : Env) (cfg : List (String × Chain))
    (hnd : (cfg.map Prod.fst).Nodup)
    (hAddrNd : ∀ p ∈ cfg, (p.2.addresses.map Prod.fst).Nodup)
    (hIdem : ∀ a ca, env.getAddress a = some ca → env.getAddress ca = some ca)
    (hGA : ∀ a ca, env.getAddress a = some ca →
      ca ≠ "" ∧ (a ≠ ZERO_ADDRESS → ca ≠ ZERO_ADDRESS))
    (hDflt : ∀ check ∈ contractChecks,
      match check.dflt with
      | some d => d ≠ "" ∧ d ≠ ZERO_ADDRESS ∧ env.getAddress d = some d
      | none => True)
    (hNoChainId : ∀ p ∈ cfg, (rpcCorrectionChain env p.2).chainId = none)
    (hTok : ∀ p ∈ cfg, ∀ q ∈ p.2.addresses, tokensToVerify.contains q.1 = true →
      q.2 = "" ∨ q.2 = ZERO_ADDRESS) :
    (runPipeline env (runPipeline env cfg).corrected).hasChanges = false := by
  have hstab := fun (p : String × Chain) (hp : p ∈ cfg) =>
    chain_corrected_stable env cfg hnd hIdem hGA hDflt p.1 p.2 hp
      (hNoChainId p hp) (hTok p hp) (hAddrNd p hp)
  rw [runPipeline_corrected env cfg]
  have hkeys : ((cfg.map (fun p => (p.1, correctedChain env cfg p))).map Prod.fst) =
      cfg.map Prod.fst := by
    rw [List.map_map]
    rfl
  have hnd2 : ((cfg.map (fun p => (p.1, correctedChain env cfg p))).map Prod.fst).Nodup := by
    rw [hkeys]
    exact hnd
  have hrpc2 : (verifyRpcs env (cfg.map (fun p => (p.1, correctedChain env cfg p)))).2 =
      [] := by
    rw [verifyRpcs_eq]
    apply verifyRpcs_snd_nil env (cfg.map (fun p => (p.1, correctedChain env cfg p))) ([], [])
    intro p' hp'
    rcases List.mem_map.mp hp' with ⟨⟨k, ch⟩, hp, rfl⟩
    exact (hstab (k, ch) hp).2.2.1
  have hcc2 : (verifyContracts env (cfg.map (fun p => (p.1, correctedChain env cfg p)))
      (verifyRpcs env (cfg.map (fun p => (p.1, correctedChain env cfg p)))).1).2 = [] := by
    rw [verifyContracts_eq]
    apply verifyContracts_snd_nil env _ _ ([], [])
    intro p' hp' v hv
    rcases List.mem_map.mp hp' with ⟨⟨k, ch⟩, hp, rfl⟩
    have hv' : olookup (verifyRpcs env
        (cfg.map (fun p => (p.1, correctedChain env cfg p)))).1 k =
        some (verifyRpcsChain env (correctedChain env cfg (k, ch))) := by
      rw [verifyRpcs_eq]
      exact verifyRpcs_fst_lookup env _ ([], []) k (correctedChain env cfg (k, ch)) hp' hnd2
    rw [hv'] at hv
    injection hv with hveq
    by_cases hskip2 : v.workingRpc.isNone ∧ v.anyWorkingRpc.isNone
    · exact Or.inl hskip2
    · right
      rw [← hveq] at hskip2 ⊢
      exact (hstab (k, ch) hp).2.2.2.1 hskip2
  unfold runPipeline
  rw [hrpc2, hcc2]
  rw [mergeCorrections_nil, generateCorrectedConfig_hasChanges]
  rw [genFold_snd_empty [] (cfg.map (fun p => (p.1, correctedChain env cfg p))) ([], [])]
  · rfl
  · intro p' hp'
    rcases List.mem_map.mp hp' with ⟨⟨k, ch⟩, hp, rfl⟩
    rw [olookup_nil, applyChainCorrections_eq, applyCorrectionsOnly_none]
    show (REQUIRED_ADDRESSES.foldl backfillStep
      (correctedChain env cfg ((k, ch).1, (k, ch).2), [])).2 = []
    rw [backfill_fold_id REQUIRED_ADDRESSES
      (correctedChain env cfg ((k, ch).1, (k, ch).2), [])
      (fun x hx => (hstab (k, ch) hp).2.2.2.2 x hx)]

/-- Concrete collaborator for the idempotence witness: endpoint `A` is live
with chainId 1, every address has bytecode, and checksumming is the
identity on non-empty strings. -/
def envC9w : Env :=
  { getNetwork := fun u => if u = "A" then some 1 else none
    getCode := fun _ _ => Except.ok "0x1234"
    callOk := fun _ _ _ => true
    getAddress := fun a => if a = "" then none else some a }

def cfgC9w : List (String × Chain) :=
  [("w", { chainId := 1, rpcUrls := ["A"], defaultRpcUrlIndex := 0, addresses := [] })]

theorem runPipeline_idempotent_witness :
    (runPipeline envC9w (runPipeline envC9w cfgC9w).corrected).hasChanges = false :=
  runPipeline_idempotent envC9w cfgC9w (by decide) (by decide)
    (by
      intro a ca h
      dsimp only [envC9w] at h ⊢
      by_cases ha : a = ""
      · rw [if_pos ha] at h
        exact Option.noConfusion h
      · rw [if_neg ha] at h
        injection h with hh
        subst hh
        rw [if_neg ha])
    (by
      intro a ca h
      dsimp only [envC9w] at h
      by_cases ha : a = ""
      · rw [if_pos ha] at h
        exact Option.noConfusion h
      · rw [if_neg ha] at h
        injection h with hh
        subst hh
        exact ⟨ha, fun h2 => h2⟩)
    (by
      intro check hc
      fin_cases hc <;> first
        | exact trivial
        | exact ⟨by decide, by decide, by decide⟩)
    (by decide) (by decide)
